import Mathlib

/-!
Verification development for the h-lang compiler (Go → C transpiler).

The definitions below are a shallow embedding of the repository's source:
  * `HL` — the lexer, from `src/pkg/lexer/lexer.go` and the token tables in
    `src/unnamed/part_000`.  Go strings are modelled as lists of byte values
    (`List Nat`); Go's `byte` sentinel `0` is kept as-is.  The scanner loops
    of the Go code are expressed with an explicit fuel argument so that the
    definitions stay structurally recursive (and hence kernel-reducible);
    the fuel passed at every call site, `lexFuel l = input.length + 1 - readPos`,
    is exactly the number of `readChar` steps after which the cursor is
    guaranteed to sit on the `0` sentinel, so no loop is ever cut short.
  * `HP` — the `for`-statement dispatch of the parser, from
    `src/unnamed/part_002` (`parseForStatement` and friends).
  * `HG` — the C emitter, from `src/pkg/codegen/codegen.go`; the parts of the
    emitter that are exercised by the repository's tests but absent from the
    `src/` snapshot (map runtime, `for … range` lowering) are modelled from
    the specification and marked `Modelled from the spec:`.
-/

namespace HL

/-- Token kinds of the lexer, from the `TokenType` enumeration in
`src/unnamed/part_000`. -/
inductive TokenType where
  | ILLEGAL | EOF | COMMENT
  | IDENT | INT | FLOAT | STRING | CHAR
  | ASSIGN | PLUS | MINUS | ASTERISK | SLASH | PERCENT | BANG | AMPERSAND
  | LT | GT | LTE | GTE | EQ | NEQ | AND | OR
  | INCREMENT | DECREMENT
  | PLUS_ASSIGN | MINUS_ASSIGN | MUL_ASSIGN | DIV_ASSIGN
  | WALRUS
  | COMMA | SEMICOLON | COLON | DOT | ARROW
  | LPAREN | RPAREN | LBRACE | RBRACE | LBRACKET | RBRACKET
  | FUNCTION | STRUCT | ENUM | IMPORT | IF | ELSE | FOR | WHILE | RETURN
  | CONST | VAR | PUBLIC | NULL | TRUE | FALSE | ALLOC | FREE | DEFER
  | LEN | MAKE | RANGE | BREAK | CONTINUE | MAP | DELETE
  | TYPE_INT | TYPE_FLOAT | TYPE_STRING | TYPE_CHAR | TYPE_BOOL | TYPE_VOID
  deriving DecidableEq, Repr

/-- A lexical token: `(Type, Literal, Line, Column)`, with the literal kept as
raw bytes. -/
structure Token where
  type : TokenType
  literal : List Nat
  line : Nat
  column : Nat
  deriving DecidableEq, Repr

/-- Byte values of an ASCII string literal (used for keyword tables and
expected literals). -/
def strBytes (s : String) : List Nat := s.data.map Char.toNat

/-- The keyword table of the lexer (`keywords` in `src/unnamed/part_000`). -/
def keywords : List (List Nat × TokenType) :=
  [(strBytes "function", .FUNCTION), (strBytes "struct", .STRUCT),
   (strBytes "enum", .ENUM), (strBytes "import", .IMPORT), (strBytes "if", .IF),
   (strBytes "else", .ELSE), (strBytes "for", .FOR), (strBytes "while", .WHILE),
   (strBytes "return", .RETURN), (strBytes "const", .CONST), (strBytes "var", .VAR),
   (strBytes "public", .PUBLIC), (strBytes "null", .NULL), (strBytes "true", .TRUE),
   (strBytes "false", .FALSE), (strBytes "alloc", .ALLOC), (strBytes "free", .FREE),
   (strBytes "defer", .DEFER), (strBytes "len", .LEN), (strBytes "make", .MAKE),
   (strBytes "range", .RANGE), (strBytes "break", .BREAK),
   (strBytes "continue", .CONTINUE), (strBytes "map", .MAP),
   (strBytes "delete", .DELETE), (strBytes "int", .TYPE_INT),
   (strBytes "float", .TYPE_FLOAT), (strBytes "string", .TYPE_STRING),
   (strBytes "char", .TYPE_CHAR), (strBytes "bool", .TYPE_BOOL),
   (strBytes "void", .TYPE_VOID)]

/-- Keyword lookup (`LookupIdent`): consult the keyword table, falling back
to `IDENT`. -/
def lookupIdent (s : List Nat) : TokenType :=
  match keywords.find? (fun kv => kv.1 == s) with
  | some kv => kv.2
  | none => .IDENT

/-- Lexer state: `(input, pos, readPos, ch, line, column)` as in the Go
`Lexer` struct. -/
structure Lexer where
  input : List Nat
  pos : Nat
  readPos : Nat
  ch : Nat
  line : Nat
  column : Nat
  deriving DecidableEq, Repr

/-- Advance one byte (`readChar`): `ch` becomes the byte at `readPos`, or the
sentinel `0` past end of input; newline bookkeeping as in the source. -/
def readChar (l : Lexer) : Lexer :=
  let c := if l.input.length ≤ l.readPos then 0 else l.input.getD l.readPos 0
  let l1 : Lexer :=
    { l with ch := c, pos := l.readPos, readPos := l.readPos + 1, column := l.column + 1 }
  if c = 10 then { l1 with line := l1.line + 1, column := 0 } else l1

/-- One byte of lookahead (`peekChar`). -/
def peekChar (l : Lexer) : Nat :=
  if l.input.length ≤ l.readPos then 0 else l.input.getD l.readPos 0

/-- Construct a lexer on an input (`New`): fields zeroed, `line = 1`, then one
`readChar`. -/
def newLexer (input : List Nat) : Lexer :=
  readChar { input := input, pos := 0, readPos := 0, ch := 0, line := 1, column := 0 }

/-- Fuel that certainly lets a scanner loop run until the cursor reaches the
end-of-input sentinel: one `readChar` per unit, and after
`input.length + 1 - readPos` steps the cursor is past the end. -/
def lexFuel (l : Lexer) : Nat := l.input.length + 1 - l.readPos

/-- Go slice `input[a:b]`.  (In Go a slice with `b > len(input)` panics; here
it truncates.  The only lexer path that can produce such a bound is an
unterminated string whose last byte is an escaping backslash, and the theorems
about `readString` exclude that case explicitly.) -/
def extract (inp : List Nat) (a b : Nat) : List Nat := (inp.drop a).take (b - a)

/-- Whitespace test of `skipWhitespace`: space, tab, newline, carriage
return. -/
def isWS (c : Nat) : Bool := c == 32 || c == 9 || c == 10 || c == 13

/-- Letter test (`isLetter`): `unicode.IsLetter(rune(ch)) || ch == '_'` for a
byte, i.e. ASCII letters, `_`, and the Latin-1 letters `ª µ º À–Ö Ø–ö ø–ÿ`. -/
def isLetter (c : Nat) : Bool :=
  (65 ≤ c && c ≤ 90) || (97 ≤ c && c ≤ 122) || c == 95 ||
  c == 170 || c == 181 || c == 186 ||
  (192 ≤ c && c ≤ 214) || (216 ≤ c && c ≤ 246) || (248 ≤ c && c ≤ 255)

/-- Digit test (`isDigit`). -/
def isDigit (c : Nat) : Bool := 48 ≤ c && c ≤ 57

/-- Loop of `skipWhitespace`. -/
def skipWhitespaceF : Nat → Lexer → Lexer
  | 0, l => l
  | f + 1, l => if isWS l.ch then skipWhitespaceF f (readChar l) else l

/-- Skip whitespace (`skipWhitespace`). -/
def skipWhitespace (l : Lexer) : Lexer := skipWhitespaceF (lexFuel l) l

/-- Loop of `readIdentifier`: letters, digits or `_`. -/
def readIdentLoopF : Nat → Lexer → Lexer
  | 0, l => l
  | f + 1, l =>
    if isLetter l.ch || isDigit l.ch || l.ch == 95 then readIdentLoopF f (readChar l) else l

/-- Scan an identifier (`readIdentifier`), returning the slice from the start
position. -/
def readIdentifier (l : Lexer) : List Nat × Lexer :=
  let l2 := readIdentLoopF (lexFuel l) l
  (extract l.input l.pos l2.pos, l2)

/-- Digit-run loop of `readNumber`. -/
def readDigitsF : Nat → Lexer → Lexer
  | 0, l => l
  | f + 1, l => if isDigit l.ch then readDigitsF f (readChar l) else l

/-- Scan a number (`readNumber`): digits, then optionally `.` + digits,
classifying `INT` or `FLOAT`. -/
def readNumber (l : Lexer) : List Nat × TokenType × Lexer :=
  let l1 := readDigitsF (lexFuel l) l
  if l1.ch = 46 ∧ isDigit (peekChar l1) then
    let l2 := readDigitsF (lexFuel (readChar l1)) (readChar l1)
    (extract l.input l.pos l2.pos, .FLOAT, l2)
  else
    (extract l.input l.pos l1.pos, .INT, l1)

/-- Loop of `readString`: until an (unescaped) closing quote or the sentinel;
a backslash consumes the following byte. -/
def readStringLoopF : Nat → Lexer → Lexer
  | 0, l => l
  | f + 1, l =>
    if l.ch ≠ 34 ∧ l.ch ≠ 0 then
      if l.ch = 92 then readStringLoopF f (readChar (readChar l))
      else readStringLoopF f (readChar l)
    else l

/-- Scan a string literal (`readString`): skip the opening quote, scan, slice,
skip the closing quote. -/
def readString (l : Lexer) : List Nat × Lexer :=
  let l1 := readChar l
  let l2 := readStringLoopF (lexFuel l1) l1
  (extract l.input l1.pos l2.pos, readChar l2)

/-- Scan a char literal (`readChar2`): one byte or a backslash-escaped pair
between single quotes. -/
def readCharLit (l : Lexer) : List Nat × Lexer :=
  let l1 := readChar l
  let l2 := if l1.ch = 92 then readChar l1 else l1
  let l3 := readChar l2
  (extract l.input l1.pos l3.pos, readChar l3)

/-- Loop of `readLineComment`: until newline or the sentinel. -/
def readLineLoopF : Nat → Lexer → Lexer
  | 0, l => l
  | f + 1, l => if l.ch ≠ 10 ∧ l.ch ≠ 0 then readLineLoopF f (readChar l) else l

/-- Scan a line comment (`readLineComment`): skip `//` or `#`, slice until end
of line. -/
def readLineComment (l : Lexer) : List Nat × Lexer :=
  let l1 := if l.ch = 47 then readChar l else l
  let l2 := readChar l1
  let l3 := readLineLoopF (lexFuel l2) l2
  (extract l.input l2.pos l3.pos, l3)

/-- Loop of `readBlockComment`: stops at the sentinel, or at `*/` (returning
the end position of the slice and skipping the two closing bytes). -/
def readBlockLoopF : Nat → Lexer → Nat × Lexer
  | 0, l => (l.pos, l)
  | f + 1, l =>
    if l.ch = 0 then (l.pos, l)
    else if l.ch = 42 ∧ peekChar l = 47 then (l.pos, readChar (readChar l))
    else readBlockLoopF f (readChar l)

/-- Scan a block comment (`readBlockComment`): skip `/*`, loop, slice. -/
def readBlockComment (l : Lexer) : List Nat × Lexer :=
  let l1 := readChar (readChar l)
  let r := readBlockLoopF (lexFuel l1) l1
  (extract l.input l1.pos r.1, r.2)

/-- Single-character token (`newToken`). -/
def singleTok (l : Lexer) (t : TokenType) : Token :=
  { type := t, literal := [l.ch], line := l.line, column := l.column }

/-- Two-character compound token. -/
def twoTok (t : TokenType) (lit : String) (ln col : Nat) : Token :=
  { type := t, literal := strBytes lit, line := ln, column := col }

/-- The cases of the `switch` in `NextToken`, one per tested byte plus the
letter/digit/other fallbacks of the `default` arm. -/
inductive CharCase where
  | ceq | cplus | cminus | cstar | cslash | chash | cpercent | cbang | camp
  | cpipe | clt | cgt | ccolon | ccomma | csemi | cdot | clparen | crparen
  | clbrace | crbrace | clbracket | crbracket | cquote | ctick | cnul
  | cletter | cdigit | cother
  deriving DecidableEq, Repr

/-- Classify the current byte exactly as the `switch` of `NextToken` tests it
(in the source's order: the byte cases, then `0`, then the `default` arm's
letter and digit tests). -/
def charCaseOf (c : Nat) : CharCase :=
  if c = 61 then .ceq
  else if c = 43 then .cplus
  else if c = 45 then .cminus
  else if c = 42 then .cstar
  else if c = 47 then .cslash
  else if c = 35 then .chash
  else if c = 37 then .cpercent
  else if c = 33 then .cbang
  else if c = 38 then .camp
  else if c = 124 then .cpipe
  else if c = 60 then .clt
  else if c = 62 then .cgt
  else if c = 58 then .ccolon
  else if c = 44 then .ccomma
  else if c = 59 then .csemi
  else if c = 46 then .cdot
  else if c = 40 then .clparen
  else if c = 41 then .crparen
  else if c = 123 then .clbrace
  else if c = 125 then .crbrace
  else if c = 91 then .clbracket
  else if c = 93 then .crbracket
  else if c = 34 then .cquote
  else if c = 39 then .ctick
  else if c = 0 then .cnul
  else if isLetter c then .cletter
  else if isDigit c then .cdigit
  else .cother

/-- The dispatch of `NextToken` after whitespace has been skipped: the
token's line and column are captured, then the `switch` on the current byte
(its sequential case tests factored through `charCaseOf`). -/
def nextTokenCore (l : Lexer) : Token × Lexer :=
  let ln := l.line
  let col := l.column
  match charCaseOf l.ch with
  | .ceq =>
    if peekChar l = 61 then (twoTok .EQ "==" ln col, readChar (readChar l))
    else if peekChar l = 62 then (twoTok .ARROW "=>" ln col, readChar (readChar l))
    else (singleTok l .ASSIGN, readChar l)
  | .cplus =>
    if peekChar l = 43 then (twoTok .INCREMENT "++" ln col, readChar (readChar l))
    else if peekChar l = 61 then (twoTok .PLUS_ASSIGN "+=" ln col, readChar (readChar l))
    else (singleTok l .PLUS, readChar l)
  | .cminus =>
    if peekChar l = 45 then (twoTok .DECREMENT "--" ln col, readChar (readChar l))
    else if peekChar l = 61 then (twoTok .MINUS_ASSIGN "-=" ln col, readChar (readChar l))
    else (singleTok l .MINUS, readChar l)
  | .cstar =>
    if peekChar l = 61 then (twoTok .MUL_ASSIGN "*=" ln col, readChar (readChar l))
    else (singleTok l .ASTERISK, readChar l)
  | .cslash =>
    if peekChar l = 47 then
      let r := readLineComment l
      ({ type := .COMMENT, literal := r.1, line := ln, column := col }, r.2)
    else if peekChar l = 42 then
      let r := readBlockComment l
      ({ type := .COMMENT, literal := r.1, line := ln, column := col }, r.2)
    else if peekChar l = 61 then (twoTok .DIV_ASSIGN "/=" ln col, readChar (readChar l))
    else (singleTok l .SLASH, readChar l)
  | .chash =>
    let r := readLineComment l
    ({ type := .COMMENT, literal := r.1, line := ln, column := col }, r.2)
  | .cpercent => (singleTok l .PERCENT, readChar l)
  | .cbang =>
    if peekChar l = 61 then (twoTok .NEQ "!=" ln col, readChar (readChar l))
    else (singleTok l .BANG, readChar l)
  | .camp =>
    if peekChar l = 38 then (twoTok .AND "&&" ln col, readChar (readChar l))
    else (singleTok l .AMPERSAND, readChar l)
  | .cpipe =>
    if peekChar l = 124 then (twoTok .OR "||" ln col, readChar (readChar l))
    else (singleTok l .ILLEGAL, readChar l)
  | .clt =>
    if peekChar l = 61 then (twoTok .LTE "<=" ln col, readChar (readChar l))
    else (singleTok l .LT, readChar l)
  | .cgt =>
    if peekChar l = 61 then (twoTok .GTE ">=" ln col, readChar (readChar l))
    else (singleTok l .GT, readChar l)
  | .ccolon =>
    if peekChar l = 61 then (twoTok .WALRUS ":=" ln col, readChar (readChar l))
    else (singleTok l .COLON, readChar l)
  | .ccomma => (singleTok l .COMMA, readChar l)
  | .csemi => (singleTok l .SEMICOLON, readChar l)
  | .cdot => (singleTok l .DOT, readChar l)
  | .clparen => (singleTok l .LPAREN, readChar l)
  | .crparen => (singleTok l .RPAREN, readChar l)
  | .clbrace => (singleTok l .LBRACE, readChar l)
  | .crbrace => (singleTok l .RBRACE, readChar l)
  | .clbracket => (singleTok l .LBRACKET, readChar l)
  | .crbracket => (singleTok l .RBRACKET, readChar l)
  | .cquote =>
    let r := readString l
    ({ type := .STRING, literal := r.1, line := ln, column := col }, r.2)
  | .ctick =>
    let r := readCharLit l
    ({ type := .CHAR, literal := r.1, line := ln, column := col }, r.2)
  | .cnul => ({ type := .EOF, literal := [], line := ln, column := col }, readChar l)
  | .cletter =>
    let r := readIdentifier l
    ({ type := lookupIdent r.1, literal := r.1, line := ln, column := col }, r.2)
  | .cdigit =>
    let r := readNumber l
    ({ type := r.2.1, literal := r.1, line := ln, column := col }, r.2.2)
  | .cother => (singleTok l .ILLEGAL, readChar l)

/-- One step of the scanner (`NextToken`): skip whitespace, then dispatch on
the current byte. -/
def nextToken (l0 : Lexer) : Token × Lexer := nextTokenCore (skipWhitespace l0)

/-- The lexer state before the `(n+1)`-st call to `nextToken`. -/
def lexIter (l : Lexer) : Nat → Lexer
  | 0 => l
  | n + 1 => lexIter (nextToken l).2 n

/-- Result of the `(n+1)`-st call to `nextToken` starting from `l`. -/
def nthToken (l : Lexer) (n : Nat) : Token × Lexer := nextToken (lexIter l n)

/-- The input contains no `0` byte (the lexer appropriates `0` as its
end-of-input sentinel, so a literal NUL byte in the input is indistinguishable
from the end of the input). -/
def NoNul (inp : List Nat) : Prop := ∀ b ∈ inp, b ≠ 0

/-- Cursor coherence: `readPos` is one past `pos`, and a nonzero current byte
was read from a valid position.  Established by every `readChar` and hence by
`newLexer` and every scanner step. -/
def Inv0 (l : Lexer) : Prop :=
  l.readPos = l.pos + 1 ∧ (l.ch ≠ 0 → l.pos < l.input.length)

/-- Strengthened coherence on NUL-free inputs: additionally, a `0` current
byte means the cursor is past the end of the input. -/
def InvN (l : Lexer) : Prop :=
  Inv0 l ∧ (l.ch = 0 → l.input.length ≤ l.pos)

/-- The lexer has consumed its whole input: the current byte is the sentinel
and the position is past the end. -/
def AtEnd (l : Lexer) : Prop :=
  l.ch = 0 ∧ l.input.length ≤ l.pos ∧ l.readPos = l.pos + 1

/-- The state in which `readString`'s scanning loop stops, for a lexer whose
current character is the opening quote. -/
def stringScan (l : Lexer) : Lexer :=
  readStringLoopF (lexFuel (readChar l)) (readChar l)

end HL

namespace HP

/-!
The `for`-statement dispatch of the parser (`parseForStatement`,
`parseForRangeStatement`, `parseForRangeStatementBody` in
`src/unnamed/part_002`).  The parser's token feed is modelled as the list of
tokens still to be delivered; a drained feed yields `EOF` tokens, matching the
lexer's behaviour after end of input.  The sub-parsers that the `for` dispatch
hands off to after the range/non-range decision has been made —
`parseExpression LOWEST`, `parseBlockStatement`, `parseForStatementWithInit`
and `parseRegularForStatement` — are taken as parameters: every theorem below
holds for arbitrary behaviour of these continuations, because the bindings of
a `ForRange` node are fixed before any of them runs. -/

open HL (Token TokenType strBytes)

/-- Parser state: the two tokens of lookahead, the remaining token feed, and
the accumulated diagnostics. -/
structure ParserSt where
  curToken : Token
  peekToken : Token
  rest : List Token
  errors : List String
  deriving DecidableEq, Repr

/-- Token delivered by a drained feed (the lexer returns `EOF` tokens
forever). -/
def eofTok : Token := { type := .EOF, literal := [], line := 0, column := 0 }

/-- Printed name of a token type, from the `tokenNames` table (used only in
diagnostics). -/
def tokenTypeName (t : TokenType) : String :=
  match t with
  | .ILLEGAL => "ILLEGAL" | .EOF => "EOF" | .COMMENT => "COMMENT"
  | .IDENT => "IDENT" | .INT => "INT" | .FLOAT => "FLOAT"
  | .STRING => "STRING" | .CHAR => "CHAR"
  | .ASSIGN => "=" | .PLUS => "+" | .MINUS => "-" | .ASTERISK => "*"
  | .SLASH => "/" | .PERCENT => "%" | .BANG => "!" | .AMPERSAND => "&"
  | .LT => "<" | .GT => ">" | .LTE => "<=" | .GTE => ">="
  | .EQ => "==" | .NEQ => "!=" | .AND => "&&" | .OR => "||"
  | .INCREMENT => "++" | .DECREMENT => "--"
  | .PLUS_ASSIGN => "+=" | .MINUS_ASSIGN => "-=" | .MUL_ASSIGN => "*="
  | .DIV_ASSIGN => "/=" | .WALRUS => ":="
  | .COMMA => "," | .SEMICOLON => ";" | .COLON => ":" | .DOT => "."
  | .ARROW => "=>" | .LPAREN => "(" | .RPAREN => ")"
  | .LBRACE => "\x7b" | .RBRACE => "\x7d" | .LBRACKET => "[" | .RBRACKET => "]"
  | .FUNCTION => "function" | .STRUCT => "struct" | .ENUM => "enum"
  | .IMPORT => "import" | .IF => "if" | .ELSE => "else" | .FOR => "for"
  | .WHILE => "while" | .RETURN => "return" | .CONST => "const"
  | .VAR => "var" | .PUBLIC => "public" | .NULL => "null"
  | .TRUE => "true" | .FALSE => "false" | .ALLOC => "alloc" | .FREE => "free"
  | .DEFER => "defer" | .LEN => "len" | .MAKE => "make" | .RANGE => "range"
  | .BREAK => "break" | .CONTINUE => "continue" | .MAP => "map"
  | .DELETE => "delete" | .TYPE_INT => "int" | .TYPE_FLOAT => "float"
  | .TYPE_STRING => "string" | .TYPE_CHAR => "char" | .TYPE_BOOL => "bool"
  | .TYPE_VOID => "void"

/-- Pull the next non-comment token from the feed (the parser's `nextToken`
skips `COMMENT` tokens as it refills `peekToken`). -/
def pullNonComment (ts : List Token) : Token × List Token :=
  match ts.dropWhile (fun t => t.type == .COMMENT) with
  | [] => (eofTok, [])
  | t :: r => (t, r)

/-- Advance the parser one token (`nextToken`): the peek token becomes
current, and the next non-comment token of the feed becomes the peek. -/
def nextTokenP (p : ParserSt) : ParserSt :=
  let r := pullNonComment p.rest
  { p with curToken := p.peekToken, peekToken := r.1, rest := r.2 }

/-- Record an `expected X, got Y` diagnostic (`peekError`). -/
def peekError (t : TokenType) (p : ParserSt) : ParserSt :=
  { p with errors := p.errors ++
      ["line " ++ toString p.peekToken.line ++ ": expected " ++ tokenTypeName t ++
        ", got " ++ tokenTypeName p.peekToken.type ++ " instead"] }

/-- Advance if the peek token has the wanted type, else record a diagnostic
(`expectPeek`). -/
def expectPeek (t : TokenType) (p : ParserSt) : Bool × ParserSt :=
  if p.peekToken.type = t then (true, nextTokenP p) else (false, peekError t p)

/-- An identifier node (`ast.Identifier`): the originating token and its
textual value. -/
structure PIdent where
  token : Token
  value : List Nat
  deriving DecidableEq, Repr

/-- A `ForRange` node (`ast.ForRangeStatement`, whose declaration is missing
from the `src/` snapshot; its shape follows its uses in the parser and the
parser tests): optional index and value bindings, iterable, body.  The
iterable expression and the block body are of the parameter types produced by
the continuation parsers. -/
structure ForRangeSt (ε β : Type) where
  token : Token
  index : Option PIdent
  value : Option PIdent
  iterable : Option ε
  body : Option β
  deriving DecidableEq, Repr

/-- Result of the `for` dispatch: a `ForRange` node, or whatever statement a
non-range continuation produced. -/
inductive ForNode (ε β : Type) where
  | forRange (s : ForRangeSt ε β)
  | other
  deriving DecidableEq, Repr

/-- Index binding of a parsed `ForRange` result, if the result is one. -/
def rangeIndexOf {ε β : Type} : Option (ForNode ε β) → Option PIdent
  | some (.forRange s) => s.index
  | _ => none

/-- Value binding of a parsed `ForRange` result, if the result is one. -/
def rangeValueOf {ε β : Type} : Option (ForNode ε β) → Option PIdent
  | some (.forRange s) => s.value
  | _ => none

/-- Shared body of the range productions (`parseForRangeStatementBody`):
advance to the iterable, parse it, expect `{`, parse the body. -/
def parseForRangeStatementBody {ε β : Type}
    (pe : ParserSt → Option ε × ParserSt) (pb : ParserSt → Option β × ParserSt)
    (forToken : Token) (index value : Option PIdent) (p0 : ParserSt) :
    Option (ForNode ε β) × ParserSt :=
  let p := nextTokenP p0
  let re := pe p
  match expectPeek .LBRACE re.2 with
  | (false, p2) => (none, p2)
  | (true, p2) =>
    let rb := pb p2
    (some (.forRange { token := forToken, index := index, value := value,
                       iterable := re.1, body := rb.1 }), rb.2)

/-- Single-binding range production (`parseForRangeStatement`): consume the
`range` keyword, then the shared body. -/
def parseForRangeStatement {ε β : Type}
    (pe : ParserSt → Option ε × ParserSt) (pb : ParserSt → Option β × ParserSt)
    (forToken : Token) (index value : Option PIdent) (p : ParserSt) :
    Option (ForNode ε β) × ParserSt :=
  parseForRangeStatementBody pe pb forToken index value (nextTokenP p)

/-- Blank-identifier check and fall-through of `parseForStatement`: the
`for _, v := range` block (dead code: a `_` current token is an `IDENT` and is
already consumed by the two-variable branch) and the fall-through to the
classic `for` production. -/
def parseForBlankTail {ε β : Type}
    (pe : ParserSt → Option ε × ParserSt) (pb : ParserSt → Option β × ParserSt)
    (pregular : Token → ParserSt → Option (ForNode ε β) × ParserSt)
    (forToken : Token) (p : ParserSt) : Option (ForNode ε β) × ParserSt :=
  if p.curToken.type = .IDENT ∧ p.curToken.literal = strBytes "_" then
    if p.peekToken.type = .COMMA then
      let p1 := nextTokenP p
      match expectPeek .IDENT p1 with
      | (false, p2) => (none, p2)
      | (true, p2) =>
        let secondIdent := p2.curToken
        match expectPeek .WALRUS p2 with
        | (false, p3) => (none, p3)
        | (true, p3) =>
          match expectPeek .RANGE p3 with
          | (false, p4) => (none, p4)
          | (true, p4) =>
            parseForRangeStatementBody pe pb forToken none
              (some { token := secondIdent, value := secondIdent.literal }) p4
    else pregular forToken p
  else pregular forToken p

/-- The `for`-statement dispatch (`parseForStatement`): distinguishes the
range shapes from the classic shapes on the tokens after `for`.  The
continuations `pwithinit` (for `for ident := nonrange-expr; …`) and `pregular`
(for the classic production) receive control exactly where the source hands
off. -/
def parseForStatement {ε β : Type}
    (pe : ParserSt → Option ε × ParserSt) (pb : ParserSt → Option β × ParserSt)
    (pwithinit : Token → Token → ParserSt → Option (ForNode ε β) × ParserSt)
    (pregular : Token → ParserSt → Option (ForNode ε β) × ParserSt)
    (p0 : ParserSt) : Option (ForNode ε β) × ParserSt :=
  let forToken := p0.curToken
  let p := nextTokenP p0
  if p.curToken.type = .IDENT then
    let firstIdent := p.curToken
    if p.peekToken.type = .WALRUS then
      let p1 := nextTokenP p
      if p1.peekToken.type = .RANGE then
        parseForRangeStatement pe pb forToken
          (some { token := firstIdent, value := firstIdent.literal }) none p1
      else pwithinit forToken firstIdent p1
    else if p.peekToken.type = .COMMA then
      let p1 := nextTokenP p
      match expectPeek .IDENT p1 with
      | (false, p2) => (none, p2)
      | (true, p2) =>
        let secondIdent := p2.curToken
        match expectPeek .WALRUS p2 with
        | (false, p3) => (none, p3)
        | (true, p3) =>
          match expectPeek .RANGE p3 with
          | (false, p4) => (none, p4)
          | (true, p4) =>
            parseForRangeStatementBody pe pb forToken
              (some { token := firstIdent, value := firstIdent.literal })
              (some { token := secondIdent, value := secondIdent.literal }) p4
    else parseForBlankTail pe pb pregular forToken p
  else parseForBlankTail pe pb pregular forToken p

/-- Concrete expression continuation used by the closed instances: parse a
single identifier (the behaviour of `parseExpression LOWEST` when the current
token is an identifier and no infix operator follows). -/
def peIdent : ParserSt → Option (List Nat) × ParserSt :=
  fun p => if p.curToken.type = .IDENT then (some p.curToken.literal, p) else (none, p)

/-- Concrete block continuation used by the closed instances: accept the block
without inspecting it. -/
def pbUnit : ParserSt → Option Unit × ParserSt := fun p => (some (), p)

/-- Concrete non-range continuations used by the closed instances. -/
def pwiNone : Token → Token → ParserSt → Option (ForNode (List Nat) Unit) × ParserSt :=
  fun _ _ p => (none, p)

/-- Concrete classic-`for` continuation used by the closed instances. -/
def pregNone : Token → ParserSt → Option (ForNode (List Nat) Unit) × ParserSt :=
  fun _ p => (none, p)

/-- A token with the given type and literal (line and column are immaterial to
the dispatch). -/
def mkTok (t : TokenType) (lit : String) : Token :=
  { type := t, literal := strBytes lit, line := 1, column := 1 }

/-- Parser state at the start of `for _, v := range items { }`: the `for`
keyword is current, `_` is the peek, and the feed continues with
`, v := range items { }`. -/
def c5State : ParserSt :=
  { curToken := mkTok .FOR "for", peekToken := mkTok .IDENT "_",
    rest := [mkTok .COMMA ",", mkTok .IDENT "v", mkTok .WALRUS ":=",
             mkTok .RANGE "range", mkTok .IDENT "items",
             mkTok .LBRACE "\x7b", mkTok .RBRACE "\x7d"],
    errors := [] }

end HP

namespace HG

/-!
The C emitter, from `src/pkg/codegen/codegen.go`.  The emitter's output buffer
is modelled as the list of emitted lines (the source only ever writes whole
lines through `writeLine`, which prepends four spaces per indent level).  Go
maps (`structs`, `functions`, `variables`) are modelled as association lists
with insert-or-replace at the front, so lookup sees the most recent binding,
matching Go map semantics; Go's unspecified map iteration order is modelled as
most-recent-first.  AST nodes that the `src/` snapshot of `pkg/ast` does not
declare but that the parser, the emitter or the tests of this repository use
(`MakeExpression`, `MapLiteral`, `ForRangeStatement`, `BreakStatement`,
`ContinueStatement`, `DeleteStatement`) are included, with the emitter
behaviour for the map and range features modelled from the specification and
the expectations of `codegen_test.go`; such definitions carry a
`Modelled from the spec:` doc comment. -/

/-- A type annotation (`ast.TypeAnnotation`): `Name`, `IsPtr`, and `ArrayLen`
(`-1` slice, `0` non-array, `>0` fixed array).  The `isMap` flag is the
specification's `is_map` (the annotation's key/value sub-annotations are
dropped: the emitter never consults them). -/
structure TypeAnn where
  name : String
  isPtr : Bool
  arrayLen : Int
  isMap : Bool
  deriving DecidableEq, Repr

/-- A plain (non-pointer, non-array) annotation with the given name. -/
def bareTy (n : String) : TypeAnn := { name := n, isPtr := false, arrayLen := 0, isMap := false }

/-- Go `strings.TrimSuffix`: drop the suffix if present. -/
def trimSuffixStr (s suffix : String) : String :=
  if suffix.data.isSuffixOf s.data then { data := s.data.take (s.data.length - suffix.data.length) }
  else s

/-- Go `strings.TrimPrefix`: drop the prefix if present. -/
def trimPrefixStr (s pre : String) : String :=
  if pre.data.isPrefixOf s.data then { data := s.data.drop pre.data.length } else s

/-- Go `strings.HasSuffix`. -/
def hasSuffixStr (s suffix : String) : Bool := suffix.data.isSuffixOf s.data

/-- Go `strings.Join(l, ", ")`. -/
def joinComma (l : List String) : String := String.intercalate ", " l

/-- First-match lookup in an association list (Go map read). -/
def lookupA {α : Type} : List (String × α) → String → Option α
  | [], _ => none
  | kv :: rest, k => if kv.1 = k then some kv.2 else lookupA rest k

/-- Insert-or-replace at the front (Go map write). -/
def insertA {α : Type} (m : List (String × α)) (k : String) (v : α) : List (String × α) :=
  (k, v) :: m.filter (fun kv => kv.1 != k)

/-- Lower a type annotation to a C declarator (`typeToC`): primitive names map
to C types, other names pass through; a slice appends `*`, a fixed array
appends `[N]`, a pointer appends `*`. -/
def typeToC : Option TypeAnn → String
  | none => "void"
  | some t =>
    let base :=
      if t.name = "int" then "int"
      else if t.name = "float" then "double"
      else if t.name = "string" then "h_string"
      else if t.name = "char" then "char"
      else if t.name = "bool" then "bool"
      else if t.name = "void" then "void"
      else t.name
    let arr :=
      if t.arrayLen = -1 then base ++ "*"
      else if t.arrayLen > 0 then base ++ "[" ++ toString t.arrayLen ++ "]"
      else base
    if t.isPtr then arr ++ "*" else arr

mutual
/-- An expression node (`ast.Expression` and its variants).  Integer literals
carry their value; float literals carry their `%f` rendering (the emitter
only ever prints them). -/
inductive Expr where
  | ident (value : String)
  | intLit (value : Int)
  | floatLit (text : String)
  | strLit (value : String)
  | charLit (value : Char)
  | boolLit (value : Bool)
  | nullLit
  | prefixE (op : String) (right : Expr)
  | infixE (left : Expr) (op : String) (right : Expr)
  | postfixE (left : Expr) (op : String)
  | assignE (left : Expr) (op : String) (value : Expr)
  | call (fn : Expr) (args : ExprList)
  | indexE (left : Expr) (idx : Expr)
  | member (obj : Expr) (fieldName : String)
  | cast (target : TypeAnn) (value : Expr)
  | alloc (ty : TypeAnn)
  | arrayLit (ty : Option TypeAnn) (elements : ExprList)
  | makeE (ty : TypeAnn) (length : Option Expr)
  | mapLit (ty : TypeAnn) (pairs : PairList)
/-- A list of expressions (call arguments, array elements). -/
inductive ExprList where
  | nil
  | cons (head : Expr) (tail : ExprList)
/-- Key/value pairs of a map literal. -/
inductive PairList where
  | nil
  | cons (key : Expr) (value : Expr) (tail : PairList)
end

/-- Length of an expression list (`len(arr.Elements)`). -/
def exprListLength : ExprList → Nat
  | .nil => 0
  | .cons _ rest => exprListLength rest + 1

/-- String test of the concatenation special case (`isStringExpr`): only a
string literal counts. -/
def isStringExpr : Expr → Bool
  | .strLit _ => true
  | _ => false

end HG


namespace HG

mutual
/-- A statement node (`ast.Statement` and its variants).  `Var` keeps its
optional annotation and optional initializer; `Const`'s unused annotation
field is dropped (the emitter never reads it). -/
inductive Stmt where
  | varS (name : String) (ty : Option TypeAnn) (value : Option Expr)
  | constS (name : String) (value : Expr)
  | inferS (name : String) (value : Expr)
  | returnS (value : Option Expr)
  | ifS (cond : Expr) (cons : StmtList) (alt : OptBlock)
  | forS (ini : OptStmt) (cond : Option Expr) (post : OptStmt) (body : StmtList)
  | whileS (cond : Expr) (body : StmtList)
  | freeS (value : Expr)
  | deferS (inner : Stmt)
  | exprS (e : Expr)
  | forRangeS (index : Option String) (valueName : Option String)
      (iterable : Expr) (body : StmtList)
  | breakS
  | continueS
  | deleteS (target : Expr) (key : Expr)
/-- A block (`ast.BlockStatement`): a list of statements. -/
inductive StmtList where
  | nil
  | cons (head : Stmt) (tail : StmtList)
/-- A nullable statement (a Go `ast.Statement` field that may be `nil`), kept
inside the mutual family so that recursion over it stays structural. -/
inductive OptStmt where
  | noneS
  | someS (s : Stmt)
/-- A nullable block (a `*ast.BlockStatement` field that may be `nil`). -/
inductive OptBlock where
  | noneB
  | someB (b : StmtList)
end

/-- A function parameter (`ast.Parameter`); the annotation is kept non-null
because every parameter the parser produces carries one. -/
structure Param where
  name : String
  ty : TypeAnn

/-- A function declaration (`ast.FunctionStatement`): optional receiver,
parameters, optional return type, body.  The `Public` flag is dropped (the
emitter never reads it). -/
structure FunctionSt where
  name : String
  receiver : Option Param
  params : List Param
  returnType : Option TypeAnn
  body : StmtList

/-- A struct field (`ast.StructField`). -/
structure StructFld where
  name : String
  ty : TypeAnn

/-- A struct declaration (`ast.StructStatement`). -/
structure StructSt where
  name : String
  fields : List StructFld

/-- A top-level statement as the emitter's two passes see it: a function, a
struct, or anything else (ignored by both passes). -/
inductive TopStmt where
  | funcT (f : FunctionSt)
  | structT (s : StructSt)
  | otherT

/-- Emitter state (`Generator`): the output (as the list of emitted lines),
the indent level, the two declaration tables of pass one, the per-function
symbol table (`variables` in the source; renamed `vars` because `variables`
is reserved in Lean), and the deferred-statement stack. -/
structure Gen where
  output : List String
  indent : Nat
  structs : List (String × StructSt)
  functions : List (String × FunctionSt)
  vars : List (String × String)
  deferredStmts : List Stmt

/-- Indentation: four spaces per level (`strings.Repeat("    ", indent)`). -/
def indentStr (n : Nat) : String := String.join (List.replicate n "    ")

/-- Emit one line at the current indent (`writeLine`). -/
def writeLine (g : Gen) (s : String) : Gen :=
  { g with output := g.output ++ [indentStr g.indent ++ s] }

/-- Shallow type inference for `Infer`/`Const` (`inferType`): literals map to
their C types, `alloc(T)` to `T*`, `&x`/`*x` add/strip a star, a binary
operator takes its left operand's type, a call its callee's declared return
type when known, everything else `int`. -/
def inferType (g : Gen) : Expr → String
  | .intLit _ => "int"
  | .floatLit _ => "double"
  | .strLit _ => "h_string"
  | .charLit _ => "char"
  | .boolLit _ => "bool"
  | .nullLit => "void*"
  | .alloc t => t.name ++ "*"
  | .prefixE op r =>
    if op = "&" then inferType g r ++ "*"
    else if op = "*" then trimSuffixStr (inferType g r) "*"
    else inferType g r
  | .infixE l _ _ => inferType g l
  | .call fn _ =>
    (match fn with
     | .ident v =>
       (match lookupA g.functions v with
        | some f =>
          (match f.returnType with
           | some rt => typeToC (some rt)
           | none => "int")
        | none => "int")
     | _ => "int")
  | _ => "int"

/-- Pointer test for member access (`isPointerExpr`): a variable whose
recorded type ends in `*`, an `alloc`, an `&`-prefix, or a call to a function
with a pointer return type. -/
def isPointerExpr (g : Gen) : Expr → Bool
  | .ident v =>
    (match lookupA g.vars v with
     | some t => hasSuffixStr t "*"
     | none => false)
  | .alloc _ => true
  | .prefixE op _ => op == "&"
  | .call fn _ =>
    (match fn with
     | .ident v =>
       (match lookupA g.functions v with
        | some f =>
          (match f.returnType with
           | some rt => rt.isPtr
           | none => false)
        | none => false)
     | _ => false)
  | _ => false

/-- Struct-name recovery for method mangling (`getExprType`): the recorded
variable type with a trailing `*` stripped, an `alloc`'s type name, or a
callee's declared return type name; otherwise `"Unknown"`. -/
def getExprType (g : Gen) : Expr → String
  | .ident v =>
    (match lookupA g.vars v with
     | some t => trimSuffixStr t "*"
     | none => "Unknown")
  | .alloc t => t.name
  | .call fn _ =>
    (match fn with
     | .ident v =>
       (match lookupA g.functions v with
        | some f =>
          (match f.returnType with
           | some rt => rt.name
           | none => "Unknown")
        | none => "Unknown")
     | _ => "Unknown")
  | _ => "Unknown"

/-- Scan of the functions table for a method with the given name, a receiver
whose (star-stripped) type matches, and a declared return type (the loop of
`getCallReturnType`). -/
def findMethodReturn : List (String × FunctionSt) → String → String → Option TypeAnn
  | [], _, _ => none
  | (_, f) :: rest, methodName, structName =>
    match f.receiver, f.returnType with
    | some r, some rt =>
      let receiverType := if r.ty.isPtr then trimPrefixStr r.ty.name "*" else r.ty.name
      if f.name = methodName ∧ receiverType = structName then some rt
      else findMethodReturn rest methodName structName
    | _, _ => findMethodReturn rest methodName structName

/-- Return type of a call for `print`'s format choice (`getCallReturnType`):
for a method call, scan for a matching method; for a plain call, the callee's
declared return type; otherwise `"int"`. -/
def getCallReturnType (g : Gen) (fn : Expr) : String :=
  match fn with
  | .member obj m =>
    (match findMethodReturn g.functions m (getExprType g obj) with
     | some rt => typeToC (some rt)
     | none => "int")
  | .ident v =>
    (match lookupA g.functions v with
     | some f =>
       (match f.returnType with
        | some rt => typeToC (some rt)
        | none => "int")
     | none => "int")
  | _ => "int"

/-- Format choice of `print` for a plain variable argument (the `.Identifier`
arm of the `print` case of `generateCallExpression`): `%s` for a variable
recorded as `h_string`, `%d` otherwise. -/
def printIdentFmt (g : Gen) (v argStr : String) : String :=
  match lookupA g.vars v with
  | some t =>
    if t = "h_string" then "printf(\"%s\\n\", " ++ argStr ++ ")"
    else "printf(\"%d\\n\", " ++ argStr ++ ")"
  | none => "printf(\"%d\\n\", " ++ argStr ++ ")"

/-- The `print` case of `generateCallExpression`: choose the `printf` format
from the shape of the (already lowered) argument. -/
def printArgFmt (g : Gen) (arg : Expr) (argStr : String) : String :=
  match arg with
  | .strLit _ => "printf(\"%s\\n\", " ++ argStr ++ ")"
  | .intLit _ => "printf(\"%d\\n\", " ++ argStr ++ ")"
  | .floatLit _ => "printf(\"%f\\n\", " ++ argStr ++ ")"
  | .boolLit _ => "printf(\"%s\\n\", " ++ argStr ++ " ? \"true\" : \"false\")"
  | .call f2 _ =>
    if getCallReturnType g f2 = "h_string" then "printf(\"%s\\n\", " ++ argStr ++ ")"
    else "printf(\"%d\\n\", " ++ argStr ++ ")"
  | .ident v => printIdentFmt g v argStr
  | _ => "printf(\"%d\\n\", " ++ argStr ++ ")"

/-- Modelled from the spec: the map branch of `len` — `len(x)` on a variable
whose recorded type is `h_map*` lowers to `h_map_len(x)`; other variables get
the array form.  (The branch is absent from the `src/` snapshot of
`generateCallExpression`; it is pinned by `TestGenerate_MapLen`.) -/
def lenOnIdent (g : Gen) (v argStr : String) : String :=
  match lookupA g.vars v with
  | some t =>
    if t = "h_map*" then "h_map_len(" ++ argStr ++ ")"
    else "(sizeof(" ++ argStr ++ ")/sizeof(" ++ argStr ++ "[0]))"
  | none => "(sizeof(" ++ argStr ++ ")/sizeof(" ++ argStr ++ "[0]))"

/-- The `len` case of `generateCallExpression`: `strlen` for a string
literal, the map/array choice for a variable, the array form otherwise. -/
def lenArgFmt (g : Gen) (arg : Expr) (argStr : String) : String :=
  match arg with
  | .strLit _ => "strlen(" ++ argStr ++ ")"
  | .ident v => lenOnIdent g v argStr
  | _ => "(sizeof(" ++ argStr ++ ")/sizeof(" ++ argStr ++ "[0]))"


mutual
/-- Lower an expression to C text (`generateExpression`).  The bodies of the
source's `generateCallExpression` and `generateMakeExpression` are inlined
into the `call` and `makeE` arms so that the recursion stays structural; the
named wrappers below restate them.  A `MapLiteral` reaching this function
falls to the source's default arm and produces the empty string (`Infer`
intercepts map literals before this point). -/
def generateExpression (g : Gen) : Expr → String
  | .ident v => v
  | .intLit n => toString n
  | .floatLit t => t
  | .strLit s => "\"" ++ s ++ "\""
  | .charLit c => "\x27" ++ String.singleton c ++ "\x27"
  | .boolLit b => if b then "true" else "false"
  | .nullLit => "NULL"
  | .prefixE op r => "(" ++ op ++ generateExpression g r ++ ")"
  | .infixE l op r =>
    let left := generateExpression g l
    let right := generateExpression g r
    if op = "+" ∧ (isStringExpr l || isStringExpr r) then
      "h_string_concat(" ++ left ++ ", " ++ right ++ ")"
    else "(" ++ left ++ " " ++ op ++ " " ++ right ++ ")"
  | .postfixE l op => "(" ++ generateExpression g l ++ op ++ ")"
  | .assignE l op v =>
    "(" ++ generateExpression g l ++ " " ++ op ++ " " ++ generateExpression g v ++ ")"
  | .call fn args =>
    let funcName := generateExpression g fn
    if funcName = "print" then
      match args with
      | .cons arg _ => printArgFmt g arg (generateExpression g arg)
      | .nil => "printf(\"\\n\")"
    else if funcName = "len" then
      match args with
      | .cons arg _ => lenArgFmt g arg (generateExpression g arg)
      | .nil => "0"
    else
      match fn with
      | .member obj m =>
        let objS := generateExpression g obj
        let argsS := objS :: generateExprList g args
        getExprType g obj ++ "_" ++ m ++ "(" ++ joinComma argsS ++ ")"
      | _ => funcName ++ "(" ++ joinComma (generateExprList g args) ++ ")"
  | .indexE l i => generateExpression g l ++ "[" ++ generateExpression g i ++ "]"
  | .member obj m =>
    let o := generateExpression g obj
    if isPointerExpr g obj then o ++ "->" ++ m else o ++ "." ++ m
  | .cast t v => "((" ++ typeToC (some t) ++ ")" ++ generateExpression g v ++ ")"
  | .alloc t => "(" ++ t.name ++ "*)malloc(sizeof(" ++ t.name ++ "))"
  | .arrayLit _ els => "\x7b" ++ joinComma (generateExprList g els) ++ "\x7d"
  | .makeE t len =>
    let elemT := typeToC (some (bareTy t.name))
    (match len with
     | some le =>
       "(" ++ elemT ++ "*)calloc(" ++ generateExpression g le ++ ", sizeof(" ++ elemT ++ "))"
     | none => "(" ++ elemT ++ "*)calloc(0, sizeof(" ++ elemT ++ "))")
  | .mapLit _ _ => ""
/-- Lower a list of expressions. -/
def generateExprList (g : Gen) : ExprList → List String
  | .nil => []
  | .cons e rest => generateExpression g e :: generateExprList g rest
end

/-- Lower a call (`generateCallExpression`): the `call` arm of
`generateExpression`. -/
def generateCallExpression (g : Gen) (fn : Expr) (args : ExprList) : String :=
  generateExpression g (.call fn args)

/-- Lower a `make` expression (`generateMakeExpression`): the `makeE` arm of
`generateExpression`. -/
def generateMakeExpression (g : Gen) (t : TypeAnn) (len : Option Expr) : String :=
  generateExpression g (.makeE t len)

end HG

namespace HG

mutual
/-- Node count of a statement (drives the fuel passed to the statement
engine: one unit of fuel is consumed per engine step, and a walk that only
descends through the statement structure takes fewer steps than nodes). -/
def sizeS : Stmt → Nat
  | .varS _ _ _ => 1
  | .constS _ _ => 1
  | .inferS _ _ => 1
  | .returnS _ => 1
  | .ifS _ thn alt => 1 + sizeB thn + sizeOB alt
  | .forS ini _ post body => 1 + sizeOS ini + sizeOS post + sizeB body
  | .whileS _ body => 1 + sizeB body
  | .freeS _ => 1
  | .deferS inner => 1 + sizeS inner
  | .exprS _ => 1
  | .forRangeS _ _ _ body => 1 + sizeB body
  | .breakS => 1
  | .continueS => 1
  | .deleteS _ _ => 1
/-- Node count of a block. -/
def sizeB : StmtList → Nat
  | .nil => 0
  | .cons s rest => 1 + sizeS s + sizeB rest
/-- Node count of a nullable statement. -/
def sizeOS : OptStmt → Nat
  | .noneS => 0
  | .someS s => sizeS s
/-- Node count of a nullable block. -/
def sizeOB : OptBlock → Nat
  | .noneB => 0
  | .someB b => sizeB b
end

/-- Inline lowering of a `for` init/post (`generateStatementInline`): an
`Infer` becomes `type name = expr` (with no trailing semicolon and without
touching the symbol table, as in the source), an expression statement becomes
its expression, anything else the empty string. -/
def generateStatementInline (g : Gen) : Stmt → String
  | .inferS name v => inferType g v ++ " " ++ name ++ " = " ++ generateExpression g v
  | .exprS e => generateExpression g e
  | _ => ""

/-- Modelled from the spec: the `h_map_set` lines of a map-literal `Infer` —
"one `h_map_set(name, key, <boxed value>);` per pair", the value boxed
through a compound literal of its inferred type. -/
def mapSetLines (g : Gen) (name : String) : PairList → Gen
  | .nil => g
  | .cons k v rest =>
    let g1 := writeLine g ("h_map_set(" ++ name ++ ", " ++ generateExpression g k ++
      ", &(" ++ inferType g v ++ ")\x7b" ++ generateExpression g v ++ "\x7d);")
    mapSetLines g1 name rest

/-- Modelled from the spec: the element type of a `ForRange` value binding —
the iterable's recorded declarator with its array or pointer suffix stripped
(e.g. `int[5]` or `int[]` or `int*` give `int`); `int` when nothing is
recorded (the lowering of `ForRange` is absent from the `src/` snapshot; the
shape is pinned by `TestGenerate_ForRangeLoop`, which expects
`int v = arr[i];` for an `int[5]` iterable). -/
def rangeElemType (g : Gen) (iterable : Expr) : String :=
  match iterable with
  | .ident v =>
    (match lookupA g.vars v with
     | some t =>
       (match t.data.takeWhile (fun c => c ≠ '[') with
        | base => trimSuffixStr { data := base } "*")
     | none => "int")
  | _ => "int"

/-- Modelled from the spec: the lowering of `Free` — `free(expr);`, except
that a variable whose recorded type is `h_map*` frees through `h_map_free`
(the map branch is absent from the `src/` snapshot; pinned by
`TestGenerate_MapFree`). -/
def freeStmtLine (g : Gen) (v : Expr) : String :=
  match v with
  | .ident x =>
    (match lookupA g.vars x with
     | some t =>
       if t = "h_map*" then "h_map_free(" ++ generateExpression g v ++ ");"
       else "free(" ++ generateExpression g v ++ ");"
     | none => "free(" ++ generateExpression g v ++ ");")
  | _ => "free(" ++ generateExpression g v ++ ");"

/-- Work items of the statement engine: a statement (`generateStatement`), a
statement emitted without defer handling (`generateStatementDirect`), a block
(`generateBlock`), the deferred stack in LIFO order
(`emitDeferredStatements`), or the tail of that iteration. -/
inductive GTask where
  | stmt (s : Stmt)
  | direct (s : Stmt)
  | block (l : StmtList)
  | deferredAll
  | deferredList (l : List Stmt)

/-- The statement engine: a single fueled function covering
`generateStatement`, `generateStatementDirect`, `generateBlock` and
`emitDeferredStatements` of the source (one fueled function keeps every
recursion structural — the source's mutual recursion through the deferred
stack is not structural in the statement, and diverges in Go on pathological
programs such as a deferred `return` inside a function with a `return`; there
the engine stops emitting when the fuel runs out).  Each engine step consumes
one unit of fuel; the per-function fuel chosen by `generateFunction` makes
every non-pathological walk complete. -/
def genStep : Nat → Gen → GTask → Gen
  | 0, g, _ => g
  | f + 1, g, t =>
    match t with
    | .block .nil => g
    | .block (.cons s rest) => genStep f (genStep f g (.stmt s)) (.block rest)
    | .deferredAll => genStep f g (.deferredList g.deferredStmts.reverse)
    | .deferredList [] => g
    | .deferredList (s :: rest) => genStep f (genStep f g (.direct s)) (.deferredList rest)
    | .direct s =>
      (match s with
       | .exprS e => writeLine g (generateExpression g e ++ ";")
       | .freeS v => writeLine g ("free(" ++ generateExpression g v ++ ");")
       | s1 => genStep f g (.stmt s1))
    | .stmt s =>
      match s with
      | .varS name ty v =>
        let cType := typeToC ty
        let g1 := { g with vars := insertA g.vars name cType }
        (match v with
         | some e =>
           writeLine g1 (cType ++ " " ++ name ++ " = " ++ generateExpression g1 e ++ ";")
         | none => writeLine g1 (cType ++ " " ++ name ++ ";"))
      | .constS name v =>
        writeLine g ("const " ++ inferType g v ++ " " ++ name ++ " = " ++
          generateExpression g v ++ ";")
      | .inferS name v =>
        (match v with
         | .arrayLit (some ty) els =>
           let elemType := typeToC (some (bareTy ty.name))
           if ty.arrayLen > 0 then
             let arrTy := elemType ++ "[" ++ toString ty.arrayLen ++ "]"
             let g1 := { g with vars := insertA g.vars name arrTy }
             writeLine g1 (elemType ++ " " ++ name ++ "[" ++ toString ty.arrayLen ++ "] = " ++
               generateExpression g1 (.arrayLit (some ty) els) ++ ";")
           else if exprListLength els > 0 then
             let g1 := { g with vars := insertA g.vars name (elemType ++ "[]") }
             writeLine g1 (elemType ++ " " ++ name ++ "[] = " ++
               generateExpression g1 (.arrayLit (some ty) els) ++ ";")
           else
             let g1 := { g with vars := insertA g.vars name (elemType ++ "*") }
             writeLine g1 (elemType ++ "* " ++ name ++ " = NULL;")
         | .makeE mt mlen =>
           let elemType := typeToC (some (bareTy mt.name))
           let g1 := { g with vars := insertA g.vars name (elemType ++ "*") }
           writeLine g1 (elemType ++ "* " ++ name ++ " = " ++
             generateExpression g1 (.makeE mt mlen) ++ ";")
         | .mapLit _ pairs =>
           -- Modelled from the spec: a map-literal `Infer` declares
           -- `h_map* name = h_map_new();`, records the variable as `h_map*`,
           -- and emits one `h_map_set` per pair (absent from the `src/`
           -- snapshot; pinned by `TestGenerate_MapLiteral`).
           let g1 := { g with vars := insertA g.vars name "h_map*" }
           let g2 := writeLine g1 ("h_map* " ++ name ++ " = h_map_new();")
           mapSetLines g2 name pairs
         | e =>
           let cType := inferType g e
           let g1 := { g with vars := insertA g.vars name cType }
           writeLine g1 (cType ++ " " ++ name ++ " = " ++ generateExpression g1 e ++ ";"))
      | .returnS v =>
        (match v with
         | some e =>
           if g.deferredStmts.length > 0 then
             let retType := inferType g e
             let g1 := writeLine g (retType ++ " __ret_val = " ++ generateExpression g e ++ ";")
             let g2 := genStep f g1 .deferredAll
             writeLine g2 "return __ret_val;"
           else
             let g1 := genStep f g .deferredAll
             writeLine g1 ("return " ++ generateExpression g1 e ++ ";")
         | none =>
           let g1 := genStep f g .deferredAll
           writeLine g1 "return;")
      | .ifS c thn alt =>
        let g1 := writeLine g ("if (" ++ generateExpression g c ++ ") \x7b")
        let g2 := genStep f { g1 with indent := g1.indent + 1 } (.block thn)
        let g3 := { g2 with indent := g2.indent - 1 }
        (match alt with
         | .someB el =>
           let g4 := writeLine g3 "\x7d else \x7b"
           let g5 := genStep f { g4 with indent := g4.indent + 1 } (.block el)
           writeLine { g5 with indent := g5.indent - 1 } "\x7d"
         | .noneB => writeLine g3 "\x7d")
      | .forS ini cond post body =>
        let iS := (match ini with | .someS s1 => generateStatementInline g s1 | .noneS => "")
        let cS := (match cond with | some c => generateExpression g c | none => "")
        let pS := (match post with | .someS s1 => generateStatementInline g s1 | .noneS => "")
        let g1 := writeLine g ("for (" ++ iS ++ "; " ++ cS ++ "; " ++ pS ++ ") \x7b")
        let g2 := genStep f { g1 with indent := g1.indent + 1 } (.block body)
        writeLine { g2 with indent := g2.indent - 1 } "\x7d"
      | .whileS c body =>
        let g1 := writeLine g ("while (" ++ generateExpression g c ++ ") \x7b")
        let g2 := genStep f { g1 with indent := g1.indent + 1 } (.block body)
        writeLine { g2 with indent := g2.indent - 1 } "\x7d"
      | .freeS v => writeLine g (freeStmtLine g v)
      | .deferS inner => { g with deferredStmts := g.deferredStmts ++ [inner] }
      | .exprS e => writeLine g (generateExpression g e ++ ";")
      | .forRangeS idx valName iterable body =>
        -- Modelled from the spec: `ForRange` lowers to a classic `for` over
        -- `(sizeof(arr)/sizeof(arr[0]))` with the loop index named from the
        -- source binding (or `_i` if absent), and, when the value is bound,
        -- a body-scoped `elem value = arr[i];` before the user statements
        -- (absent from the `src/` snapshot; pinned by
        -- `TestGenerate_ForRangeLoop` / `TestGenerate_ForRangeIndexOnly`).
        let arr := generateExpression g iterable
        let i := (match idx with | some s1 => s1 | none => "_i")
        let g1 := writeLine g ("for (int " ++ i ++ " = 0; " ++ i ++ " < (sizeof(" ++ arr ++
          ")/sizeof(" ++ arr ++ "[0])); " ++ i ++ "++) \x7b")
        let g2 := { g1 with indent := g1.indent + 1 }
        let g3 :=
          (match valName with
           | some vn =>
             let elemT := rangeElemType g iterable
             let g2a := { g2 with vars := insertA g2.vars vn elemT }
             writeLine g2a (elemT ++ " " ++ vn ++ " = " ++ arr ++ "[" ++ i ++ "];")
           | none => g2)
        let g4 := genStep f g3 (.block body)
        writeLine { g4 with indent := g4.indent - 1 } "\x7d"
      | .breakS =>
        -- Modelled from the spec: `Break` lowers to `break;`.
        writeLine g "break;"
      | .continueS =>
        -- Modelled from the spec: `Continue` lowers to `continue;`.
        writeLine g "continue;"
      | .deleteS m k =>
        -- Modelled from the spec: `Delete(m, k)` lowers to `h_map_delete(m, k);`.
        writeLine g ("h_map_delete(" ++ generateExpression g m ++ ", " ++
          generateExpression g k ++ ");")

/-- Emit one statement (`generateStatement`). -/
def generateStatement (f : Nat) (g : Gen) (s : Stmt) : Gen := genStep f g (.stmt s)

/-- Emit a statement without defer handling (`generateStatementDirect`). -/
def generateStatementDirect (f : Nat) (g : Gen) (s : Stmt) : Gen := genStep f g (.direct s)

/-- Emit a block (`generateBlock`). -/
def generateBlock (f : Nat) (g : Gen) (l : StmtList) : Gen := genStep f g (.block l)

/-- Emit the deferred stack in LIFO order (`emitDeferredStatements`).  The
iteration walks a snapshot of the reversed stack; statements appended during
the walk (a deferred `defer`) are not revisited, matching the source's
downward index loop. -/
def emitDeferredStatements (f : Nat) (g : Gen) : Gen := genStep f g .deferredAll

end HG

namespace HG

/-- Map flag of a nullable annotation. -/
def tyUsesMap : Option TypeAnn → Bool
  | some t => t.isMap
  | none => false

mutual
/-- Modelled from the spec: occurrence of a map feature inside an expression —
a map literal or a map type annotation anywhere in the tree. -/
def exprUsesMap : Expr → Bool
  | .mapLit _ _ => true
  | .ident _ => false
  | .intLit _ => false
  | .floatLit _ => false
  | .strLit _ => false
  | .charLit _ => false
  | .boolLit _ => false
  | .nullLit => false
  | .prefixE _ r => exprUsesMap r
  | .infixE l _ r => exprUsesMap l || exprUsesMap r
  | .postfixE l _ => exprUsesMap l
  | .assignE l _ v => exprUsesMap l || exprUsesMap v
  | .call fn args => exprUsesMap fn || exprListUsesMap args
  | .indexE l i => exprUsesMap l || exprUsesMap i
  | .member o _ => exprUsesMap o
  | .cast t v => t.isMap || exprUsesMap v
  | .alloc t => t.isMap
  | .arrayLit ty els => tyUsesMap ty || exprListUsesMap els
  | .makeE t len =>
    (match len with
     | some le => t.isMap || exprUsesMap le
     | none => t.isMap)
/-- Occurrence of a map feature in an expression list. -/
def exprListUsesMap : ExprList → Bool
  | .nil => false
  | .cons e rest => exprUsesMap e || exprListUsesMap rest
/-- Occurrence of a map feature in the pairs of a map literal. -/
def pairsUseMap : PairList → Bool
  | .nil => false
  | .cons k v rest => exprUsesMap k || exprUsesMap v || pairsUseMap rest
end

mutual
/-- Modelled from the spec: occurrence of a map feature inside a statement —
"any map literal, map type, `delete`, `len(m)` on a map, or `free(m)` on a
map".  `delete`, map literals and map annotations are detected syntactically;
`len`/`free` on a map imply one of the former (a map value can only be
introduced by a map literal or a map annotation), so no type information is
needed. -/
def stmtUsesMap : Stmt → Bool
  | .varS _ ty v =>
    (match v with
     | some e => tyUsesMap ty || exprUsesMap e
     | none => tyUsesMap ty)
  | .constS _ v => exprUsesMap v
  | .inferS _ v => exprUsesMap v
  | .returnS v =>
    (match v with
     | some e => exprUsesMap e
     | none => false)
  | .ifS c thn alt => exprUsesMap c || blockUsesMap thn || obUsesMap alt
  | .forS ini c post body =>
    osUsesMap ini ||
      (match c with
       | some e => exprUsesMap e
       | none => false) ||
      osUsesMap post || blockUsesMap body
  | .whileS c body => exprUsesMap c || blockUsesMap body
  | .freeS v => exprUsesMap v
  | .deferS inner => stmtUsesMap inner
  | .exprS e => exprUsesMap e
  | .forRangeS _ _ iterable body => exprUsesMap iterable || blockUsesMap body
  | .breakS => false
  | .continueS => false
  | .deleteS _ _ => true
/-- Occurrence of a map feature in a block. -/
def blockUsesMap : StmtList → Bool
  | .nil => false
  | .cons s rest => stmtUsesMap s || blockUsesMap rest
/-- Occurrence of a map feature in a nullable statement. -/
def osUsesMap : OptStmt → Bool
  | .noneS => false
  | .someS s => stmtUsesMap s
/-- Occurrence of a map feature in a nullable block. -/
def obUsesMap : OptBlock → Bool
  | .noneB => false
  | .someB b => blockUsesMap b
end

/-- Occurrence of a map feature in a function declaration: its receiver,
parameter, and return annotations, and its body. -/
def fnUsesMap (f : FunctionSt) : Bool :=
  (match f.receiver with
   | some r => r.ty.isMap
   | none => false) ||
  f.params.any (fun p => p.ty.isMap) || tyUsesMap f.returnType || blockUsesMap f.body

/-- Modelled from the spec: whether any map feature occurs in the program
(drives the conditional emission of the map runtime). -/
def programUsesMap : List TopStmt → Bool
  | [] => false
  | .funcT f :: rest => fnUsesMap f || programUsesMap rest
  | .structT s :: rest => s.fields.any (fun fl => fl.ty.isMap) || programUsesMap rest
  | .otherT :: rest => programUsesMap rest

/-- Mangled C name of a function (`generateFunction` /
`generateFunctionDeclaration`): a method becomes `StructName_methodName`,
with a `*` prefix trimmed from the receiver type name. -/
def mangledName (f : FunctionSt) : String :=
  match f.receiver with
  | some r =>
    (if r.ty.isPtr then trimPrefixStr r.ty.name "*" else r.ty.name) ++ "_" ++ f.name
  | none => f.name

/-- Parameter list text (`generateParams`): the receiver first for methods,
then the declared parameters; `void` when empty. -/
def generateParams (f : FunctionSt) : String :=
  let ps :=
    (match f.receiver with
     | some r => [typeToC (some r.ty) ++ " " ++ r.name]
     | none => []) ++
    f.params.map (fun p => typeToC (some p.ty) ++ " " ++ p.name)
  if ps.isEmpty then "void" else joinComma ps

/-- Return type text of a function (`void` when no annotation). -/
def returnTypeC (f : FunctionSt) : String := typeToC f.returnType

/-- Signature text shared by the forward declaration and the definition:
`returnType name(params)`. -/
def fnSig (f : FunctionSt) : String :=
  returnTypeC f ++ " " ++ mangledName f ++ "(" ++ generateParams f ++ ")"

/-- Emit a forward declaration (`generateFunctionDeclaration`). -/
def generateFunctionDeclaration (g : Gen) (f : FunctionSt) : Gen :=
  writeLine g (fnSig f ++ ";")

/-- Record the parameters in the symbol table (the parameter loop of
`generateFunction`). -/
def recordParams (g : Gen) : List Param → Gen
  | [] => g
  | p :: rest => recordParams { g with vars := insertA g.vars p.name (typeToC (some p.ty)) } rest

/-- Fuel given to the statement engine for one function body: comfortably
more steps than any walk of the body (including the re-emission of deferred
statements, which are subterms of the body) can take. -/
def fnFuel (f : FunctionSt) : Nat := 8 * sizeB f.body + 16

/-- The state in which a function's body is emitted (the opening steps of
`generateFunction`): the signature line written, the indent raised, the
deferred stack and the symbol table reset, and the receiver and parameters
recorded. -/
def functionEntryGen (g : Gen) (f : FunctionSt) : Gen :=
  let g1 := writeLine g (fnSig f ++ " \x7b")
  let g2 := { g1 with indent := g1.indent + 1, deferredStmts := [], vars := [] }
  let g3 :=
    (match f.receiver with
     | some r => { g2 with vars := insertA g2.vars r.name (typeToC (some r.ty)) }
     | none => g2)
  recordParams g3 f.params

/-- Emit a function definition (`generateFunction`): signature line, then —
with the deferred stack and the symbol table reset, and the receiver and
parameters recorded — the body, the remaining deferred statements, and the
closing brace followed by a blank line. -/
def generateFunction (g : Gen) (f : FunctionSt) : Gen :=
  let g5 := generateBlock (fnFuel f) (functionEntryGen g f) f.body
  let g6 := emitDeferredStatements (fnFuel f) g5
  let g7 := { g6 with indent := g6.indent - 1 }
  writeLine (writeLine g7 "\x7d") ""

/-- Emit the field lines of a struct body. -/
def structFieldLines (g : Gen) : List StructFld → Gen
  | [] => g
  | fl :: rest => structFieldLines (writeLine g (typeToC (some fl.ty) ++ " " ++ fl.name ++ ";")) rest

/-- Emit a struct body (`generateStruct`). -/
def generateStruct (g : Gen) (s : StructSt) : Gen :=
  let g1 := writeLine g ("struct " ++ s.name ++ " \x7b")
  let g2 := structFieldLines { g1 with indent := g1.indent + 1 } s.fields
  let g3 := { g2 with indent := g2.indent - 1 }
  writeLine (writeLine g3 "\x7d;") ""

/-- Pass one of `Generate`: record struct and function declarations. -/
def collectDecls (g : Gen) : List TopStmt → Gen
  | [] => g
  | .funcT f :: rest => collectDecls { g with functions := insertA g.functions f.name f } rest
  | .structT s :: rest => collectDecls { g with structs := insertA g.structs s.name s } rest
  | .otherT :: rest => collectDecls g rest

/-- The fixed header of every translation unit: the four includes and the
`h_string` typedef (each followed by the blank lines the source writes). -/
def headerLines : List String :=
  ["#include <stdio.h>", "#include <stdlib.h>", "#include <string.h>",
   "#include <stdbool.h>", "", "typedef char* h_string;", ""]

/-- The unconditional `h_string_concat` helper, exactly as the source writes
it line by line (the indent is zero here, so the emitted lines are these). -/
def concatHelperLines : List String :=
  ["h_string h_string_concat(h_string a, h_string b) \x7b",
   "    size_t len_a = strlen(a);",
   "    size_t len_b = strlen(b);",
   "    h_string result = (h_string)malloc(len_a + len_b + 1);",
   "    memcpy(result, a, len_a);",
   "    memcpy(result + len_a, b, len_b + 1);",
   "    return result;",
   "\x7d",
   ""]

/-- Modelled from the spec: the map runtime — a linked list of
`(char* key, void* value)` entries with a precomputed count, and the six
functions `h_map_new`, `h_map_set`, `h_map_get`, `h_map_delete`, `h_map_len`,
`h_map_free` (absent from the `src/` snapshot; the headers are pinned by the
substrings `TestGenerate_MapHelpers` asserts). -/
def mapRuntimeLines : List String :=
  ["typedef struct h_map_entry \x7b",
   "    char* key;",
   "    void* value;",
   "    struct h_map_entry* next;",
   "\x7d h_map_entry;",
   "",
   "typedef struct \x7b",
   "    h_map_entry* head;",
   "    int count;",
   "\x7d h_map;",
   "",
   "h_map* h_map_new() \x7b",
   "    h_map* m = (h_map*)malloc(sizeof(h_map));",
   "    m->head = NULL;",
   "    m->count = 0;",
   "    return m;",
   "\x7d",
   "",
   "void h_map_set(h_map* m, char* key, void* value) \x7b",
   "    h_map_entry* e = m->head;",
   "    while (e != NULL) \x7b",
   "        if (strcmp(e->key, key) == 0) \x7b",
   "            e->value = value;",
   "            return;",
   "        \x7d",
   "        e = e->next;",
   "    \x7d",
   "    e = (h_map_entry*)malloc(sizeof(h_map_entry));",
   "    e->key = key;",
   "    e->value = value;",
   "    e->next = m->head;",
   "    m->head = e;",
   "    m->count++;",
   "\x7d",
   "",
   "void* h_map_get(h_map* m, char* key) \x7b",
   "    h_map_entry* e = m->head;",
   "    while (e != NULL) \x7b",
   "        if (strcmp(e->key, key) == 0) \x7b",
   "            return e->value;",
   "        \x7d",
   "        e = e->next;",
   "    \x7d",
   "    return NULL;",
   "\x7d",
   "",
   "void h_map_delete(h_map* m, char* key) \x7b",
   "    h_map_entry* e = m->head;",
   "    h_map_entry* prev = NULL;",
   "    while (e != NULL) \x7b",
   "        if (strcmp(e->key, key) == 0) \x7b",
   "            if (prev == NULL) \x7b m->head = e->next; \x7d else \x7b prev->next = e->next; \x7d",
   "            free(e);",
   "            m->count--;",
   "            return;",
   "        \x7d",
   "        prev = e;",
   "        e = e->next;",
   "    \x7d",
   "\x7d",
   "",
   "int h_map_len(h_map* m) \x7b",
   "    return m->count;",
   "\x7d",
   "",
   "void h_map_free(h_map* m) \x7b",
   "    h_map_entry* e = m->head;",
   "    while (e != NULL) \x7b",
   "        h_map_entry* next = e->next;",
   "        free(e);",
   "        e = next;",
   "    \x7d",
   "    free(m);",
   "\x7d",
   ""]

/-- Struct forward declarations (`typedef struct Name Name;`), one per entry
of the structs table (the source iterates the Go map; the model iterates the
association list, i.e. most-recent-first). -/
def structTypedefLines (g : Gen) : List (String × StructSt) → Gen
  | [] => g
  | (n, _) :: rest => structTypedefLines (writeLine g ("typedef struct " ++ n ++ " " ++ n ++ ";")) rest

/-- Pass two, struct bodies: program order. -/
def emitStructBodies (g : Gen) : List TopStmt → Gen
  | [] => g
  | .structT s :: rest => emitStructBodies (generateStruct g s) rest
  | _ :: rest => emitStructBodies g rest

/-- Pass two, function forward declarations: program order. -/
def emitFnDecls (g : Gen) : List TopStmt → Gen
  | [] => g
  | .funcT f :: rest => emitFnDecls (generateFunctionDeclaration g f) rest
  | _ :: rest => emitFnDecls g rest

/-- Pass two, function definitions: program order. -/
def emitFnImpls (g : Gen) : List TopStmt → Gen
  | [] => g
  | .funcT f :: rest => emitFnImpls (generateFunction g f) rest
  | _ :: rest => emitFnImpls g rest

/-- The empty generator (`New`). -/
def newGen : Gen :=
  { output := [], indent := 0, structs := [], functions := [], vars := [], deferredStmts := [] }

/-- Whole-program emission (`Generate`), as the list of emitted lines: pass
one collects declarations; then the fixed header, the concatenation helper,
the map runtime when a map feature occurs (modelled from the spec; emitted
after the unconditional helper and before the struct declarations), struct
forward declarations, struct bodies, function forward declarations (followed
by a blank line when any function exists), and function bodies. -/
def generateProgram (p : List TopStmt) : Gen :=
  let g1 := collectDecls newGen p
  let g2 := { g1 with output := g1.output ++ headerLines ++ concatHelperLines }
  let g3 := if programUsesMap p then { g2 with output := g2.output ++ mapRuntimeLines } else g2
  let g4 := structTypedefLines g3 g3.structs
  let g5 := if g4.structs.isEmpty then g4 else writeLine g4 ""
  let g6 := emitStructBodies g5 p
  let g7 := emitFnDecls g6 p
  let g8 := if g7.functions.isEmpty then g7 else writeLine g7 ""
  emitFnImpls g8 p

/-- The emitted C text of a program, as a list of lines. -/
def Generate (p : List TopStmt) : List String := (generateProgram p).output

end HG

namespace HG

/-- Statements that `generateStatementDirect` handles without falling back to
`generateStatement`: expression statements and `free`. -/
def isDirectStmt : Stmt → Bool
  | .exprS _ => true
  | .freeS _ => true
  | _ => false

/-- The single line `generateStatementDirect` writes for a direct statement
(before indentation). -/
def directLine (g : Gen) : Stmt → String
  | .exprS e => generateExpression g e ++ ";"
  | .freeS v => "free(" ++ generateExpression g v ++ ");"
  | _ => ""

/-- The declaration line of a map-literal `Infer` (before indentation). -/
def mapNewLine (name : String) : String := "h_map* " ++ name ++ " = h_map_new();"

/-- The text every `h_map_set` call for this variable starts with. -/
def mapSetCallStr (name : String) : String := "h_map_set(" ++ name ++ ","

/-- The definition-header lines of the six map runtime functions. -/
def mapHeaderLines : List String :=
  ["h_map* h_map_new() \x7b",
   "void h_map_set(h_map* m, char* key, void* value) \x7b",
   "void* h_map_get(h_map* m, char* key) \x7b",
   "void h_map_delete(h_map* m, char* key) \x7b",
   "int h_map_len(h_map* m) \x7b",
   "void h_map_free(h_map* m) \x7b"]

/-- A function declaration whose rendered signature is shaped like one the
parser can produce and that keeps clear of the reserved `h_map` runtime
namespace: its rendered return type contains no space, its mangled name
contains neither a space nor an opening parenthesis, and its mangled name
does not start with `h_map`.  (Every program the parser accepts satisfies
this: identifiers and type names match `[A-Za-z_][A-Za-z0-9_]*`, and the
`h_map` prefix is the runtime's reserved namespace.) -/
def reservedFree (f : FunctionSt) : Prop :=
  (∀ c ∈ (returnTypeC f).data, c ≠ ' ') ∧
  (∀ c ∈ (mangledName f).data, c ≠ ' ' ∧ c ≠ '(') ∧
  ¬ ("h_map".data <+: (mangledName f).data)

/-- Well-formedness of a program for the runtime-absence direction: every
declared function is `reservedFree`. -/
def WFProg (p : List TopStmt) : Prop := ∀ f, TopStmt.funcT f ∈ p → reservedFree f

mutual
/-- A statement contains (outside any `defer`) an `Infer` binding `name` to a
map literal; `needPair` additionally requires the literal to carry at least
one key/value pair. -/
def stmtBindsMapLit (name : String) (needPair : Bool) : Stmt → Bool
  | .inferS n (.mapLit _ pairs) =>
    n == name &&
      (!needPair ||
        (match pairs with
         | .nil => false
         | .cons _ _ _ => true))
  | .ifS _ thn alt =>
    blockBindsMapLit name needPair thn || obBindsMapLit name needPair alt
  | .forS _ _ _ body => blockBindsMapLit name needPair body
  | .whileS _ body => blockBindsMapLit name needPair body
  | .forRangeS _ _ _ body => blockBindsMapLit name needPair body
  | _ => false
/-- Block version of `stmtBindsMapLit`. -/
def blockBindsMapLit (name : String) (needPair : Bool) : StmtList → Bool
  | .nil => false
  | .cons s rest => stmtBindsMapLit name needPair s || blockBindsMapLit name needPair rest
/-- Nullable-block version of `stmtBindsMapLit`. -/
def obBindsMapLit (name : String) (needPair : Bool) : OptBlock → Bool
  | .noneB => false
  | .someB b => blockBindsMapLit name needPair b
end

/-- Program version of `stmtBindsMapLit`: some declared function's body
contains the binding. -/
def progBindsMapLit (name : String) (needPair : Bool) : List TopStmt → Bool
  | [] => false
  | .funcT f :: rest =>
    blockBindsMapLit name needPair f.body || progBindsMapLit name needPair rest
  | _ :: rest => progBindsMapLit name needPair rest

/-- A map type annotation (as the parser builds for `map[K]V`; the key and
value annotations are immaterial to the emitter). -/
def mapTy : TypeAnn := { name := "map", isPtr := false, arrayLen := 0, isMap := true }

/-- The program `function main() { ages := map[string]int{} }` — a map
literal with no pairs bound by an `Infer`. -/
def c1EmptyMapProg : List TopStmt :=
  [.funcT { name := "main", receiver := none, params := [], returnType := none,
            body := .cons (.inferS "ages" (.mapLit mapTy .nil)) .nil }]

/-- The program `function main() { ages := map[string]int{"Alice": 30} }`. -/
def c1PairProg : List TopStmt :=
  [.funcT { name := "main", receiver := none, params := [], returnType := none,
            body := .cons (.inferS "ages"
              (.mapLit mapTy (.cons (.strLit "Alice") (.intLit 30) .nil))) .nil }]

/-- The function `function f() { defer free(x); }`. -/
def c3Fn : FunctionSt :=
  { name := "f", receiver := none, params := [], returnType := none,
    body := .cons (.deferS (.freeS (.ident "x"))) .nil }

/-- A generator state inside a function body (indent one, empty tables) used
by the closed instances. -/
def gBody : Gen :=
  { output := [], indent := 1, structs := [], functions := [], vars := [],
    deferredStmts := [] }

/-- A body state whose deferred stack holds `free(x)` (registered by
`defer free(x);`). -/
def gDeferred : Gen := { gBody with deferredStmts := [.freeS (.ident "x")] }

/-- A body state recording a map-typed variable `m` and an array-typed
variable `arr`. -/
def gMapVar : Gen := { gBody with vars := [("m", "h_map*"), ("arr", "int[5]")] }

/-- Every line of `L` starts with a space (as every line written while the
emitter's indent is at least one level does). -/
def SpaceLines (L : List String) : Prop := ∀ s ∈ L, ∃ r, s.data = ' ' :: r

/-- The lines a statement-engine step appends to the output. -/
def stepDelta (f : Nat) (g : Gen) (t : GTask) : List String :=
  ((genStep f g t).output).drop g.output.length

/-- `g2` is reachable from `g1` by emission steps: the indent and the two
declaration tables return to their values in `g1`, and the output grows by
lines that all start with a space whenever `g1` is indented. -/
def Extends (g1 g2 : Gen) : Prop :=
  g2.indent = g1.indent ∧ g2.structs = g1.structs ∧ g2.functions = g1.functions ∧
  ∃ L, g2.output = g1.output ++ L ∧ (1 ≤ g1.indent → SpaceLines L)

end HG

namespace HL

theorem readChar_input (l : Lexer) : (readChar l).input = l.input := by
  unfold readChar
  dsimp only
  split_ifs <;> rfl

theorem readChar_readPos (l : Lexer) : (readChar l).readPos = l.readPos + 1 := by
  unfold readChar
  dsimp only
  split_ifs <;> rfl

theorem readChar_pos (l : Lexer) : (readChar l).pos = l.readPos := by
  unfold readChar
  dsimp only
  split_ifs <;> rfl

theorem readChar_ch (l : Lexer) :
    (readChar l).ch = if l.input.length ≤ l.readPos then 0 else l.input.getD l.readPos 0 := by
  unfold readChar
  dsimp only
  split_ifs <;> rfl

theorem inv0_readChar (l : Lexer) : Inv0 (readChar l) := by
  refine ⟨by rw [readChar_readPos, readChar_pos], ?_⟩
  intro hch
  rw [readChar_ch] at hch
  rw [readChar_pos, readChar_input]
  by_cases h : l.input.length ≤ l.readPos
  · rw [if_pos h] at hch
    exact absurd rfl hch
  · omega

theorem invN_readChar (l : Lexer) (hN : NoNul l.input) : InvN (readChar l) := by
  refine ⟨inv0_readChar l, ?_⟩
  intro hch
  rw [readChar_ch] at hch
  rw [readChar_pos, readChar_input]
  by_cases h : l.input.length ≤ l.readPos
  · exact h
  · exfalso
    rw [if_neg h] at hch
    push_neg at h
    have hmem : l.input.getD l.readPos 0 ∈ l.input := by
      rw [List.getD_eq_getElem l.input 0 h]
      exact List.getElem_mem h
    exact hN _ hmem hch

theorem skipWhitespaceF_input (f : Nat) (l : Lexer) : (skipWhitespaceF f l).input = l.input := by
  induction f generalizing l with
  | zero => rfl
  | succ f ih =>
    unfold skipWhitespaceF
    split
    · rw [ih, readChar_input]
    · rfl

theorem skipWhitespaceF_readPos (f : Nat) (l : Lexer) :
    l.readPos ≤ (skipWhitespaceF f l).readPos := by
  induction f generalizing l with
  | zero => exact Nat.le_refl _
  | succ f ih =>
    unfold skipWhitespaceF
    split
    · have := ih (readChar l)
      rw [readChar_readPos] at this
      omega
    · exact Nat.le_refl _

theorem skipWhitespaceF_inv0 (f : Nat) (l : Lexer) (h : Inv0 l) :
    Inv0 (skipWhitespaceF f l) := by
  induction f generalizing l with
  | zero => exact h
  | succ f ih =>
    unfold skipWhitespaceF
    split
    · exact ih _ (inv0_readChar l)
    · exact h

theorem skipWhitespaceF_invN (f : Nat) (l : Lexer) (hN : NoNul l.input) (h : InvN l) :
    InvN (skipWhitespaceF f l) := by
  induction f generalizing l with
  | zero => exact h
  | succ f ih =>
    unfold skipWhitespaceF
    split
    · exact ih _ (by rw [readChar_input]; exact hN) (invN_readChar l hN)
    · exact h

theorem skipWhitespaceF_stop (f : Nat) (l : Lexer) (h : isWS l.ch = false) :
    skipWhitespaceF f l = l := by
  cases f with
  | zero => rfl
  | succ f =>
    unfold skipWhitespaceF
    rw [h]
    simp only [Bool.false_eq_true, if_false]

theorem skipWhitespace_stop (l : Lexer) (h : isWS l.ch = false) : skipWhitespace l = l :=
  skipWhitespaceF_stop _ l h

theorem skipWhitespace_input (l : Lexer) : (skipWhitespace l).input = l.input :=
  skipWhitespaceF_input _ l

theorem skipWhitespace_readPos (l : Lexer) : l.readPos ≤ (skipWhitespace l).readPos :=
  skipWhitespaceF_readPos _ l

theorem skipWhitespace_inv0 (l : Lexer) (h : Inv0 l) : Inv0 (skipWhitespace l) :=
  skipWhitespaceF_inv0 _ l h

theorem skipWhitespace_invN (l : Lexer) (hN : NoNul l.input) (h : InvN l) :
    InvN (skipWhitespace l) :=
  skipWhitespaceF_invN _ l hN h

theorem readIdentLoopF_input (f : Nat) (l : Lexer) : (readIdentLoopF f l).input = l.input := by
  induction f generalizing l with
  | zero => rfl
  | succ f ih =>
    unfold readIdentLoopF
    split
    · rw [ih, readChar_input]
    · rfl

theorem readIdentLoopF_readPos (f : Nat) (l : Lexer) :
    l.readPos ≤ (readIdentLoopF f l).readPos := by
  induction f generalizing l with
  | zero => exact Nat.le_refl _
  | succ f ih =>
    unfold readIdentLoopF
    split
    · have := ih (readChar l)
      rw [readChar_readPos] at this
      omega
    · exact Nat.le_refl _

theorem readIdentLoopF_inv0 (f : Nat) (l : Lexer) (h : Inv0 l) :
    Inv0 (readIdentLoopF f l) := by
  induction f generalizing l with
  | zero => exact h
  | succ f ih =>
    unfold readIdentLoopF
    split
    · exact ih _ (inv0_readChar l)
    · exact h

theorem readIdentLoopF_invN (f : Nat) (l : Lexer) (hN : NoNul l.input) (h : InvN l) :
    InvN (readIdentLoopF f l) := by
  induction f generalizing l with
  | zero => exact h
  | succ f ih =>
    unfold readIdentLoopF
    split
    · exact ih _ (by rw [readChar_input]; exact hN) (invN_readChar l hN)
    · exact h

theorem readDigitsF_input (f : Nat) (l : Lexer) : (readDigitsF f l).input = l.input := by
  induction f generalizing l with
  | zero => rfl
  | succ f ih =>
    unfold readDigitsF
    split
    · rw [ih, readChar_input]
    · rfl

theorem readDigitsF_readPos (f : Nat) (l : Lexer) : l.readPos ≤ (readDigitsF f l).readPos := by
  induction f generalizing l with
  | zero => exact Nat.le_refl _
  | succ f ih =>
    unfold readDigitsF
    split
    · have := ih (readChar l)
      rw [readChar_readPos] at this
      omega
    · exact Nat.le_refl _

theorem readDigitsF_inv0 (f : Nat) (l : Lexer) (h : Inv0 l) : Inv0 (readDigitsF f l) := by
  induction f generalizing l with
  | zero => exact h
  | succ f ih =>
    unfold readDigitsF
    split
    · exact ih _ (inv0_readChar l)
    · exact h

theorem readStringLoopF_input (f : Nat) (l : Lexer) : (readStringLoopF f l).input = l.input := by
  induction f generalizing l with
  | zero => rfl
  | succ f ih =>
    unfold readStringLoopF
    split
    · split
      · rw [ih, readChar_input, readChar_input]
      · rw [ih, readChar_input]
    · rfl

theorem readStringLoopF_readPos (f : Nat) (l : Lexer) :
    l.readPos ≤ (readStringLoopF f l).readPos := by
  induction f generalizing l with
  | zero => exact Nat.le_refl _
  | succ f ih =>
    unfold readStringLoopF
    split
    · split
      · have := ih (readChar (readChar l))
        rw [readChar_readPos, readChar_readPos] at this
        omega
      · have := ih (readChar l)
        rw [readChar_readPos] at this
        omega
    · exact Nat.le_refl _

theorem readStringLoopF_invN (f : Nat) (l : Lexer) (hN : NoNul l.input) (h : InvN l) :
    InvN (readStringLoopF f l) := by
  induction f generalizing l with
  | zero => exact h
  | succ f ih =>
    unfold readStringLoopF
    split
    · split
      · exact ih _ (by rw [readChar_input, readChar_input]; exact hN)
          (invN_readChar _ (by rw [readChar_input]; exact hN))
      · exact ih _ (by rw [readChar_input]; exact hN) (invN_readChar l hN)
    · exact h

theorem readLineLoopF_input (f : Nat) (l : Lexer) : (readLineLoopF f l).input = l.input := by
  induction f generalizing l with
  | zero => rfl
  | succ f ih =>
    unfold readLineLoopF
    split
    · rw [ih, readChar_input]
    · rfl

theorem readLineLoopF_readPos (f : Nat) (l : Lexer) :
    l.readPos ≤ (readLineLoopF f l).readPos := by
  induction f generalizing l with
  | zero => exact Nat.le_refl _
  | succ f ih =>
    unfold readLineLoopF
    split
    · have := ih (readChar l)
      rw [readChar_readPos] at this
      omega
    · exact Nat.le_refl _

theorem readBlockLoopF_input (f : Nat) (l : Lexer) : (readBlockLoopF f l).2.input = l.input := by
  induction f generalizing l with
  | zero => rfl
  | succ f ih =>
    unfold readBlockLoopF
    split
    · rfl
    · split
      · rw [readChar_input, readChar_input]
      · rw [ih, readChar_input]

theorem readBlockLoopF_readPos (f : Nat) (l : Lexer) :
    l.readPos ≤ (readBlockLoopF f l).2.readPos := by
  induction f generalizing l with
  | zero => exact Nat.le_refl _
  | succ f ih =>
    unfold readBlockLoopF
    split
    · exact Nat.le_refl _
    · split
      · rw [readChar_readPos, readChar_readPos]
        omega
      · have := ih (readChar l)
        rw [readChar_readPos] at this
        omega

theorem readBlockLoopF_inv0 (f : Nat) (l : Lexer) (h : Inv0 l) :
    Inv0 (readBlockLoopF f l).2 := by
  induction f generalizing l with
  | zero => exact h
  | succ f ih =>
    unfold readBlockLoopF
    split
    · exact h
    · split
      · exact inv0_readChar _
      · exact ih _ (inv0_readChar l)

end HL

namespace HL

theorem isLetter_ne_zero (c : Nat) (h : isLetter c = true) : c ≠ 0 := by
  intro h0
  subst h0
  exact absurd h (by decide)

theorem isDigit_ne_zero (c : Nat) (h : isDigit c = true) : c ≠ 0 := by
  intro h0
  subst h0
  exact absurd h (by decide)

theorem lexFuel_pos (l : Lexer) (h : Inv0 l) (hch : l.ch ≠ 0) : 1 ≤ lexFuel l := by
  obtain ⟨h1, h2⟩ := h
  have := h2 hch
  unfold lexFuel
  omega

theorem readIdentLoopF_step (f : Nat) (l : Lexer)
    (hg : (isLetter l.ch || isDigit l.ch || l.ch == 95) = true) (hf : 1 ≤ f) :
    l.readPos + 1 ≤ (readIdentLoopF f l).readPos := by
  cases f with
  | zero => omega
  | succ f =>
    unfold readIdentLoopF
    rw [hg]
    simp only [if_true]
    have := readIdentLoopF_readPos f (readChar l)
    rw [readChar_readPos] at this
    omega

theorem readIdentifier_advance (l : Lexer) (h : Inv0 l) (hl : isLetter l.ch = true) :
    l.readPos + 1 ≤ (readIdentifier l).2.readPos := by
  unfold readIdentifier
  exact readIdentLoopF_step _ l (by rw [hl]; rfl)
    (lexFuel_pos l h (isLetter_ne_zero _ hl))

theorem readIdentifier_inv0 (l : Lexer) (h : Inv0 l) : Inv0 (readIdentifier l).2 :=
  readIdentLoopF_inv0 _ l h

theorem readDigitsF_step (f : Nat) (l : Lexer) (hg : isDigit l.ch = true) (hf : 1 ≤ f) :
    l.readPos + 1 ≤ (readDigitsF f l).readPos := by
  cases f with
  | zero => omega
  | succ f =>
    unfold readDigitsF
    rw [hg]
    simp only [if_true]
    have := readDigitsF_readPos f (readChar l)
    rw [readChar_readPos] at this
    omega

theorem readNumber_advance (l : Lexer) (h : Inv0 l) (hd : isDigit l.ch = true) :
    l.readPos + 1 ≤ (readNumber l).2.2.readPos := by
  unfold readNumber
  have h1 : l.readPos + 1 ≤ (readDigitsF (lexFuel l) l).readPos :=
    readDigitsF_step _ l hd (lexFuel_pos l h (isDigit_ne_zero _ hd))
  dsimp only
  split
  · dsimp only
    have h2 := readDigitsF_readPos
      (lexFuel (readChar (readDigitsF (lexFuel l) l))) (readChar (readDigitsF (lexFuel l) l))
    rw [readChar_readPos] at h2
    omega
  · dsimp only
    exact h1

theorem readNumber_ne_eof (l : Lexer) : (readNumber l).2.1 ≠ .EOF := by
  unfold readNumber
  dsimp only
  split
  · dsimp only
    intro h
    exact absurd h (by decide)
  · dsimp only
    intro h
    exact absurd h (by decide)

theorem readString_state (l : Lexer) : (readString l).2 = readChar (stringScan l) := rfl

theorem readNumber_inv0 (l : Lexer) (h : Inv0 l) : Inv0 (readNumber l).2.2 := by
  unfold readNumber
  dsimp only
  split
  · dsimp only
    exact readDigitsF_inv0 _ _ (inv0_readChar _)
  · dsimp only
    exact readDigitsF_inv0 _ l h

theorem readString_advance (l : Lexer) : l.readPos + 1 ≤ (readString l).2.readPos := by
  rw [readString_state, readChar_readPos]
  have h1 := readStringLoopF_readPos (lexFuel (readChar l)) (readChar l)
  rw [readChar_readPos] at h1
  unfold stringScan
  omega

theorem readCharLit_advance (l : Lexer) : l.readPos + 1 ≤ (readCharLit l).2.readPos := by
  unfold readCharLit
  dsimp only
  split
  · rw [readChar_readPos, readChar_readPos, readChar_readPos, readChar_readPos]
    omega
  · rw [readChar_readPos, readChar_readPos, readChar_readPos]
    omega

theorem readLineComment_advance (l : Lexer) : l.readPos + 1 ≤ (readLineComment l).2.readPos := by
  unfold readLineComment
  dsimp only
  split
  · have h1 := readLineLoopF_readPos
      (lexFuel (readChar (readChar l))) (readChar (readChar l))
    rw [readChar_readPos, readChar_readPos] at h1
    omega
  · have h1 := readLineLoopF_readPos (lexFuel (readChar l)) (readChar l)
    rw [readChar_readPos] at h1
    omega

theorem readLineLoopF_inv0 (f : Nat) (l : Lexer) (h : Inv0 l) : Inv0 (readLineLoopF f l) := by
  induction f generalizing l with
  | zero => exact h
  | succ f ih =>
    unfold readLineLoopF
    split
    · exact ih _ (inv0_readChar l)
    · exact h

theorem readLineComment_inv0 (l : Lexer) (h : Inv0 l) : Inv0 (readLineComment l).2 := by
  unfold readLineComment
  dsimp only
  split
  · exact readLineLoopF_inv0 _ _ (inv0_readChar _)
  · exact readLineLoopF_inv0 _ _ (inv0_readChar _)

theorem readBlockComment_advance (l : Lexer) :
    l.readPos + 1 ≤ (readBlockComment l).2.readPos := by
  unfold readBlockComment
  dsimp only
  have h1 := readBlockLoopF_readPos
    (lexFuel (readChar (readChar l))) (readChar (readChar l))
  rw [readChar_readPos, readChar_readPos] at h1
  omega

theorem readBlockComment_inv0 (l : Lexer) (h : Inv0 l) : Inv0 (readBlockComment l).2 := by
  unfold readBlockComment
  dsimp only
  exact readBlockLoopF_inv0 _ _ (inv0_readChar _)

theorem lookupIdent_ne_eof (s : List Nat) : lookupIdent s ≠ .EOF := by
  unfold lookupIdent
  cases hf : keywords.find? (fun kv => kv.1 == s) with
  | none => intro h; exact absurd h (by decide)
  | some kv =>
    have hmem : kv ∈ keywords := List.mem_of_find?_eq_some hf
    have hall : ∀ kv ∈ keywords, kv.2 ≠ TokenType.EOF := by decide
    exact hall kv hmem

end HL




namespace HL

theorem charCaseOf_nul (c : Nat) (h : charCaseOf c = .cnul) : c = 0 := by
  rw [charCaseOf.eq_def] at h
  by_cases hc0 : c = 61
  · rw [if_pos hc0] at h
    exact absurd h (by decide)
  rw [if_neg hc0] at h
  by_cases hc1 : c = 43
  · rw [if_pos hc1] at h
    exact absurd h (by decide)
  rw [if_neg hc1] at h
  by_cases hc2 : c = 45
  · rw [if_pos hc2] at h
    exact absurd h (by decide)
  rw [if_neg hc2] at h
  by_cases hc3 : c = 42
  · rw [if_pos hc3] at h
    exact absurd h (by decide)
  rw [if_neg hc3] at h
  by_cases hc4 : c = 47
  · rw [if_pos hc4] at h
    exact absurd h (by decide)
  rw [if_neg hc4] at h
  by_cases hc5 : c = 35
  · rw [if_pos hc5] at h
    exact absurd h (by decide)
  rw [if_neg hc5] at h
  by_cases hc6 : c = 37
  · rw [if_pos hc6] at h
    exact absurd h (by decide)
  rw [if_neg hc6] at h
  by_cases hc7 : c = 33
  · rw [if_pos hc7] at h
    exact absurd h (by decide)
  rw [if_neg hc7] at h
  by_cases hc8 : c = 38
  · rw [if_pos hc8] at h
    exact absurd h (by decide)
  rw [if_neg hc8] at h
  by_cases hc9 : c = 124
  · rw [if_pos hc9] at h
    exact absurd h (by decide)
  rw [if_neg hc9] at h
  by_cases hc10 : c = 60
  · rw [if_pos hc10] at h
    exact absurd h (by decide)
  rw [if_neg hc10] at h
  by_cases hc11 : c = 62
  · rw [if_pos hc11] at h
    exact absurd h (by decide)
  rw [if_neg hc11] at h
  by_cases hc12 : c = 58
  · rw [if_pos hc12] at h
    exact absurd h (by decide)
  rw [if_neg hc12] at h
  by_cases hc13 : c = 44
  · rw [if_pos hc13] at h
    exact absurd h (by decide)
  rw [if_neg hc13] at h
  by_cases hc14 : c = 59
  · rw [if_pos hc14] at h
    exact absurd h (by decide)
  rw [if_neg hc14] at h
  by_cases hc15 : c = 46
  · rw [if_pos hc15] at h
    exact absurd h (by decide)
  rw [if_neg hc15] at h
  by_cases hc16 : c = 40
  · rw [if_pos hc16] at h
    exact absurd h (by decide)
  rw [if_neg hc16] at h
  by_cases hc17 : c = 41
  · rw [if_pos hc17] at h
    exact absurd h (by decide)
  rw [if_neg hc17] at h
  by_cases hc18 : c = 123
  · rw [if_pos hc18] at h
    exact absurd h (by decide)
  rw [if_neg hc18] at h
  by_cases hc19 : c = 125
  · rw [if_pos hc19] at h
    exact absurd h (by decide)
  rw [if_neg hc19] at h
  by_cases hc20 : c = 91
  · rw [if_pos hc20] at h
    exact absurd h (by decide)
  rw [if_neg hc20] at h
  by_cases hc21 : c = 93
  · rw [if_pos hc21] at h
    exact absurd h (by decide)
  rw [if_neg hc21] at h
  by_cases hc22 : c = 34
  · rw [if_pos hc22] at h
    exact absurd h (by decide)
  rw [if_neg hc22] at h
  by_cases hc23 : c = 39
  · rw [if_pos hc23] at h
    exact absurd h (by decide)
  rw [if_neg hc23] at h
  by_cases hc24 : c = 0
  · exact hc24
  rw [if_neg hc24] at h
  by_cases hc25 : isLetter c = true
  · rw [if_pos hc25] at h
    exact absurd h (by decide)
  rw [if_neg hc25] at h
  by_cases hc26 : isDigit c = true
  · rw [if_pos hc26] at h
    exact absurd h (by decide)
  rw [if_neg hc26] at h
  exact absurd h (by decide)

theorem charCaseOf_letter (c : Nat) (h : charCaseOf c = .cletter) : isLetter c = true := by
  rw [charCaseOf.eq_def] at h
  by_cases hc0 : c = 61
  · rw [if_pos hc0] at h
    exact absurd h (by decide)
  rw [if_neg hc0] at h
  by_cases hc1 : c = 43
  · rw [if_pos hc1] at h
    exact absurd h (by decide)
  rw [if_neg hc1] at h
  by_cases hc2 : c = 45
  · rw [if_pos hc2] at h
    exact absurd h (by decide)
  rw [if_neg hc2] at h
  by_cases hc3 : c = 42
  · rw [if_pos hc3] at h
    exact absurd h (by decide)
  rw [if_neg hc3] at h
  by_cases hc4 : c = 47
  · rw [if_pos hc4] at h
    exact absurd h (by decide)
  rw [if_neg hc4] at h
  by_cases hc5 : c = 35
  · rw [if_pos hc5] at h
    exact absurd h (by decide)
  rw [if_neg hc5] at h
  by_cases hc6 : c = 37
  · rw [if_pos hc6] at h
    exact absurd h (by decide)
  rw [if_neg hc6] at h
  by_cases hc7 : c = 33
  · rw [if_pos hc7] at h
    exact absurd h (by decide)
  rw [if_neg hc7] at h
  by_cases hc8 : c = 38
  · rw [if_pos hc8] at h
    exact absurd h (by decide)
  rw [if_neg hc8] at h
  by_cases hc9 : c = 124
  · rw [if_pos hc9] at h
    exact absurd h (by decide)
  rw [if_neg hc9] at h
  by_cases hc10 : c = 60
  · rw [if_pos hc10] at h
    exact absurd h (by decide)
  rw [if_neg hc10] at h
  by_cases hc11 : c = 62
  · rw [if_pos hc11] at h
    exact absurd h (by decide)
  rw [if_neg hc11] at h
  by_cases hc12 : c = 58
  · rw [if_pos hc12] at h
    exact absurd h (by decide)
  rw [if_neg hc12] at h
  by_cases hc13 : c = 44
  · rw [if_pos hc13] at h
    exact absurd h (by decide)
  rw [if_neg hc13] at h
  by_cases hc14 : c = 59
  · rw [if_pos hc14] at h
    exact absurd h (by decide)
  rw [if_neg hc14] at h
  by_cases hc15 : c = 46
  · rw [if_pos hc15] at h
    exact absurd h (by decide)
  rw [if_neg hc15] at h
  by_cases hc16 : c = 40
  · rw [if_pos hc16] at h
    exact absurd h (by decide)
  rw [if_neg hc16] at h
  by_cases hc17 : c = 41
  · rw [if_pos hc17] at h
    exact absurd h (by decide)
  rw [if_neg hc17] at h
  by_cases hc18 : c = 123
  · rw [if_pos hc18] at h
    exact absurd h (by decide)
  rw [if_neg hc18] at h
  by_cases hc19 : c = 125
  · rw [if_pos hc19] at h
    exact absurd h (by decide)
  rw [if_neg hc19] at h
  by_cases hc20 : c = 91
  · rw [if_pos hc20] at h
    exact absurd h (by decide)
  rw [if_neg hc20] at h
  by_cases hc21 : c = 93
  · rw [if_pos hc21] at h
    exact absurd h (by decide)
  rw [if_neg hc21] at h
  by_cases hc22 : c = 34
  · rw [if_pos hc22] at h
    exact absurd h (by decide)
  rw [if_neg hc22] at h
  by_cases hc23 : c = 39
  · rw [if_pos hc23] at h
    exact absurd h (by decide)
  rw [if_neg hc23] at h
  by_cases hc24 : c = 0
  · rw [if_pos hc24] at h
    exact absurd h (by decide)
  rw [if_neg hc24] at h
  by_cases hc25 : isLetter c = true
  · exact hc25
  rw [if_neg hc25] at h
  by_cases hc26 : isDigit c = true
  · rw [if_pos hc26] at h
    exact absurd h (by decide)
  rw [if_neg hc26] at h
  exact absurd h (by decide)

theorem charCaseOf_digit (c : Nat) (h : charCaseOf c = .cdigit) : isDigit c = true := by
  rw [charCaseOf.eq_def] at h
  by_cases hc0 : c = 61
  · rw [if_pos hc0] at h
    exact absurd h (by decide)
  rw [if_neg hc0] at h
  by_cases hc1 : c = 43
  · rw [if_pos hc1] at h
    exact absurd h (by decide)
  rw [if_neg hc1] at h
  by_cases hc2 : c = 45
  · rw [if_pos hc2] at h
    exact absurd h (by decide)
  rw [if_neg hc2] at h
  by_cases hc3 : c = 42
  · rw [if_pos hc3] at h
    exact absurd h (by decide)
  rw [if_neg hc3] at h
  by_cases hc4 : c = 47
  · rw [if_pos hc4] at h
    exact absurd h (by decide)
  rw [if_neg hc4] at h
  by_cases hc5 : c = 35
  · rw [if_pos hc5] at h
    exact absurd h (by decide)
  rw [if_neg hc5] at h
  by_cases hc6 : c = 37
  · rw [if_pos hc6] at h
    exact absurd h (by decide)
  rw [if_neg hc6] at h
  by_cases hc7 : c = 33
  · rw [if_pos hc7] at h
    exact absurd h (by decide)
  rw [if_neg hc7] at h
  by_cases hc8 : c = 38
  · rw [if_pos hc8] at h
    exact absurd h (by decide)
  rw [if_neg hc8] at h
  by_cases hc9 : c = 124
  · rw [if_pos hc9] at h
    exact absurd h (by decide)
  rw [if_neg hc9] at h
  by_cases hc10 : c = 60
  · rw [if_pos hc10] at h
    exact absurd h (by decide)
  rw [if_neg hc10] at h
  by_cases hc11 : c = 62
  · rw [if_pos hc11] at h
    exact absurd h (by decide)
  rw [if_neg hc11] at h
  by_cases hc12 : c = 58
  · rw [if_pos hc12] at h
    exact absurd h (by decide)
  rw [if_neg hc12] at h
  by_cases hc13 : c = 44
  · rw [if_pos hc13] at h
    exact absurd h (by decide)
  rw [if_neg hc13] at h
  by_cases hc14 : c = 59
  · rw [if_pos hc14] at h
    exact absurd h (by decide)
  rw [if_neg hc14] at h
  by_cases hc15 : c = 46
  · rw [if_pos hc15] at h
    exact absurd h (by decide)
  rw [if_neg hc15] at h
  by_cases hc16 : c = 40
  · rw [if_pos hc16] at h
    exact absurd h (by decide)
  rw [if_neg hc16] at h
  by_cases hc17 : c = 41
  · rw [if_pos hc17] at h
    exact absurd h (by decide)
  rw [if_neg hc17] at h
  by_cases hc18 : c = 123
  · rw [if_pos hc18] at h
    exact absurd h (by decide)
  rw [if_neg hc18] at h
  by_cases hc19 : c = 125
  · rw [if_pos hc19] at h
    exact absurd h (by decide)
  rw [if_neg hc19] at h
  by_cases hc20 : c = 91
  · rw [if_pos hc20] at h
    exact absurd h (by decide)
  rw [if_neg hc20] at h
  by_cases hc21 : c = 93
  · rw [if_pos hc21] at h
    exact absurd h (by decide)
  rw [if_neg hc21] at h
  by_cases hc22 : c = 34
  · rw [if_pos hc22] at h
    exact absurd h (by decide)
  rw [if_neg hc22] at h
  by_cases hc23 : c = 39
  · rw [if_pos hc23] at h
    exact absurd h (by decide)
  rw [if_neg hc23] at h
  by_cases hc24 : c = 0
  · rw [if_pos hc24] at h
    exact absurd h (by decide)
  rw [if_neg hc24] at h
  by_cases hc25 : isLetter c = true
  · rw [if_pos hc25] at h
    exact absurd h (by decide)
  rw [if_neg hc25] at h
  by_cases hc26 : isDigit c = true
  · exact hc26
  rw [if_neg hc26] at h
  exact absurd h (by decide)

end HL

namespace HL

theorem readCharLit_inv0 (l : Lexer) : Inv0 (readCharLit l).2 := by
  unfold readCharLit
  dsimp only
  split_ifs <;> exact inv0_readChar _

theorem readString_inv0 (l : Lexer) : Inv0 (readString l).2 := by
  rw [readString_state]
  exact inv0_readChar _

theorem nextTokenCore_at0 (l : Lexer) (h : l.ch = 0) :
    nextTokenCore l =
      ({ type := .EOF, literal := [], line := l.line, column := l.column }, readChar l) := by
  obtain ⟨inp, pos, rp, ch, ln, col⟩ := l
  dsimp only at h ⊢
  subst h
  rfl

theorem nextTokenCore_eof_imp (l : Lexer) (he : (nextTokenCore l).1.type = .EOF) :
    l.ch = 0 := by
  unfold nextTokenCore at he
  dsimp only at he
  cases hck : charCaseOf l.ch
  case cnul => exact charCaseOf_nul _ hck
  all_goals rw [hck] at he
  all_goals dsimp only at he
  all_goals try split_ifs at he
  all_goals try dsimp only [twoTok, singleTok] at he
  all_goals
    first
    | exact absurd he (by decide)
    | exact absurd he (lookupIdent_ne_eof _)
    | exact absurd he (readNumber_ne_eof _)

theorem nextTokenCore_advance (l : Lexer) (h : Inv0 l) :
    l.readPos + 1 ≤ (nextTokenCore l).2.readPos := by
  unfold nextTokenCore
  dsimp only
  cases hck : charCaseOf l.ch
  all_goals dsimp only
  case ceq =>
    split_ifs
    all_goals simp only [readChar_readPos]
    all_goals omega
  case cplus =>
    split_ifs
    all_goals simp only [readChar_readPos]
    all_goals omega
  case cminus =>
    split_ifs
    all_goals simp only [readChar_readPos]
    all_goals omega
  case cstar =>
    split_ifs
    all_goals simp only [readChar_readPos]
    all_goals omega
  case cslash =>
    split_ifs
    · exact readLineComment_advance l
    · exact readBlockComment_advance l
    · simp only [readChar_readPos]
      omega
    · simp only [readChar_readPos]
      omega
  case chash =>
    exact readLineComment_advance l
  case cpercent =>
    simp only [readChar_readPos]
    omega
  case cbang =>
    split_ifs
    all_goals simp only [readChar_readPos]
    all_goals omega
  case camp =>
    split_ifs
    all_goals simp only [readChar_readPos]
    all_goals omega
  case cpipe =>
    split_ifs
    all_goals simp only [readChar_readPos]
    all_goals omega
  case clt =>
    split_ifs
    all_goals simp only [readChar_readPos]
    all_goals omega
  case cgt =>
    split_ifs
    all_goals simp only [readChar_readPos]
    all_goals omega
  case ccolon =>
    split_ifs
    all_goals simp only [readChar_readPos]
    all_goals omega
  case ccomma =>
    simp only [readChar_readPos]
    omega
  case csemi =>
    simp only [readChar_readPos]
    omega
  case cdot =>
    simp only [readChar_readPos]
    omega
  case clparen =>
    simp only [readChar_readPos]
    omega
  case crparen =>
    simp only [readChar_readPos]
    omega
  case clbrace =>
    simp only [readChar_readPos]
    omega
  case crbrace =>
    simp only [readChar_readPos]
    omega
  case clbracket =>
    simp only [readChar_readPos]
    omega
  case crbracket =>
    simp only [readChar_readPos]
    omega
  case cquote =>
    exact readString_advance l
  case ctick =>
    exact readCharLit_advance l
  case cnul =>
    simp only [readChar_readPos]
    omega
  case cletter =>
    exact readIdentifier_advance l h (charCaseOf_letter _ hck)
  case cdigit =>
    exact readNumber_advance l h (charCaseOf_digit _ hck)
  case cother =>
    simp only [readChar_readPos]
    omega

theorem nextTokenCore_inv0 (l : Lexer) (h : Inv0 l) : Inv0 (nextTokenCore l).2 := by
  unfold nextTokenCore
  dsimp only
  cases hck : charCaseOf l.ch
  all_goals dsimp only
  case ceq =>
    split_ifs
    all_goals exact inv0_readChar _
  case cplus =>
    split_ifs
    all_goals exact inv0_readChar _
  case cminus =>
    split_ifs
    all_goals exact inv0_readChar _
  case cstar =>
    split_ifs
    all_goals exact inv0_readChar _
  case cslash =>
    split_ifs
    · exact readLineComment_inv0 l h
    · exact readBlockComment_inv0 l h
    · exact inv0_readChar _
    · exact inv0_readChar _
  case chash =>
    exact readLineComment_inv0 l h
  case cpercent =>
    exact inv0_readChar _
  case cbang =>
    split_ifs
    all_goals exact inv0_readChar _
  case camp =>
    split_ifs
    all_goals exact inv0_readChar _
  case cpipe =>
    split_ifs
    all_goals exact inv0_readChar _
  case clt =>
    split_ifs
    all_goals exact inv0_readChar _
  case cgt =>
    split_ifs
    all_goals exact inv0_readChar _
  case ccolon =>
    split_ifs
    all_goals exact inv0_readChar _
  case ccomma =>
    exact inv0_readChar _
  case csemi =>
    exact inv0_readChar _
  case cdot =>
    exact inv0_readChar _
  case clparen =>
    exact inv0_readChar _
  case crparen =>
    exact inv0_readChar _
  case clbrace =>
    exact inv0_readChar _
  case crbrace =>
    exact inv0_readChar _
  case clbracket =>
    exact inv0_readChar _
  case crbracket =>
    exact inv0_readChar _
  case cquote =>
    exact readString_inv0 l
  case ctick =>
    exact readCharLit_inv0 l
  case cnul =>
    exact inv0_readChar _
  case cletter =>
    exact readIdentifier_inv0 l h
  case cdigit =>
    exact readNumber_inv0 l h
  case cother =>
    exact inv0_readChar _

end HL

namespace HL

theorem atEnd_next (l : Lexer) (h : AtEnd l) :
    (nextToken l).1.type = .EOF ∧ AtEnd (nextToken l).2 := by
  obtain ⟨h0, hlen, hrp⟩ := h
  have hskip : skipWhitespace l = l := skipWhitespace_stop l (by rw [h0]; decide)
  unfold nextToken
  rw [hskip, nextTokenCore_at0 l h0]
  dsimp only
  refine ⟨rfl, ?_, ?_, ?_⟩
  · rw [readChar_ch, if_pos (by omega)]
  · rw [readChar_pos, readChar_input]
    omega
  · rw [readChar_readPos, readChar_pos]

theorem eof_next_atEnd (l : Lexer) (hN : NoNul l.input) (hI : InvN l)
    (he : (nextToken l).1.type = .EOF) : AtEnd (nextToken l).2 := by
  unfold nextToken at *
  have hI1 : InvN (skipWhitespace l) := skipWhitespace_invN l hN hI
  have h0 : (skipWhitespace l).ch = 0 := nextTokenCore_eof_imp _ he
  have hlen : (skipWhitespace l).input.length ≤ (skipWhitespace l).pos := hI1.2 h0
  have hrp : (skipWhitespace l).readPos = (skipWhitespace l).pos + 1 := hI1.1.1
  rw [nextTokenCore_at0 _ h0]
  dsimp only
  refine ⟨?_, ?_, ?_⟩
  · rw [readChar_ch, if_pos (by omega)]
  · rw [readChar_pos, readChar_input]
    omega
  · rw [readChar_readPos, readChar_pos]

theorem atEnd_lexIter (l : Lexer) (h : AtEnd l) (n : Nat) : AtEnd (lexIter l n) := by
  induction n generalizing l with
  | zero => exact h
  | succ n ih =>
    unfold lexIter
    exact ih _ (atEnd_next l h).2

theorem atEnd_nthToken (l : Lexer) (h : AtEnd l) (n : Nat) :
    (nthToken l n).1.type = .EOF := by
  unfold nthToken
  exact (atEnd_next _ (atEnd_lexIter l h n)).1

theorem nextToken_advance (l : Lexer) (h : Inv0 l) :
    l.readPos + 1 ≤ (nextToken l).2.readPos := by
  unfold nextToken
  have h1 := skipWhitespace_readPos l
  have h2 := nextTokenCore_advance (skipWhitespace l) (skipWhitespace_inv0 l h)
  omega

theorem nextToken_inv0 (l : Lexer) (h : Inv0 l) : Inv0 (nextToken l).2 :=
  nextTokenCore_inv0 _ (skipWhitespace_inv0 l h)

theorem lexIter_inv0 (l : Lexer) (h : Inv0 l) (n : Nat) : Inv0 (lexIter l n) := by
  induction n generalizing l with
  | zero => exact h
  | succ n ih =>
    unfold lexIter
    exact ih _ (nextToken_inv0 l h)

theorem lexIter_readPos (l : Lexer) (h : Inv0 l) (n : Nat) :
    l.readPos + n ≤ (lexIter l n).readPos := by
  induction n generalizing l with
  | zero => simp [lexIter]
  | succ n ih =>
    unfold lexIter
    have h1 := nextToken_advance l h
    have h2 := ih (nextToken l).2 (nextToken_inv0 l h)
    omega

theorem inv0_newLexer (inp : List Nat) : Inv0 (newLexer inp) := inv0_readChar _

theorem newLexer_input (inp : List Nat) : (newLexer inp).input = inp := readChar_input _

theorem newLexer_readPos (inp : List Nat) : (newLexer inp).readPos = 1 := readChar_readPos _

end HL

namespace HL

theorem readIdentifier_input (l : Lexer) : (readIdentifier l).2.input = l.input := by
  unfold readIdentifier
  dsimp only
  rw [readIdentLoopF_input]

theorem readNumber_input (l : Lexer) : (readNumber l).2.2.input = l.input := by
  unfold readNumber
  dsimp only
  split
  all_goals dsimp only
  all_goals simp only [readDigitsF_input, readChar_input]

theorem readString_input (l : Lexer) : (readString l).2.input = l.input := by
  rw [readString_state, readChar_input]
  unfold stringScan
  rw [readStringLoopF_input, readChar_input]

theorem readCharLit_input (l : Lexer) : (readCharLit l).2.input = l.input := by
  unfold readCharLit
  dsimp only
  split_ifs
  all_goals simp only [readChar_input]

theorem readLineComment_input (l : Lexer) : (readLineComment l).2.input = l.input := by
  unfold readLineComment
  dsimp only
  split_ifs
  all_goals simp only [readLineLoopF_input, readChar_input]

theorem readBlockComment_input (l : Lexer) : (readBlockComment l).2.input = l.input := by
  unfold readBlockComment
  dsimp only
  rw [readBlockLoopF_input, readChar_input, readChar_input]

theorem nextTokenCore_input (l : Lexer) : (nextTokenCore l).2.input = l.input := by
  unfold nextTokenCore
  dsimp only
  cases charCaseOf l.ch
  all_goals dsimp only
  case ceq => split_ifs <;> simp only [readChar_input]
  case cplus => split_ifs <;> simp only [readChar_input]
  case cminus => split_ifs <;> simp only [readChar_input]
  case cstar => split_ifs <;> simp only [readChar_input]
  case cslash =>
    split_ifs
    · exact readLineComment_input l
    · exact readBlockComment_input l
    · simp only [readChar_input]
    · simp only [readChar_input]
  case chash => exact readLineComment_input l
  case cpercent => simp only [readChar_input]
  case cbang => split_ifs <;> simp only [readChar_input]
  case camp => split_ifs <;> simp only [readChar_input]
  case cpipe => split_ifs <;> simp only [readChar_input]
  case clt => split_ifs <;> simp only [readChar_input]
  case cgt => split_ifs <;> simp only [readChar_input]
  case ccolon => split_ifs <;> simp only [readChar_input]
  case ccomma => simp only [readChar_input]
  case csemi => simp only [readChar_input]
  case cdot => simp only [readChar_input]
  case clparen => simp only [readChar_input]
  case crparen => simp only [readChar_input]
  case clbrace => simp only [readChar_input]
  case crbrace => simp only [readChar_input]
  case clbracket => simp only [readChar_input]
  case crbracket => simp only [readChar_input]
  case cquote => exact readString_input l
  case ctick => exact readCharLit_input l
  case cnul => simp only [readChar_input]
  case cletter => exact readIdentifier_input l
  case cdigit => exact readNumber_input l
  case cother => simp only [readChar_input]

theorem nextToken_input (l : Lexer) : (nextToken l).2.input = l.input := by
  unfold nextToken
  rw [nextTokenCore_input, skipWhitespace_input]

theorem lexIter_input (l : Lexer) (n : Nat) : (lexIter l n).input = l.input := by
  induction n generalizing l with
  | zero => rfl
  | succ n ih =>
    unfold lexIter
    rw [ih, nextToken_input]

end HL

namespace HL

/-- C8 (counterexample): on the input `"\x00a"` — a NUL byte followed by the
letter `a` — the first call to `nextToken` returns an `EOF` token (the lexer
cannot tell a literal NUL byte from its end-of-input sentinel), but the
following call returns a non-`EOF` token, so after an `EOF` the calls are not
all `EOF` on every input string. -/
theorem c8_counterexample :
    (nextToken (newLexer [0, 97])).1.type = TokenType.EOF ∧
    (nextToken (nextToken (newLexer [0, 97])).2).1.type ≠ TokenType.EOF := by
  decide

/-- C8 (amended): on a NUL-free input, once a call to `nextToken` returns an
`EOF` token, every subsequent call also returns an `EOF` token.  `InvN` is
the cursor-coherence invariant established by `newLexer` and preserved by
every call. -/
theorem c8_eof_stability (l : Lexer) (hN : NoNul l.input) (hI : InvN l)
    (he : (nextToken l).1.type = .EOF) (n : Nat) :
    (nthToken (nextToken l).2 n).1.type = .EOF :=
  atEnd_nthToken _ (eof_next_atEnd l hN hI he) n

theorem c8_eof_stability_witness :
    (nthToken (nextToken (nextToken (newLexer [97])).2).2 2).1.type = TokenType.EOF :=
  c8_eof_stability (nextToken (newLexer [97])).2 (by unfold NoNul; decide)
    (by unfold InvN Inv0; decide) (by decide) 2

/-- C9 (counterexample): on the input `"a\x00b` — an unterminated string
literal containing a NUL byte — the scanner returns a `STRING` token whose
literal is `a` alone, not all remaining bytes `a\x00b` after the opening
quote, and the following call returns an `IDENT` (for `b`), not `EOF`. -/
theorem c9_counterexample :
    (nextToken (newLexer [34, 97, 0, 98])).1.type = TokenType.STRING ∧
    (nextToken (newLexer [34, 97, 0, 98])).1.literal = [97] ∧
    (nextToken (newLexer [34, 97, 0, 98])).1.literal ≠
      (newLexer [34, 97, 0, 98]).input.drop 1 ∧
    (nextToken (nextToken (newLexer [34, 97, 0, 98])).2).1.type ≠ TokenType.EOF := by
  decide

/-- C9 (amended): on a NUL-free input, when the current byte opens a string
literal that is never closed before the end of the input (the string scan
stops on the sentinel, at a position inside the input — the last hypothesis
also excludes the out-of-range slice a trailing backslash would cause),
`nextToken` returns a `STRING` token whose literal is all remaining bytes
after the opening quote, and the following call returns an `EOF` token. -/
theorem c9_unterminated_string (l : Lexer) (hN : NoNul l.input) (hI : InvN l)
    (hq : l.ch = 34) (hz : (stringScan l).ch = 0)
    (hle : (stringScan l).pos ≤ l.input.length) :
    (nextToken l).1.type = TokenType.STRING ∧
    (nextToken l).1.literal = l.input.drop (l.pos + 1) ∧
    (nextToken (nextToken l).2).1.type = TokenType.EOF := by
  have hws : isWS l.ch = false := by rw [hq]; rfl
  have hcc : charCaseOf l.ch = CharCase.cquote := by rw [hq]; decide
  have hnt : nextToken l =
      ({ type := TokenType.STRING, literal := (readString l).1,
         line := l.line, column := l.column }, (readString l).2) := by
    unfold nextToken
    rw [skipWhitespace_stop l hws]
    unfold nextTokenCore
    dsimp only
    rw [hcc]
  have hscin : (stringScan l).input = l.input := by
    unfold stringScan
    rw [readStringLoopF_input, readChar_input]
  have hIsc : InvN (stringScan l) := by
    unfold stringScan
    exact readStringLoopF_invN _ _ (by rw [readChar_input]; exact hN)
      (invN_readChar l hN)
  have hlen : l.input.length ≤ (stringScan l).pos := by
    have h2 := hIsc.2 hz
    rwa [hscin] at h2
  have hpos : (stringScan l).pos = l.input.length := le_antisymm hle hlen
  have hrp : (stringScan l).readPos = (stringScan l).pos + 1 := hIsc.1.1
  have hlit : (readString l).1 = l.input.drop (l.pos + 1) := by
    have h1 : (readString l).1 = extract l.input (readChar l).pos (stringScan l).pos := rfl
    rw [h1, readChar_pos, hI.1.1, hpos]
    unfold extract
    rw [show l.input.length - (l.pos + 1) = (l.input.drop (l.pos + 1)).length by
      rw [List.length_drop]]
    simp
  have hend : AtEnd (readChar (stringScan l)) := by
    refine ⟨?_, ?_, ?_⟩
    · have hc : (stringScan l).input.length ≤ (stringScan l).readPos := by
        rw [hscin, hrp, hpos]
        omega
      rw [readChar_ch, if_pos hc]
    · rw [readChar_input, readChar_pos, hscin, hrp, hpos]
      omega
    · rw [readChar_readPos, readChar_pos]
  refine ⟨?_, ?_, ?_⟩
  · rw [hnt]
  · rw [hnt]
    exact hlit
  · rw [hnt]
    dsimp only
    rw [readString_state]
    exact (atEnd_next _ hend).1

theorem c9_unterminated_string_witness :
    (nextToken (newLexer [34, 97, 98])).1.type = TokenType.STRING ∧
    (nextToken (newLexer [34, 97, 98])).1.literal =
      (newLexer [34, 97, 98]).input.drop ((newLexer [34, 97, 98]).pos + 1) ∧
    (nextToken (nextToken (newLexer [34, 97, 98])).2).1.type = TokenType.EOF :=
  c9_unterminated_string (newLexer [34, 97, 98]) (by unfold NoNul; decide)
    (by unfold InvN Inv0; decide) (by decide) (by decide) (by decide)

/-- C10: each call to `nextToken` either returns an `EOF` token or advances
the reading position by at least one byte (in fact it always advances), and
tokenizing a finite input of length `n` terminates: the `(n+1)`-st call on a
fresh lexer returns an `EOF` token. -/
theorem c10_progress_and_termination :
    (∀ l : Lexer, Inv0 l →
      ((nextToken l).1.type = TokenType.EOF ∨
        l.readPos + 1 ≤ (nextToken l).2.readPos)) ∧
    (∀ inp : List Nat, (nthToken (newLexer inp) inp.length).1.type = TokenType.EOF) := by
  constructor
  · intro l h
    exact Or.inr (nextToken_advance l h)
  · intro inp
    have hinv : Inv0 (lexIter (newLexer inp) inp.length) :=
      lexIter_inv0 _ (inv0_newLexer inp) _
    have hrp := lexIter_readPos (newLexer inp) (inv0_newLexer inp) inp.length
    rw [newLexer_readPos] at hrp
    have hinp : (lexIter (newLexer inp) inp.length).input = inp := by
      rw [lexIter_input, newLexer_input]
    have h1 := hinv.1
    have hch : (lexIter (newLexer inp) inp.length).ch = 0 := by
      by_contra hne
      have h2 := hinv.2 hne
      rw [hinp] at h2
      omega
    unfold nthToken
    exact (atEnd_next _ ⟨hch, by rw [hinp]; omega, h1⟩).1

theorem c10_progress_and_termination_witness :
    ((nextToken (newLexer [43])).1.type = TokenType.EOF ∨
      (newLexer [43]).readPos + 1 ≤ (nextToken (newLexer [43])).2.readPos) ∧
    (nthToken (newLexer [43, 43]) 2).1.type = TokenType.EOF :=
  ⟨c10_progress_and_termination.1 (newLexer [43]) (by unfold Inv0; decide),
   c10_progress_and_termination.2 [43, 43]⟩

end HL

namespace HP

open HL (Token TokenType strBytes)

/-- C5 (counterexample): parsing `for _, v := range items \x7b \x7d` yields a
`ForRange` node whose index binding is `some` of the identifier `_` — the
two-variable branch of `parseForStatement` treats `_` as an ordinary
identifier and records it — not `none` as claimed, while the value binding is
the identifier `v`. -/
theorem c5_counterexample :
    rangeIndexOf (parseForStatement peIdent pbUnit pwiNone pregNone c5State).1 =
      some { token := mkTok .IDENT "_", value := strBytes "_" } ∧
    rangeIndexOf (parseForStatement peIdent pbUnit pwiNone pregNone c5State).1 ≠
      none ∧
    rangeValueOf (parseForStatement peIdent pbUnit pwiNone pregNone c5State).1 =
      some { token := mkTok .IDENT "v", value := strBytes "v" } := by
  decide

/-- C5 (amended): for every behaviour of the expression, block, init and
classic-`for` continuations, parsing `for _, ident := range …` either fails
(when the `\x7b` of the body is missing) or yields a `ForRange` node whose
index binding is the identifier `_` itself (its literal is `_`) and whose
value binding is the identifier `ident`.  The blank-identifier special case
of `parseForStatement` that would bind `none` is unreachable: `_` is an
`IDENT` token, so the general two-variable branch consumes it first. -/
theorem c5_blank_range {ε β : Type}
    (pe : ParserSt → Option ε × ParserSt) (pb : ParserSt → Option β × ParserSt)
    (pwithinit : Token → Token → ParserSt → Option (ForNode ε β) × ParserSt)
    (pregular : Token → ParserSt → Option (ForNode ε β) × ParserSt)
    (ft vt : Token) (r : List Token) (es : List String)
    (h2 : vt.type = TokenType.IDENT) :
    (parseForStatement pe pb pwithinit pregular
        { curToken := ft, peekToken := mkTok .IDENT "_",
          rest := mkTok .COMMA "," :: vt :: mkTok .WALRUS ":=" ::
            mkTok .RANGE "range" :: r,
          errors := es }).1 = none ∨
    (rangeIndexOf (parseForStatement pe pb pwithinit pregular
        { curToken := ft, peekToken := mkTok .IDENT "_",
          rest := mkTok .COMMA "," :: vt :: mkTok .WALRUS ":=" ::
            mkTok .RANGE "range" :: r,
          errors := es }).1 =
      some { token := mkTok .IDENT "_", value := strBytes "_" } ∧
     rangeValueOf (parseForStatement pe pb pwithinit pregular
        { curToken := ft, peekToken := mkTok .IDENT "_",
          rest := mkTok .COMMA "," :: vt :: mkTok .WALRUS ":=" ::
            mkTok .RANGE "range" :: r,
          errors := es }).1 =
      some { token := vt, value := vt.literal }) := by
  have hv : (vt.type == TokenType.COMMENT) = false := by rw [h2]; rfl
  simp [parseForStatement, parseForRangeStatement, parseForRangeStatementBody,
    parseForBlankTail, nextTokenP, pullNonComment, expectPeek, mkTok, eofTok,
    List.dropWhile_cons, hv, h2]
  split
  all_goals simp [rangeIndexOf, rangeValueOf]

theorem c5_blank_range_witness :
    (parseForStatement peIdent pbUnit pwiNone pregNone c5State).1 = none ∨
    (rangeIndexOf (parseForStatement peIdent pbUnit pwiNone pregNone c5State).1 =
       some { token := mkTok .IDENT "_", value := strBytes "_" } ∧
     rangeValueOf (parseForStatement peIdent pbUnit pwiNone pregNone c5State).1 =
       some { token := mkTok .IDENT "v", value := (mkTok .IDENT "v").literal }) :=
  c5_blank_range peIdent pbUnit pwiNone pregNone (mkTok .FOR "for")
    (mkTok .IDENT "v")
    [mkTok .IDENT "items", mkTok .LBRACE "\x7b", mkTok .RBRACE "\x7d"] []
    (by decide)

end HP

namespace HG

theorem strFoldl_data (l : List String) : ∀ acc : String,
    ∃ t, (l.foldl (fun a s => a ++ s) acc).data = acc.data ++ t := by
  induction l with
  | nil => intro acc; exact ⟨[], by simp⟩
  | cons a l ih =>
    intro acc
    obtain ⟨t, ht⟩ := ih (acc ++ a)
    refine ⟨a.data ++ t, ?_⟩
    rw [List.foldl_cons, ht]
    exact List.append_assoc acc.data a.data t

theorem indentStr_succ_data (n : Nat) :
    ∃ t, (indentStr (n + 1)).data = ' ' :: ' ' :: ' ' :: ' ' :: t := by
  unfold indentStr String.join
  rw [List.replicate_succ, List.foldl_cons]
  obtain ⟨t, ht⟩ := strFoldl_data (List.replicate n "    ") ("" ++ "    ")
  exact ⟨t, by rw [ht]; rfl⟩

theorem space_line (n : Nat) (h : 1 ≤ n) (s : String) :
    ∃ r, (indentStr n ++ s).data = ' ' :: r := by
  obtain ⟨m, rfl⟩ : ∃ m, n = m + 1 := ⟨n - 1, by omega⟩
  obtain ⟨t, ht⟩ := indentStr_succ_data m
  refine ⟨' ' :: ' ' :: ' ' :: (t ++ s.data), ?_⟩
  rw [show (indentStr (m + 1) ++ s).data = (indentStr (m + 1)).data ++ s.data from rfl, ht]
  rfl

theorem writeLine_eq (g : Gen) (s : String) :
    writeLine g s = { g with output := g.output ++ [indentStr g.indent ++ s] } := rfl

theorem extends_refl (g : Gen) : Extends g g :=
  ⟨rfl, rfl, rfl, [], by simp, fun _ => by intro x hx; simp at hx⟩

theorem extends_trans {g1 g2 g3 : Gen} (h12 : Extends g1 g2) (h23 : Extends g2 g3) :
    Extends g1 g3 := by
  obtain ⟨hi, hs, hf, L1, ho, hsp⟩ := h12
  obtain ⟨hi2, hs2, hf2, L2, ho2, hsp2⟩ := h23
  refine ⟨hi2.trans hi, hs2.trans hs, hf2.trans hf, L1 ++ L2, ?_, ?_⟩
  · rw [ho2, ho, List.append_assoc]
  · intro h x hx
    rw [List.mem_append] at hx
    cases hx with
    | inl hx => exact hsp h x hx
    | inr hx =>
      refine hsp2 ?_ x hx
      rw [hi]
      exact h

theorem extends_writeLine (g : Gen) (s : String) : Extends g (writeLine g s) := by
  refine ⟨rfl, rfl, rfl, [indentStr g.indent ++ s], rfl, ?_⟩
  intro h x hx
  rw [List.mem_singleton] at hx
  subst hx
  exact space_line g.indent h s

theorem extends_vars (g : Gen) (vv : List (String × String)) :
    Extends g { g with vars := vv } :=
  ⟨rfl, rfl, rfl, [], by simp, fun _ => by intro x hx; simp at hx⟩

theorem extends_deferred (g : Gen) (dd : List Stmt) :
    Extends g { g with deferredStmts := dd } :=
  ⟨rfl, rfl, rfl, [], by simp, fun _ => by intro x hx; simp at hx⟩

theorem extends_raise {g gmid : Gen}
    (h : Extends { g with indent := g.indent + 1 } gmid) :
    Extends g { gmid with indent := gmid.indent - 1 } := by
  obtain ⟨hi, hs, hf, L, ho, hsp⟩ := h
  have hi2 : gmid.indent = g.indent + 1 := hi
  refine ⟨by dsimp only; omega, hs, hf, L, ho, ?_⟩
  intro _ x hx
  exact hsp (by dsimp only; omega) x hx

theorem extends_mapSetLines (name : String) :
    ∀ (pairs : PairList) (g : Gen), Extends g (mapSetLines g name pairs)
  | .nil, g => extends_refl g
  | .cons k v rest, g =>
    extends_trans (extends_writeLine g _) (extends_mapSetLines name rest _)

end HG

namespace HG

theorem genStep_extends : ∀ (f : Nat) (g : Gen) (t : GTask), Extends g (genStep f g t) := by
  intro f
  induction f with
  | zero => intro g t; exact extends_refl g
  | succ f ih =>
    intro g t
    cases t with
    | block l =>
      cases l with
      | nil => exact extends_refl g
      | cons s rest => exact extends_trans (ih g (.stmt s)) (ih _ (.block rest))
    | deferredAll => exact ih g (.deferredList g.deferredStmts.reverse)
    | deferredList l =>
      cases l with
      | nil => exact extends_refl g
      | cons s rest => exact extends_trans (ih g (.direct s)) (ih _ (.deferredList rest))
    | direct s =>
      cases s with
      | exprS e => exact extends_writeLine g _
      | freeS v => exact extends_writeLine g _
      | varS name ty v => exact ih g (.stmt (.varS name ty v))
      | constS name v => exact ih g (.stmt (.constS name v))
      | inferS name v => exact ih g (.stmt (.inferS name v))
      | returnS v => exact ih g (.stmt (.returnS v))
      | ifS c thn alt => exact ih g (.stmt (.ifS c thn alt))
      | forS ini cond post body => exact ih g (.stmt (.forS ini cond post body))
      | whileS c body => exact ih g (.stmt (.whileS c body))
      | deferS inner => exact ih g (.stmt (.deferS inner))
      | forRangeS idx vn iter body => exact ih g (.stmt (.forRangeS idx vn iter body))
      | breakS => exact ih g (.stmt .breakS)
      | continueS => exact ih g (.stmt .continueS)
      | deleteS m k => exact ih g (.stmt (.deleteS m k))
    | stmt s =>
      cases s with
      | varS name ty v =>
        cases v with
        | some e => exact extends_trans (extends_vars g _) (extends_writeLine _ _)
        | none => exact extends_trans (extends_vars g _) (extends_writeLine _ _)
      | constS name v => exact extends_writeLine g _
      | inferS name v =>
        cases v with
        | arrayLit ty els =>
          cases ty with
          | some ty2 =>
            simp only [genStep]
            split_ifs
            all_goals exact extends_trans (extends_vars g _) (extends_writeLine _ _)
          | none => exact extends_trans (extends_vars g _) (extends_writeLine _ _)
        | mapLit t2 pairs =>
          exact extends_trans (extends_vars g _)
            (extends_trans (extends_writeLine _ _) (extends_mapSetLines name pairs _))
        | ident v2 => exact extends_trans (extends_vars g _) (extends_writeLine _ _)
        | intLit n => exact extends_trans (extends_vars g _) (extends_writeLine _ _)
        | floatLit t2 => exact extends_trans (extends_vars g _) (extends_writeLine _ _)
        | strLit s2 => exact extends_trans (extends_vars g _) (extends_writeLine _ _)
        | charLit c2 => exact extends_trans (extends_vars g _) (extends_writeLine _ _)
        | boolLit b2 => exact extends_trans (extends_vars g _) (extends_writeLine _ _)
        | nullLit => exact extends_trans (extends_vars g _) (extends_writeLine _ _)
        | prefixE op r => exact extends_trans (extends_vars g _) (extends_writeLine _ _)
        | infixE l op r => exact extends_trans (extends_vars g _) (extends_writeLine _ _)
        | postfixE l op => exact extends_trans (extends_vars g _) (extends_writeLine _ _)
        | assignE l op v2 => exact extends_trans (extends_vars g _) (extends_writeLine _ _)
        | call fn args => exact extends_trans (extends_vars g _) (extends_writeLine _ _)
        | indexE l i => exact extends_trans (extends_vars g _) (extends_writeLine _ _)
        | member o m => exact extends_trans (extends_vars g _) (extends_writeLine _ _)
        | cast t2 v2 => exact extends_trans (extends_vars g _) (extends_writeLine _ _)
        | alloc t2 => exact extends_trans (extends_vars g _) (extends_writeLine _ _)
        | makeE mt mlen => exact extends_trans (extends_vars g _) (extends_writeLine _ _)
      | returnS v =>
        cases v with
        | some e =>
          simp only [genStep]
          split
          · exact extends_trans (extends_writeLine g _)
              (extends_trans (ih _ .deferredAll) (extends_writeLine _ _))
          · exact extends_trans (ih g .deferredAll) (extends_writeLine _ _)
        | none => exact extends_trans (ih g .deferredAll) (extends_writeLine _ _)
      | ifS c thn alt =>
        cases alt with
        | noneB =>
          exact extends_trans (extends_writeLine g _)
            (extends_trans (extends_raise (ih _ (.block thn))) (extends_writeLine _ _))
        | someB el =>
          exact extends_trans (extends_writeLine g _)
            (extends_trans (extends_raise (ih _ (.block thn)))
              (extends_trans (extends_writeLine _ _)
                (extends_trans (extends_raise (ih _ (.block el))) (extends_writeLine _ _))))
      | forS ini cond post body =>
        exact extends_trans (extends_writeLine g _)
          (extends_trans (extends_raise (ih _ (.block body))) (extends_writeLine _ _))
      | whileS c body =>
        exact extends_trans (extends_writeLine g _)
          (extends_trans (extends_raise (ih _ (.block body))) (extends_writeLine _ _))
      | freeS v => exact extends_writeLine g _
      | deferS inner => exact extends_deferred g _
      | exprS e => exact extends_writeLine g _
      | forRangeS idx valName iter body =>
        cases valName with
        | some vn =>
          exact extends_trans (extends_writeLine g _)
            (extends_trans
              (extends_raise
                (extends_trans (extends_vars _ _)
                  (extends_trans (extends_writeLine _ _) (ih _ (.block body)))))
              (extends_writeLine _ _))
        | none =>
          exact extends_trans (extends_writeLine g _)
            (extends_trans (extends_raise (ih _ (.block body))) (extends_writeLine _ _))
      | breakS => exact extends_writeLine g _
      | continueS => exact extends_writeLine g _
      | deleteS m k => exact extends_writeLine g _

end HG

namespace HG

theorem recordParams_deferred : ∀ (ps : List Param) (g : Gen),
    (recordParams g ps).deferredStmts = g.deferredStmts := by
  intro ps
  induction ps with
  | nil => intro g; rfl
  | cons p rest ih => intro g; exact ih _

/-- C3 (counterexample): after emitting `function f() \x7b defer free(x); \x7d`
the deferred-statement stack still holds the deferred `free(x)` —
`emitDeferredStatements` re-emits the stack but never clears it, so the stack
is not empty at the end of every function body\x27s emission. -/
theorem c3_counterexample :
    (generateFunction newGen c3Fn).deferredStmts = [Stmt.freeS (Expr.ident "x")] ∧
    (generateFunction newGen c3Fn).deferredStmts ≠ [] := by
  refine ⟨rfl, ?_⟩
  intro h
  rw [show (generateFunction newGen c3Fn).deferredStmts =
    [Stmt.freeS (Expr.ident "x")] from rfl] at h
  exact List.cons_ne_nil _ _ h

/-- C3 (amended): the deferred-statement stack is cleared at the start of
every function\x27s emission, not at its end: the state in which a function
body starts being emitted has an empty stack, and the emission of a function
is entirely independent of the deferred stack (and symbol table) left by the
previous function. -/
theorem c3_defer_stack_reset (g : Gen) (fn : FunctionSt) (d : List Stmt)
    (v : List (String × String)) :
    (functionEntryGen g fn).deferredStmts = [] ∧
    generateFunction { g with deferredStmts := d, vars := v } fn = generateFunction g fn := by
  constructor
  · unfold functionEntryGen
    dsimp only
    rw [recordParams_deferred]
    cases fn.receiver <;> rfl
  · cases g
    rfl

end HG

namespace HG

/-- C6: the lowering of `len(x)` by `generateCallExpression`: a string
literal argument gives `strlen(x)`; a variable recorded with the map type
`h_map*` gives `h_map_len(x)`; a variable recorded with any other type, an
unrecorded variable, and any other argument shape give
`(sizeof(x)/sizeof(x[0]))`. -/
theorem c6_len_lowering :
    (∀ (g : Gen) (s : String) (rest : ExprList),
      generateCallExpression g (.ident "len") (.cons (.strLit s) rest) =
        "strlen(" ++ ("\"" ++ s ++ "\"") ++ ")") ∧
    (∀ (g : Gen) (v : String) (rest : ExprList), lookupA g.vars v = some "h_map*" →
      generateCallExpression g (.ident "len") (.cons (.ident v) rest) =
        "h_map_len(" ++ v ++ ")") ∧
    (∀ (g : Gen) (v t : String) (rest : ExprList),
      lookupA g.vars v = some t → t ≠ "h_map*" →
      generateCallExpression g (.ident "len") (.cons (.ident v) rest) =
        "(sizeof(" ++ v ++ ")/sizeof(" ++ v ++ "[0]))") ∧
    (∀ (g : Gen) (v : String) (rest : ExprList), lookupA g.vars v = none →
      generateCallExpression g (.ident "len") (.cons (.ident v) rest) =
        "(sizeof(" ++ v ++ ")/sizeof(" ++ v ++ "[0]))") ∧
    (∀ (g : Gen) (arg : Expr) (rest : ExprList),
      (∀ s, arg ≠ .strLit s) → (∀ v, arg ≠ .ident v) →
      generateCallExpression g (.ident "len") (.cons arg rest) =
        "(sizeof(" ++ generateExpression g arg ++ ")/sizeof(" ++
          generateExpression g arg ++ "[0]))") := by
  refine ⟨?_, ?_, ?_, ?_, ?_⟩
  · intro g s rest
    simp [generateCallExpression, generateExpression, lenArgFmt]
  · intro g v rest hv
    simp [generateCallExpression, generateExpression, lenArgFmt, lenOnIdent, hv]
  · intro g v t rest hv ht
    simp [generateCallExpression, generateExpression, lenArgFmt, lenOnIdent, hv, ht]
  · intro g v rest hv
    simp [generateCallExpression, generateExpression, lenArgFmt, lenOnIdent, hv]
  · intro g arg rest hstr hid
    cases arg with
    | strLit s => exact absurd rfl (hstr s)
    | ident v => exact absurd rfl (hid v)
    | intLit n => simp [generateCallExpression, generateExpression, lenArgFmt]
    | floatLit t => simp [generateCallExpression, generateExpression, lenArgFmt]
    | charLit c => simp [generateCallExpression, generateExpression, lenArgFmt]
    | boolLit b => simp [generateCallExpression, generateExpression, lenArgFmt]
    | nullLit => simp [generateCallExpression, generateExpression, lenArgFmt]
    | prefixE op r => simp [generateCallExpression, generateExpression, lenArgFmt]
    | infixE l op r => simp [generateCallExpression, generateExpression, lenArgFmt]
    | postfixE l op => simp [generateCallExpression, generateExpression, lenArgFmt]
    | assignE l op v2 => simp [generateCallExpression, generateExpression, lenArgFmt]
    | call fn args => simp [generateCallExpression, generateExpression, lenArgFmt]
    | indexE l i => simp [generateCallExpression, generateExpression, lenArgFmt]
    | member o m => simp [generateCallExpression, generateExpression, lenArgFmt]
    | cast t v2 => simp [generateCallExpression, generateExpression, lenArgFmt]
    | alloc t => simp [generateCallExpression, generateExpression, lenArgFmt]
    | arrayLit ty els => simp [generateCallExpression, generateExpression, lenArgFmt]
    | makeE t len => simp [generateCallExpression, generateExpression, lenArgFmt]
    | mapLit t pairs => simp [generateCallExpression, generateExpression, lenArgFmt]

end HG

namespace HG

theorem mapSetLines_vars (name : String) :
    ∀ (pairs : PairList) (g : Gen), (mapSetLines g name pairs).vars = g.vars
  | .nil, g => rfl
  | .cons k v rest, g => mapSetLines_vars name rest _

theorem lookupA_insert_self {α : Type} (m : List (String × α)) (k : String) (v : α) :
    lookupA (insertA m k v) k = some v := by
  simp [insertA, lookupA]

theorem lookupA_filter_ne {α : Type} (k k2 : String) (h : k2 ≠ k) :
    ∀ m : List (String × α),
      lookupA (m.filter (fun kv => kv.1 != k)) k2 = lookupA m k2 := by
  intro m
  induction m with
  | nil => rfl
  | cons kv rest ih =>
    rw [List.filter_cons]
    by_cases hk : kv.1 = k
    · rw [if_neg (by simp [hk])]
      rw [ih]
      rw [show lookupA (kv :: rest) k2 =
        if kv.1 = k2 then some kv.2 else lookupA rest k2 from rfl]
      rw [if_neg (by rw [hk]; exact fun hh => h hh.symm)]
    · rw [if_pos (by simpa using hk)]
      rw [show lookupA (kv :: List.filter (fun kv => kv.1 != k) rest) k2 =
        if kv.1 = k2 then some kv.2
        else lookupA (List.filter (fun kv => kv.1 != k) rest) k2 from rfl]
      rw [show lookupA (kv :: rest) k2 =
        if kv.1 = k2 then some kv.2 else lookupA rest k2 from rfl]
      rw [ih]

theorem lookupA_insert_ne {α : Type} (m : List (String × α)) (k k2 : String) (v : α)
    (h : k2 ≠ k) : lookupA (insertA m k v) k2 = lookupA m k2 := by
  rw [show lookupA (insertA m k v) k2 =
    if k = k2 then some v else lookupA (m.filter (fun kv => kv.1 != k)) k2 from rfl]
  rw [if_neg (fun hh => h hh.symm)]
  exact lookupA_filter_ne k k2 h m

theorem recordParams_append : ∀ (l1 l2 : List Param) (g : Gen),
    recordParams g (l1 ++ l2) = recordParams (recordParams g l1) l2 := by
  intro l1
  induction l1 with
  | nil => intro l2 g; rfl
  | cons p rest ih => intro l2 g; exact ih l2 _

theorem recordParams_lookup_notin : ∀ (ps : List Param) (g : Gen) (n : String),
    n ∉ ps.map Param.name →
    lookupA (recordParams g ps).vars n = lookupA g.vars n := by
  intro ps
  induction ps with
  | nil => intro g n _; rfl
  | cons p rest ih =>
    intro g n hn
    rw [List.map_cons, List.mem_cons] at hn
    push_neg at hn
    rw [show recordParams g (p :: rest) =
      recordParams { g with vars := insertA g.vars p.name (typeToC (some p.ty)) } rest
      from rfl]
    rw [ih _ n hn.2]
    exact lookupA_insert_ne g.vars p.name n _ hn.1

end HG

namespace HG

/-- C7 (counterexample): emitting `const PI := 3.14` in a fresh body state
writes the `const double PI = 3.14;` line but leaves the symbol table empty —
`generateConstStatement` never records the constant, so the table is not
populated by every `Const` statement. -/
theorem c7_counterexample :
    (generateStatement 9 gBody (Stmt.constS "PI" (Expr.floatLit "3.14"))).vars = [] ∧
    lookupA (generateStatement 9 gBody
      (Stmt.constS "PI" (Expr.floatLit "3.14"))).vars "PI" = none ∧
    (generateStatement 9 gBody (Stmt.constS "PI" (Expr.floatLit "3.14"))).output =
      [indentStr 1 ++ "const double PI = 3.14;"] :=
  ⟨rfl, rfl, rfl⟩

/-- C7 (amended): within a function body\x27s emission the symbol table is
populated by every parameter (its last binding wins, as for a Go map), the
optional receiver, every `Var` statement, and every `Infer` statement —
but not by `Const` statements, which emit their line and leave the table
unchanged. -/
theorem c7_symbol_table :
    (∀ (f : Nat) (g : Gen) (name : String) (v : Expr),
      (generateStatement f g (.constS name v)).vars = g.vars) ∧
    (∀ (f : Nat) (g : Gen) (name : String) (ty : Option TypeAnn) (v : Option Expr),
      (generateStatement (f + 1) g (.varS name ty v)).vars =
        insertA g.vars name (typeToC ty)) ∧
    (∀ (f : Nat) (g : Gen) (name : String) (v : Expr),
      ∃ t, (generateStatement (f + 1) g (.inferS name v)).vars =
        insertA g.vars name t) ∧
    (∀ (g : Gen) (fn : FunctionSt) (p : Param) (pre post : List Param),
      fn.params = pre ++ p :: post → p.name ∉ post.map Param.name →
      lookupA (functionEntryGen g fn).vars p.name = some (typeToC (some p.ty))) ∧
    (∀ (g : Gen) (fn : FunctionSt) (r : Param),
      fn.receiver = some r → r.name ∉ fn.params.map Param.name →
      lookupA (functionEntryGen g fn).vars r.name = some (typeToC (some r.ty))) := by
  refine ⟨?_, ?_, ?_, ?_, ?_⟩
  · intro f g name v
    cases f with
    | zero => rfl
    | succ f => rfl
  · intro f g name ty v
    cases v with
    | some e => rfl
    | none => rfl
  · intro f g name v
    cases v with
    | arrayLit ty els =>
      cases ty with
      | some ty2 =>
        simp only [generateStatement, genStep]
        split_ifs
        all_goals exact ⟨_, rfl⟩
      | none => exact ⟨_, rfl⟩
    | mapLit t2 pairs =>
      refine ⟨"h_map*", ?_⟩
      show (mapSetLines (writeLine
        { g with vars := insertA g.vars name "h_map*" }
        ("h_map* " ++ name ++ " = h_map_new();")) name pairs).vars = _
      rw [mapSetLines_vars name pairs]
      rfl
    | ident v2 => exact ⟨_, rfl⟩
    | intLit n => exact ⟨_, rfl⟩
    | floatLit t2 => exact ⟨_, rfl⟩
    | strLit s2 => exact ⟨_, rfl⟩
    | charLit c2 => exact ⟨_, rfl⟩
    | boolLit b2 => exact ⟨_, rfl⟩
    | nullLit => exact ⟨_, rfl⟩
    | prefixE op r => exact ⟨_, rfl⟩
    | infixE l op r => exact ⟨_, rfl⟩
    | postfixE l op => exact ⟨_, rfl⟩
    | assignE l op v2 => exact ⟨_, rfl⟩
    | call fn args => exact ⟨_, rfl⟩
    | indexE l i => exact ⟨_, rfl⟩
    | member o m => exact ⟨_, rfl⟩
    | cast t2 v2 => exact ⟨_, rfl⟩
    | alloc t2 => exact ⟨_, rfl⟩
    | makeE mt mlen => exact ⟨_, rfl⟩
  · intro g fn p pre post hp hnp
    unfold functionEntryGen
    rw [hp, recordParams_append]
    simp only [recordParams]
    rw [recordParams_lookup_notin post _ p.name hnp]
    exact lookupA_insert_self _ _ _
  · intro g fn r hr hnp
    unfold functionEntryGen
    rw [hr]
    dsimp only
    rw [recordParams_lookup_notin fn.params _ r.name hnp]
    exact lookupA_insert_self _ _ _

end HG

namespace HG

theorem writeLine_output (g : Gen) (s : String) :
    (writeLine g s).output = g.output ++ [indentStr g.indent ++ s] := rfl

theorem writeLine_indent (g : Gen) (s : String) : (writeLine g s).indent = g.indent := rfl

theorem out_close (g4 : Gen) (s : String) :
    (writeLine { g4 with indent := g4.indent - 1 } s).output =
      g4.output ++ [indentStr (g4.indent - 1) ++ s] := rfl

theorem genStep_output_eq (f : Nat) (g : Gen) (t : GTask) :
    (genStep f g t).output = g.output ++ stepDelta f g t := by
  obtain ⟨-, -, -, L, ho, -⟩ := genStep_extends f g t
  rw [stepDelta, ho, List.drop_left]

theorem genStep_indent_eq (f : Nat) (g : Gen) (t : GTask) :
    (genStep f g t).indent = g.indent :=
  (genStep_extends f g t).1

/-- C2: a `ForRange` statement lowers to a classic C `for` loop over
`(sizeof(arr)/sizeof(arr[0]))` whose loop index is the source index binding
(or `_i` when that binding is absent); when the value binding is present the
loop body begins with the body-scoped declaration `elem value = arr[i];`
before the user statements (`L` are the lines of the user body), and the
statement closes with its brace at the original indent. -/
theorem c2_forrange_lowering (f : Nat) (g : Gen) (idx valName : Option String)
    (iter : Expr) (body : StmtList) :
    ∃ L, (generateStatement (f + 1) g (.forRangeS idx valName iter body)).output =
      g.output ++
      [indentStr g.indent ++
        ("for (int " ++ (match idx with | some s2 => s2 | none => "_i") ++ " = 0; " ++
          (match idx with | some s2 => s2 | none => "_i") ++ " < (sizeof(" ++
          generateExpression g iter ++ ")/sizeof(" ++ generateExpression g iter ++
          "[0])); " ++ (match idx with | some s2 => s2 | none => "_i") ++ "++) \x7b")] ++
      (match valName with
       | some vn => [indentStr (g.indent + 1) ++
           (rangeElemType g iter ++ " " ++ vn ++ " = " ++ generateExpression g iter ++
            "[" ++ (match idx with | some s2 => s2 | none => "_i") ++ "];")]
       | none => []) ++
      L ++ [indentStr g.indent ++ "\x7d"] := by
  unfold generateStatement
  cases valName with
  | some vn =>
    simp only [genStep]
    generalize (match idx with | some s2 => s2 | none => "_i") = i
    generalize generateExpression g iter = arr
    generalize rangeElemType g iter = elemT
    generalize ("for (int " ++ i ++ " = 0; " ++ i ++ " < (sizeof(" ++ arr ++
      ")/sizeof(" ++ arr ++ "[0])); " ++ i ++ "++) \x7b") = l1
    generalize (elemT ++ " " ++ vn ++ " = " ++ arr ++ "[" ++ i ++ "];") = l2
    dsimp only [writeLine]
    rw [genStep_output_eq, genStep_indent_eq]
    dsimp only
    refine ⟨stepDelta f
      { output := g.output ++ [indentStr g.indent ++ l1] ++ [indentStr (g.indent + 1) ++ l2],
        indent := g.indent + 1, structs := g.structs, functions := g.functions,
        vars := insertA g.vars vn elemT, deferredStmts := g.deferredStmts }
      (.block body), ?_⟩
    rw [show g.indent + 1 - 1 = g.indent from rfl]
  | none =>
    simp only [genStep]
    generalize (match idx with | some s2 => s2 | none => "_i") = i
    generalize generateExpression g iter = arr
    generalize ("for (int " ++ i ++ " = 0; " ++ i ++ " < (sizeof(" ++ arr ++
      ")/sizeof(" ++ arr ++ "[0])); " ++ i ++ "++) \x7b") = l1
    dsimp only [writeLine]
    rw [genStep_output_eq, genStep_indent_eq]
    dsimp only
    refine ⟨stepDelta f
      { output := g.output ++ [indentStr g.indent ++ l1],
        indent := g.indent + 1, structs := g.structs, functions := g.functions,
        vars := g.vars, deferredStmts := g.deferredStmts }
      (.block body), ?_⟩
    rw [show g.indent + 1 - 1 = g.indent from rfl]
    simp

end HG

namespace HG

theorem inferType_congr (g1 g2 : Gen) (hf : g1.functions = g2.functions) :
    ∀ e, inferType g1 e = inferType g2 e
  | .ident _ => rfl
  | .intLit _ => rfl
  | .floatLit _ => rfl
  | .strLit _ => rfl
  | .charLit _ => rfl
  | .boolLit _ => rfl
  | .nullLit => rfl
  | .alloc _ => rfl
  | .prefixE op r => by
    simp only [inferType]
    rw [inferType_congr g1 g2 hf r]
  | .infixE l op r => by
    simp only [inferType]
    rw [inferType_congr g1 g2 hf l]
  | .call fn args => by
    simp only [inferType]
    rw [hf]
  | .postfixE _ _ => rfl
  | .assignE _ _ _ => rfl
  | .indexE _ _ => rfl
  | .member _ _ => rfl
  | .cast _ _ => rfl
  | .arrayLit _ _ => rfl
  | .makeE _ _ => rfl
  | .mapLit _ _ => rfl

theorem isPointerExpr_congr (g1 g2 : Gen) (hv : g1.vars = g2.vars)
    (hf : g1.functions = g2.functions) :
    ∀ e, isPointerExpr g1 e = isPointerExpr g2 e := by
  intro e
  cases e <;> simp [isPointerExpr, hv, hf]

theorem getExprType_congr (g1 g2 : Gen) (hv : g1.vars = g2.vars)
    (hf : g1.functions = g2.functions) :
    ∀ e, getExprType g1 e = getExprType g2 e := by
  intro e
  cases e <;> simp [getExprType, hv, hf]

theorem getCallReturnType_congr (g1 g2 : Gen) (hv : g1.vars = g2.vars)
    (hf : g1.functions = g2.functions) :
    ∀ fn, getCallReturnType g1 fn = getCallReturnType g2 fn := by
  intro fn
  cases fn <;> simp [getCallReturnType, hv, hf, getExprType_congr g1 g2 hv hf]

theorem lenOnIdent_congr (g1 g2 : Gen) (hv : g1.vars = g2.vars) :
    ∀ v argStr, lenOnIdent g1 v argStr = lenOnIdent g2 v argStr := by
  intro v argStr
  simp [lenOnIdent, hv]

theorem lenArgFmt_congr (g1 g2 : Gen) (hv : g1.vars = g2.vars) :
    ∀ arg argStr, lenArgFmt g1 arg argStr = lenArgFmt g2 arg argStr := by
  intro arg argStr
  cases arg <;> simp [lenArgFmt, lenOnIdent, hv]

theorem printArgFmt_congr (g1 g2 : Gen) (hv : g1.vars = g2.vars)
    (hf : g1.functions = g2.functions) :
    ∀ arg argStr, printArgFmt g1 arg argStr = printArgFmt g2 arg argStr := by
  intro arg argStr
  cases arg <;>
    simp [printArgFmt, printIdentFmt, hv, getCallReturnType_congr g1 g2 hv hf]

end HG

namespace HG

mutual
theorem generateExpression_congr (g1 g2 : Gen) (hv : g1.vars = g2.vars)
    (hf : g1.functions = g2.functions) :
    ∀ e, generateExpression g1 e = generateExpression g2 e
  | .ident _ => rfl
  | .intLit _ => rfl
  | .floatLit _ => rfl
  | .strLit _ => rfl
  | .charLit _ => rfl
  | .boolLit _ => rfl
  | .nullLit => rfl
  | .prefixE op r => by
    simp only [generateExpression]
    rw [generateExpression_congr g1 g2 hv hf r]
  | .infixE l op r => by
    simp only [generateExpression]
    rw [generateExpression_congr g1 g2 hv hf l, generateExpression_congr g1 g2 hv hf r]
  | .postfixE l op => by
    simp only [generateExpression]
    rw [generateExpression_congr g1 g2 hv hf l]
  | .assignE l op v => by
    simp only [generateExpression]
    rw [generateExpression_congr g1 g2 hv hf l, generateExpression_congr g1 g2 hv hf v]
  | .call fn .nil => by
    conv_lhs => rw [generateExpression.eq_def]
    conv_rhs => rw [generateExpression.eq_def]
    dsimp only
    simp only [generateExprList]
    rw [generateExpression_congr g1 g2 hv hf fn]
    cases fn
    case member obj m =>
      dsimp only
      simp only [generateExpression_congr g1 g2 hv hf obj,
        getExprType_congr g1 g2 hv hf]
    all_goals rfl
  | .call fn (.cons arg rest) => by
    conv_lhs => rw [generateExpression.eq_def]
    conv_rhs => rw [generateExpression.eq_def]
    dsimp only
    simp only [generateExprList]
    rw [generateExpression_congr g1 g2 hv hf fn,
      generateExpression_congr g1 g2 hv hf arg,
      generateExprList_congr g1 g2 hv hf rest]
    simp only [printArgFmt_congr g1 g2 hv hf, lenArgFmt_congr g1 g2 hv]
    cases fn
    case member obj m =>
      dsimp only
      simp only [generateExpression_congr g1 g2 hv hf obj,
        getExprType_congr g1 g2 hv hf]
    all_goals rfl
  | .indexE l i => by
    simp only [generateExpression]
    rw [generateExpression_congr g1 g2 hv hf l, generateExpression_congr g1 g2 hv hf i]
  | .member o m => by
    simp only [generateExpression]
    rw [generateExpression_congr g1 g2 hv hf o, isPointerExpr_congr g1 g2 hv hf o]
  | .cast t v => by
    simp only [generateExpression]
    rw [generateExpression_congr g1 g2 hv hf v]
  | .alloc _ => rfl
  | .arrayLit ty els => by
    simp only [generateExpression]
    rw [generateExprList_congr g1 g2 hv hf els]
  | .makeE t len => by
    cases len with
    | some le =>
      simp only [generateExpression]
      rw [generateExpression_congr g1 g2 hv hf le]
    | none => rfl
  | .mapLit _ _ => rfl

theorem generateExprList_congr (g1 g2 : Gen) (hv : g1.vars = g2.vars)
    (hf : g1.functions = g2.functions) :
    ∀ el, generateExprList g1 el = generateExprList g2 el
  | .nil => rfl
  | .cons e rest => by
    simp only [generateExprList]
    rw [generateExpression_congr g1 g2 hv hf e, generateExprList_congr g1 g2 hv hf rest]
end

end HG

namespace HG

theorem directLine_output_congr (g : Gen) (o : List String) :
    ∀ s, directLine { g with output := o } s = directLine g s := by
  intro s
  cases s <;>
    simp [directLine, generateExpression_congr { g with output := o } g rfl rfl]

theorem deferredList_direct : ∀ (l : List Stmt) (f : Nat) (g : Gen),
    (∀ s ∈ l, isDirectStmt s = true) → l.length + 1 ≤ f →
    genStep f g (.deferredList l) =
      { g with output := g.output ++ l.map (fun s => indentStr g.indent ++ directLine g s) } := by
  intro l
  induction l with
  | nil =>
    intro f g _ hf
    obtain ⟨f2, rfl⟩ : ∃ f2, f = f2 + 1 := ⟨f - 1, by omega⟩
    show g = _
    simp
  | cons s rest ih =>
    intro f g hdir hf
    rw [List.length_cons] at hf
    obtain ⟨f2, rfl⟩ : ∃ f2, f = f2 + 1 := ⟨f - 1, by omega⟩
    have hs := hdir s (List.mem_cons_self s rest)
    have hstep : genStep f2 g (.direct s) = writeLine g (directLine g s) := by
      obtain ⟨f3, rfl⟩ : ∃ f3, f2 = f3 + 1 := ⟨f2 - 1, by omega⟩
      cases s with
      | exprS e => rfl
      | freeS v => rfl
      | varS a b c => simp [isDirectStmt] at hs
      | constS a b => simp [isDirectStmt] at hs
      | inferS a b => simp [isDirectStmt] at hs
      | returnS a => simp [isDirectStmt] at hs
      | ifS a b c => simp [isDirectStmt] at hs
      | forS a b c d => simp [isDirectStmt] at hs
      | whileS a b => simp [isDirectStmt] at hs
      | deferS a => simp [isDirectStmt] at hs
      | forRangeS a b c d => simp [isDirectStmt] at hs
      | breakS => simp [isDirectStmt] at hs
      | continueS => simp [isDirectStmt] at hs
      | deleteS a b => simp [isDirectStmt] at hs
    show genStep f2 (genStep f2 g (.direct s)) (.deferredList rest) = _
    rw [hstep]
    rw [ih f2 (writeLine g (directLine g s))
      (fun s2 hs2 => hdir s2 (List.mem_cons_of_mem s hs2))
      (by omega)]
    simp [writeLine, directLine_output_congr, List.append_assoc]

end HG

namespace HG

/-- C4: a `Return` carrying a value, emitted while the deferred stack is
non-empty (its entries being the expression/`free` statements
`generateStatementDirect` emits in one line each), produces, in order: the
declaration `<inferred_type> __ret_val = expr;`, the deferred statements in
LIFO (reverse-registration) order, and `return __ret_val;`. -/
theorem c4_return_with_deferred (f : Nat) (g : Gen) (e : Expr)
    (hne : g.deferredStmts ≠ [])
    (hdir : ∀ s ∈ g.deferredStmts, isDirectStmt s = true)
    (hf : g.deferredStmts.length + 2 ≤ f) :
    (generateStatement (f + 1) g (.returnS (some e))).output =
      g.output ++
      [indentStr g.indent ++
        (inferType g e ++ " __ret_val = " ++ generateExpression g e ++ ";")] ++
      (g.deferredStmts.reverse.map (fun s => indentStr g.indent ++ directLine g s)) ++
      [indentStr g.indent ++ "return __ret_val;"] := by
  unfold generateStatement
  simp only [genStep]
  rw [if_pos (List.length_pos.mpr hne)]
  obtain ⟨f2, rfl⟩ : ∃ f2, f = f2 + 1 := ⟨f - 1, by omega⟩
  simp only [genStep]
  rw [deferredList_direct _ f2 _
    (by intro s hs
        exact hdir s (List.mem_reverse.mp hs))
    (by show g.deferredStmts.reverse.length + 1 ≤ f2
        rw [List.length_reverse]
        omega)]
  simp [writeLine, directLine_output_congr, List.append_assoc]

end HG

namespace HG

theorem c4_return_with_deferred_witness :
    (generateStatement 9 gDeferred (.returnS (some (.ident "y")))).output =
      gDeferred.output ++
      [indentStr gDeferred.indent ++
        (inferType gDeferred (.ident "y") ++ " __ret_val = " ++
          generateExpression gDeferred (.ident "y") ++ ";")] ++
      (gDeferred.deferredStmts.reverse.map
        (fun s => indentStr gDeferred.indent ++ directLine gDeferred s)) ++
      [indentStr gDeferred.indent ++ "return __ret_val;"] :=
  c4_return_with_deferred 8 gDeferred (.ident "y")
    (by simp [gDeferred, gBody])
    (by intro s hs
        rw [show gDeferred.deferredStmts = [Stmt.freeS (Expr.ident "x")] from rfl,
          List.mem_singleton] at hs
        subst hs
        rfl)
    (by show 1 + 2 ≤ 8
        omega)

end HG

namespace HG

theorem mem_extends {g g' : Gen} (h : Extends g g') {l : String}
    (hm : l ∈ g.output) : l ∈ g'.output := by
  obtain ⟨-, -, -, L, ho, -⟩ := h
  rw [ho]
  exact List.mem_append_left _ hm

theorem recordParams_out : ∀ (ps : List Param) (g : Gen),
    (recordParams g ps).output = g.output := by
  intro ps
  induction ps with
  | nil => intro g; rfl
  | cons p rest ih => intro g; exact ih _

theorem recordParams_indent : ∀ (ps : List Param) (g : Gen),
    (recordParams g ps).indent = g.indent := by
  intro ps
  induction ps with
  | nil => intro g; rfl
  | cons p rest ih => intro g; exact ih _

theorem functionEntryGen_output (g : Gen) (fn : FunctionSt) :
    (functionEntryGen g fn).output =
      g.output ++ [indentStr g.indent ++ (fnSig fn ++ " \x7b")] := by
  unfold functionEntryGen
  dsimp only
  rw [recordParams_out]
  cases fn.receiver <;> rfl

theorem functionEntryGen_indent (g : Gen) (fn : FunctionSt) :
    (functionEntryGen g fn).indent = g.indent + 1 := by
  unfold functionEntryGen
  dsimp only
  rw [recordParams_indent]
  cases fn.receiver <;> rfl

theorem generateFunction_lines (g : Gen) (fn : FunctionSt) :
    ∃ L, (generateFunction g fn).output = g.output ++ L ∧
      (generateFunction g fn).indent = g.indent ∧
      ∀ s ∈ L, s = indentStr g.indent ++ (fnSig fn ++ " \x7b") ∨
        (∃ r, s.data = ' ' :: r) ∨
        s = indentStr g.indent ++ "\x7d" ∨ s = indentStr g.indent ++ "" := by
  unfold generateFunction generateBlock emitDeferredStatements
  obtain ⟨hi5, -, -, L5, ho5, hsp5⟩ :=
    genStep_extends (fnFuel fn) (functionEntryGen g fn) (.block fn.body)
  obtain ⟨hi6, -, -, L6, ho6, hsp6⟩ :=
    genStep_extends (fnFuel fn) (genStep (fnFuel fn) (functionEntryGen g fn) (.block fn.body))
      .deferredAll
  rw [functionEntryGen_indent] at hi5
  have hsp5x := hsp5 (by rw [functionEntryGen_indent]; omega)
  have hsp6x := hsp6 (by rw [hi5]; omega)
  refine ⟨[indentStr g.indent ++ (fnSig fn ++ " \x7b")] ++ L5 ++ L6 ++
    [indentStr g.indent ++ "\x7d"] ++ [indentStr g.indent ++ ""], ?_, ?_, ?_⟩
  · rw [show (writeLine (writeLine
      { genStep (fnFuel fn) (genStep (fnFuel fn) (functionEntryGen g fn) (.block fn.body))
          .deferredAll with
        indent := (genStep (fnFuel fn)
          (genStep (fnFuel fn) (functionEntryGen g fn) (.block fn.body))
            .deferredAll).indent - 1 } "\x7d") "").output =
      (genStep (fnFuel fn) (genStep (fnFuel fn) (functionEntryGen g fn) (.block fn.body))
          .deferredAll).output ++
        [indentStr ((genStep (fnFuel fn)
          (genStep (fnFuel fn) (functionEntryGen g fn) (.block fn.body))
            .deferredAll).indent - 1) ++ "\x7d"] ++
        [indentStr ((genStep (fnFuel fn)
          (genStep (fnFuel fn) (functionEntryGen g fn) (.block fn.body))
            .deferredAll).indent - 1) ++ ""] from rfl]
    rw [ho6, ho5, functionEntryGen_output, hi6, hi5]
    simp [List.append_assoc]
  · rw [show (writeLine (writeLine
      { genStep (fnFuel fn) (genStep (fnFuel fn) (functionEntryGen g fn) (.block fn.body))
          .deferredAll with
        indent := (genStep (fnFuel fn)
          (genStep (fnFuel fn) (functionEntryGen g fn) (.block fn.body))
            .deferredAll).indent - 1 } "\x7d") "").indent =
      (genStep (fnFuel fn) (genStep (fnFuel fn) (functionEntryGen g fn) (.block fn.body))
          .deferredAll).indent - 1 from rfl]
    rw [hi6, hi5]
    omega
  · intro s hs
    simp only [List.append_assoc, List.mem_append, List.mem_singleton] at hs
    rcases hs with h | h | h | h | h
    · exact Or.inl h
    · exact Or.inr (Or.inl (hsp5x s h))
    · exact Or.inr (Or.inl (hsp6x s h))
    · exact Or.inr (Or.inr (Or.inl h))
    · exact Or.inr (Or.inr (Or.inr h))

end HG

namespace HG

theorem collectDecls_out : ∀ (p : List TopStmt) (g : Gen),
    (collectDecls g p).output = g.output := by
  intro p
  induction p with
  | nil => intro g; rfl
  | cons t rest ih =>
    intro g
    cases t with
    | funcT fn => exact ih _
    | structT st => exact ih _
    | otherT => exact ih _

theorem collectDecls_indent : ∀ (p : List TopStmt) (g : Gen),
    (collectDecls g p).indent = g.indent := by
  intro p
  induction p with
  | nil => intro g; rfl
  | cons t rest ih =>
    intro g
    cases t with
    | funcT fn => exact ih _
    | structT st => exact ih _
    | otherT => exact ih _

theorem structTypedefLines_lines : ∀ (l : List (String × StructSt)) (g : Gen),
    ∃ L, (structTypedefLines g l).output = g.output ++ L ∧
      (structTypedefLines g l).indent = g.indent ∧
      ∀ s ∈ L, ∃ n, s = indentStr g.indent ++
        ("typedef struct " ++ n ++ " " ++ n ++ ";") := by
  intro l
  induction l with
  | nil =>
    intro g
    exact ⟨[], by simp [structTypedefLines], rfl, by intro s hs; simp at hs⟩
  | cons kv rest ih =>
    intro g
    obtain ⟨L, ho, hi, hsh⟩ :=
      ih (writeLine g ("typedef struct " ++ kv.1 ++ " " ++ kv.1 ++ ";"))
    refine ⟨(indentStr g.indent ++ ("typedef struct " ++ kv.1 ++ " " ++ kv.1 ++ ";")) :: L,
      ?_, ?_, ?_⟩
    · show (structTypedefLines (writeLine g _) rest).output = _
      rw [ho, writeLine_output]
      simp
    · show (structTypedefLines (writeLine g _) rest).indent = _
      rw [hi, writeLine_indent]
    · intro s hs
      rw [List.mem_cons] at hs
      cases hs with
      | inl h => exact ⟨kv.1, h⟩
      | inr h =>
        obtain ⟨n, hn⟩ := hsh s h
        rw [writeLine_indent] at hn
        exact ⟨n, hn⟩

theorem extends_structFieldLines : ∀ (flds : List StructFld) (g : Gen),
    Extends g (structFieldLines g flds) := by
  intro flds
  induction flds with
  | nil => intro g; exact extends_refl g
  | cons fl rest ih =>
    intro g
    exact extends_trans (extends_writeLine g _) (ih _)

theorem generateStruct_lines (g : Gen) (st : StructSt) :
    ∃ L, (generateStruct g st).output = g.output ++ L ∧
      (generateStruct g st).indent = g.indent ∧
      ∀ s ∈ L, s = indentStr g.indent ++ ("struct " ++ st.name ++ " \x7b") ∨
        (∃ r, s.data = ' ' :: r) ∨
        s = indentStr g.indent ++ "\x7d;" ∨ s = indentStr g.indent ++ "" := by
  unfold generateStruct
  obtain ⟨hi2, -, -, L2, ho2, hsp2⟩ :=
    extends_structFieldLines st.fields
      { writeLine g ("struct " ++ st.name ++ " \x7b") with
        indent := (writeLine g ("struct " ++ st.name ++ " \x7b")).indent + 1 }
  have hsp2x := hsp2 (by dsimp only; omega)
  refine ⟨[indentStr g.indent ++ ("struct " ++ st.name ++ " \x7b")] ++ L2 ++
    [indentStr g.indent ++ "\x7d;"] ++ [indentStr g.indent ++ ""], ?_, ?_, ?_⟩
  · rw [show (writeLine (writeLine
      { structFieldLines
          { writeLine g ("struct " ++ st.name ++ " \x7b") with
            indent := (writeLine g ("struct " ++ st.name ++ " \x7b")).indent + 1 }
          st.fields with
        indent := (structFieldLines
          { writeLine g ("struct " ++ st.name ++ " \x7b") with
            indent := (writeLine g ("struct " ++ st.name ++ " \x7b")).indent + 1 }
          st.fields).indent - 1 } "\x7d;") "").output =
      (structFieldLines
          { writeLine g ("struct " ++ st.name ++ " \x7b") with
            indent := (writeLine g ("struct " ++ st.name ++ " \x7b")).indent + 1 }
          st.fields).output ++
        [indentStr ((structFieldLines
          { writeLine g ("struct " ++ st.name ++ " \x7b") with
            indent := (writeLine g ("struct " ++ st.name ++ " \x7b")).indent + 1 }
          st.fields).indent - 1) ++ "\x7d;"] ++
        [indentStr ((structFieldLines
          { writeLine g ("struct " ++ st.name ++ " \x7b") with
            indent := (writeLine g ("struct " ++ st.name ++ " \x7b")).indent + 1 }
          st.fields).indent - 1) ++ ""] from rfl]
    rw [ho2, hi2]
    simp [writeLine, List.append_assoc]
  · rw [show (writeLine (writeLine
      { structFieldLines
          { writeLine g ("struct " ++ st.name ++ " \x7b") with
            indent := (writeLine g ("struct " ++ st.name ++ " \x7b")).indent + 1 }
          st.fields with
        indent := (structFieldLines
          { writeLine g ("struct " ++ st.name ++ " \x7b") with
            indent := (writeLine g ("struct " ++ st.name ++ " \x7b")).indent + 1 }
          st.fields).indent - 1 } "\x7d;") "").indent =
      (structFieldLines
          { writeLine g ("struct " ++ st.name ++ " \x7b") with
            indent := (writeLine g ("struct " ++ st.name ++ " \x7b")).indent + 1 }
          st.fields).indent - 1 from rfl]
    rw [hi2]
    simp [writeLine]
  · intro s hs
    simp only [List.append_assoc, List.mem_append, List.mem_singleton] at hs
    rcases hs with h | h | h | h
    · exact Or.inl h
    · exact Or.inr (Or.inl (hsp2x s h))
    · exact Or.inr (Or.inr (Or.inl h))
    · exact Or.inr (Or.inr (Or.inr h))

end HG

namespace HG

theorem emitStructBodies_lines : ∀ (p : List TopStmt) (g : Gen),
    ∃ L, (emitStructBodies g p).output = g.output ++ L ∧
      (emitStructBodies g p).indent = g.indent ∧
      ∀ s ∈ L, (∃ n, s = indentStr g.indent ++ ("struct " ++ n ++ " \x7b")) ∨
        (∃ r, s.data = ' ' :: r) ∨
        s = indentStr g.indent ++ "\x7d;" ∨ s = indentStr g.indent ++ "" := by
  intro p
  induction p with
  | nil => intro g; exact ⟨[], by simp [emitStructBodies], rfl, by intro s hs; simp at hs⟩
  | cons t rest ih =>
    intro g
    cases t with
    | structT st =>
      obtain ⟨L1, h1o, h1i, h1s⟩ := generateStruct_lines g st
      obtain ⟨L2, h2o, h2i, h2s⟩ := ih (generateStruct g st)
      rw [h1i] at h2s h2i
      refine ⟨L1 ++ L2, ?_, ?_, ?_⟩
      · show (emitStructBodies (generateStruct g st) rest).output = _
        rw [h2o, h1o, List.append_assoc]
      · show (emitStructBodies (generateStruct g st) rest).indent = _
        rw [h2i]
      · intro s hs
        rw [List.mem_append] at hs
        cases hs with
        | inl h =>
          rcases h1s s h with h | h | h | h
          · exact Or.inl ⟨st.name, h⟩
          · exact Or.inr (Or.inl h)
          · exact Or.inr (Or.inr (Or.inl h))
          · exact Or.inr (Or.inr (Or.inr h))
        | inr h => exact h2s s h
    | funcT fn =>
      obtain ⟨L2, h2o, h2i, h2s⟩ := ih g
      exact ⟨L2, h2o, h2i, h2s⟩
    | otherT =>
      obtain ⟨L2, h2o, h2i, h2s⟩ := ih g
      exact ⟨L2, h2o, h2i, h2s⟩

theorem emitFnDecls_lines : ∀ (p : List TopStmt) (g : Gen),
    ∃ L, (emitFnDecls g p).output = g.output ++ L ∧
      (emitFnDecls g p).indent = g.indent ∧
      ∀ s ∈ L, ∃ fn, TopStmt.funcT fn ∈ p ∧
        s = indentStr g.indent ++ (fnSig fn ++ ";") := by
  intro p
  induction p with
  | nil => intro g; exact ⟨[], by simp [emitFnDecls], rfl, by intro s hs; simp at hs⟩
  | cons t rest ih =>
    intro g
    cases t with
    | funcT fn =>
      obtain ⟨L2, h2o, h2i, h2s⟩ := ih (generateFunctionDeclaration g fn)
      refine ⟨(indentStr g.indent ++ (fnSig fn ++ ";")) :: L2, ?_, ?_, ?_⟩
      · show (emitFnDecls (generateFunctionDeclaration g fn) rest).output = _
        rw [h2o]
        show (writeLine g _).output ++ L2 = _
        rw [writeLine_output]
        simp
      · show (emitFnDecls (generateFunctionDeclaration g fn) rest).indent = _
        rw [h2i]
        rfl
      · intro s hs
        rw [List.mem_cons] at hs
        cases hs with
        | inl h => exact ⟨fn, List.mem_cons_self _ _, h⟩
        | inr h =>
          obtain ⟨fn2, hm, he⟩ := h2s s h
          rw [show (generateFunctionDeclaration g fn).indent = g.indent from rfl] at he
          exact ⟨fn2, List.mem_cons_of_mem _ hm, he⟩
    | structT st =>
      obtain ⟨L2, h2o, h2i, h2s⟩ := ih g
      refine ⟨L2, h2o, h2i, ?_⟩
      intro s hs
      obtain ⟨fn2, hm, he⟩ := h2s s hs
      exact ⟨fn2, List.mem_cons_of_mem _ hm, he⟩
    | otherT =>
      obtain ⟨L2, h2o, h2i, h2s⟩ := ih g
      refine ⟨L2, h2o, h2i, ?_⟩
      intro s hs
      obtain ⟨fn2, hm, he⟩ := h2s s hs
      exact ⟨fn2, List.mem_cons_of_mem _ hm, he⟩

theorem emitFnImpls_lines : ∀ (p : List TopStmt) (g : Gen),
    ∃ L, (emitFnImpls g p).output = g.output ++ L ∧
      (emitFnImpls g p).indent = g.indent ∧
      ∀ s ∈ L, (∃ fn, TopStmt.funcT fn ∈ p ∧
          s = indentStr g.indent ++ (fnSig fn ++ " \x7b")) ∨
        (∃ r, s.data = ' ' :: r) ∨
        s = indentStr g.indent ++ "\x7d" ∨ s = indentStr g.indent ++ "" := by
  intro p
  induction p with
  | nil => intro g; exact ⟨[], by simp [emitFnImpls], rfl, by intro s hs; simp at hs⟩
  | cons t rest ih =>
    intro g
    cases t with
    | funcT fn =>
      obtain ⟨L1, h1o, h1i, h1s⟩ := generateFunction_lines g fn
      obtain ⟨L2, h2o, h2i, h2s⟩ := ih (generateFunction g fn)
      rw [h1i] at h2s h2i
      refine ⟨L1 ++ L2, ?_, ?_, ?_⟩
      · show (emitFnImpls (generateFunction g fn) rest).output = _
        rw [h2o, h1o, List.append_assoc]
      · show (emitFnImpls (generateFunction g fn) rest).indent = _
        rw [h2i]
      · intro s hs
        rw [List.mem_append] at hs
        cases hs with
        | inl h =>
          rcases h1s s h with h | h | h | h
          · exact Or.inl ⟨fn, List.mem_cons_self _ _, h⟩
          · exact Or.inr (Or.inl h)
          · exact Or.inr (Or.inr (Or.inl h))
          · exact Or.inr (Or.inr (Or.inr h))
        | inr h =>
          rcases h2s s h with ⟨fn2, hm, he⟩ | h | h | h
          · exact Or.inl ⟨fn2, List.mem_cons_of_mem _ hm, he⟩
          · exact Or.inr (Or.inl h)
          · exact Or.inr (Or.inr (Or.inl h))
          · exact Or.inr (Or.inr (Or.inr h))
    | structT st =>
      obtain ⟨L2, h2o, h2i, h2s⟩ := ih g
      refine ⟨L2, h2o, h2i, ?_⟩
      intro s hs
      rcases h2s s hs with ⟨fn2, hm, he⟩ | h | h | h
      · exact Or.inl ⟨fn2, List.mem_cons_of_mem _ hm, he⟩
      · exact Or.inr (Or.inl h)
      · exact Or.inr (Or.inr (Or.inl h))
      · exact Or.inr (Or.inr (Or.inr h))
    | otherT =>
      obtain ⟨L2, h2o, h2i, h2s⟩ := ih g
      refine ⟨L2, h2o, h2i, ?_⟩
      intro s hs
      rcases h2s s hs with ⟨fn2, hm, he⟩ | h | h | h
      · exact Or.inl ⟨fn2, List.mem_cons_of_mem _ hm, he⟩
      · exact Or.inr (Or.inl h)
      · exact Or.inr (Or.inr (Or.inl h))
      · exact Or.inr (Or.inr (Or.inr h))

end HG

namespace HG

theorem sep_split {α : Type} [DecidableEq α] (sep : α) :
    ∀ (a c b d : List α), (∀ x ∈ a, x ≠ sep) → (∀ x ∈ c, x ≠ sep) →
      a ++ sep :: b = c ++ sep :: d → a = c ∧ b = d := by
  intro a
  induction a with
  | nil =>
    intro c b d _ hc he
    cases c with
    | nil =>
      rw [List.nil_append, List.nil_append] at he
      exact ⟨rfl, (List.cons.injEq _ _ _ _ ▸ he).2⟩
    | cons x cs =>
      rw [List.nil_append, List.cons_append] at he
      exact absurd (List.cons.injEq _ _ _ _ ▸ he).1.symm (hc x (List.mem_cons_self _ _))
  | cons y as ih =>
    intro c b d ha hc he
    cases c with
    | nil =>
      rw [List.cons_append, List.nil_append] at he
      exact absurd (List.cons.injEq _ _ _ _ ▸ he).1 (ha y (List.mem_cons_self _ _))
    | cons x cs =>
      rw [List.cons_append, List.cons_append] at he
      have h1 := (List.cons.injEq _ _ _ _ ▸ he).1
      have h2 := (List.cons.injEq _ _ _ _ ▸ he).2
      obtain ⟨hac, hbd⟩ := ih cs b d
        (fun z hz => ha z (List.mem_cons_of_mem _ hz))
        (fun z hz => hc z (List.mem_cons_of_mem _ hz)) h2
      exact ⟨by rw [h1, hac], hbd⟩

theorem fnSig_data (fn : FunctionSt) (tail : List Char) :
    (fnSig fn).data ++ tail =
      (returnTypeC fn).data ++ ' ' ::
        ((mangledName fn).data ++ '(' ::
          ((generateParams fn).data ++ ')' :: tail)) := by
  show (((((returnTypeC fn ++ " ") ++ mangledName fn) ++ "(") ++ generateParams fn)
      ++ ")").data ++ tail = _
  simp only [show ∀ a b : String, (a ++ b).data = a.data ++ b.data from fun a b => rfl]
  simp [List.append_assoc]

theorem fnSig_data_ne (fn : FunctionSt) (hrf : reservedFree fn) (tail : List Char)
    (A B rest : List Char)
    (hA : ∀ x ∈ A, x ≠ ' ') (hB : ∀ x ∈ B, x ≠ '(')
    (hpre : "h_map".data <+: B) :
    (fnSig fn).data ++ tail ≠ A ++ ' ' :: (B ++ '(' :: rest) := by
  intro he
  rw [fnSig_data] at he
  obtain ⟨h1, h2⟩ := sep_split ' ' _ _ _ _ hrf.1 hA he
  obtain ⟨h3, -⟩ := sep_split '(' _ _ _ _
    (fun x hx => (hrf.2.1 x hx).2) hB h2
  exact hrf.2.2 (h3 ▸ hpre)

end HG

namespace HG

theorem header_facts : ∀ hl ∈ mapHeaderLines,
    hl ∉ headerLines ++ concatHelperLines ∧
    (∀ r, hl.data ≠ ' ' :: r) ∧
    (∀ n : String, hl ≠ indentStr 0 ++ ("typedef struct " ++ n ++ " " ++ n ++ ";")) ∧
    (∀ n : String, hl ≠ indentStr 0 ++ ("struct " ++ n ++ " \x7b")) ∧
    hl ≠ indentStr 0 ++ "" ∧ hl ≠ indentStr 0 ++ "\x7d" ∧
    hl ≠ indentStr 0 ++ "\x7d;" := by
  intro hl hhl
  simp only [mapHeaderLines, List.mem_cons, List.not_mem_nil, or_false] at hhl
  rcases hhl with rfl | rfl | rfl | rfl | rfl | rfl
  · refine ⟨by decide, ?_, ?_, ?_, by decide, by decide, by decide⟩
    · intro r h
      have h2 : (some 'h' : Option Char) = some ' ' := congrArg List.head? h
      exact absurd h2 (by decide)
    · intro n h
      have h2 : (some 'h' : Option Char) = some 't' :=
        congrArg (fun s : String => s.data.head?) h
      exact absurd h2 (by decide)
    · intro n h
      have h2 : (some 'h' : Option Char) = some 's' :=
        congrArg (fun s : String => s.data.head?) h
      exact absurd h2 (by decide)
  · refine ⟨by decide, ?_, ?_, ?_, by decide, by decide, by decide⟩
    · intro r h
      have h2 : (some 'v' : Option Char) = some ' ' := congrArg List.head? h
      exact absurd h2 (by decide)
    · intro n h
      have h2 : (some 'v' : Option Char) = some 't' :=
        congrArg (fun s : String => s.data.head?) h
      exact absurd h2 (by decide)
    · intro n h
      have h2 : (some 'v' : Option Char) = some 's' :=
        congrArg (fun s : String => s.data.head?) h
      exact absurd h2 (by decide)
  · refine ⟨by decide, ?_, ?_, ?_, by decide, by decide, by decide⟩
    · intro r h
      have h2 : (some 'v' : Option Char) = some ' ' := congrArg List.head? h
      exact absurd h2 (by decide)
    · intro n h
      have h2 : (some 'v' : Option Char) = some 't' :=
        congrArg (fun s : String => s.data.head?) h
      exact absurd h2 (by decide)
    · intro n h
      have h2 : (some 'v' : Option Char) = some 's' :=
        congrArg (fun s : String => s.data.head?) h
      exact absurd h2 (by decide)
  · refine ⟨by decide, ?_, ?_, ?_, by decide, by decide, by decide⟩
    · intro r h
      have h2 : (some 'v' : Option Char) = some ' ' := congrArg List.head? h
      exact absurd h2 (by decide)
    · intro n h
      have h2 : (some 'v' : Option Char) = some 't' :=
        congrArg (fun s : String => s.data.head?) h
      exact absurd h2 (by decide)
    · intro n h
      have h2 : (some 'v' : Option Char) = some 's' :=
        congrArg (fun s : String => s.data.head?) h
      exact absurd h2 (by decide)
  · refine ⟨by decide, ?_, ?_, ?_, by decide, by decide, by decide⟩
    · intro r h
      have h2 : (some 'i' : Option Char) = some ' ' := congrArg List.head? h
      exact absurd h2 (by decide)
    · intro n h
      have h2 : (some 'i' : Option Char) = some 't' :=
        congrArg (fun s : String => s.data.head?) h
      exact absurd h2 (by decide)
    · intro n h
      have h2 : (some 'i' : Option Char) = some 's' :=
        congrArg (fun s : String => s.data.head?) h
      exact absurd h2 (by decide)
  · refine ⟨by decide, ?_, ?_, ?_, by decide, by decide, by decide⟩
    · intro r h
      have h2 : (some 'v' : Option Char) = some ' ' := congrArg List.head? h
      exact absurd h2 (by decide)
    · intro n h
      have h2 : (some 'v' : Option Char) = some 't' :=
        congrArg (fun s : String => s.data.head?) h
      exact absurd h2 (by decide)
    · intro n h
      have h2 : (some 'v' : Option Char) = some 's' :=
        congrArg (fun s : String => s.data.head?) h
      exact absurd h2 (by decide)

theorem fnSigLine_ne_header (fn : FunctionSt) (hrf : reservedFree fn) (tail : String) :
    ∀ hl ∈ mapHeaderLines, indentStr 0 ++ (fnSig fn ++ tail) ≠ hl := by
  intro hl hhl heq
  have hd : (fnSig fn).data ++ tail.data = hl.data := congrArg String.data heq
  simp only [mapHeaderLines, List.mem_cons, List.not_mem_nil, or_false] at hhl
  rcases hhl with rfl | rfl | rfl | rfl | rfl | rfl
  · exact fnSig_data_ne fn hrf tail.data "h_map*".data "h_map_new".data
      (") \x7b").data (by decide) (by decide) (by decide)
      (hd.trans (by decide))
  · exact fnSig_data_ne fn hrf tail.data "void".data "h_map_set".data
      ("h_map* m, char* key, void* value) \x7b").data (by decide) (by decide)
      (by decide) (hd.trans (by decide))
  · exact fnSig_data_ne fn hrf tail.data "void*".data "h_map_get".data
      ("h_map* m, char* key) \x7b").data (by decide) (by decide) (by decide)
      (hd.trans (by decide))
  · exact fnSig_data_ne fn hrf tail.data "void".data "h_map_delete".data
      ("h_map* m, char* key) \x7b").data (by decide) (by decide) (by decide)
      (hd.trans (by decide))
  · exact fnSig_data_ne fn hrf tail.data "int".data "h_map_len".data
      ("h_map* m) \x7b").data (by decide) (by decide) (by decide)
      (hd.trans (by decide))
  · exact fnSig_data_ne fn hrf tail.data "void".data "h_map_free".data
      ("h_map* m) \x7b").data (by decide) (by decide) (by decide)
      (hd.trans (by decide))

end HG

namespace HG

theorem no_map_headers (p : List TopStmt) (hWF : WFProg p)
    (hnm : programUsesMap p = false) :
    ∀ hl ∈ mapHeaderLines, hl ∉ Generate p := by
  intro hl hhl hmem
  obtain ⟨hnotin, hspace, htydef, hstruct, hempty, hclose, hclose2⟩ :=
    header_facts hl hhl
  unfold Generate generateProgram at hmem
  dsimp only at hmem
  rw [hnm] at hmem
  simp only [if_neg (show ¬ (false = true) from by decide)] at hmem
  set g1 := collectDecls newGen p with hg1
  set g2 := { g1 with output := g1.output ++ headerLines ++ concatHelperLines } with hg2
  set g4 := structTypedefLines g2 g2.structs with hg4
  set g5 := (if g4.structs.isEmpty then g4 else writeLine g4 "") with hg5
  set g6 := emitStructBodies g5 p with hg6
  set g7 := emitFnDecls g6 p with hg7
  set g8 := (if g7.functions.isEmpty then g7 else writeLine g7 "") with hg8
  obtain ⟨LT, hTo, hTi, hTs⟩ := structTypedefLines_lines g2.structs g2
  obtain ⟨LS, hSo, hSi, hSs⟩ := emitStructBodies_lines p g5
  obtain ⟨LD, hDo, hDi, hDs⟩ := emitFnDecls_lines p g6
  obtain ⟨LI, hIo, hIi, hIs⟩ := emitFnImpls_lines p g8
  have hi1 : g1.indent = 0 := by rw [hg1, collectDecls_indent]; rfl
  have hi2 : g2.indent = 0 := by rw [hg2]; exact hi1
  have hi4 : g4.indent = 0 := by rw [hg4, hTi]; exact hi2
  have hi5 : g5.indent = 0 := by
    rw [hg5]
    split
    · exact hi4
    · rw [writeLine_indent]; exact hi4
  have hi6 : g6.indent = 0 := by rw [hg6, hSi]; exact hi5
  have hi7 : g7.indent = 0 := by rw [hg7, hDi]; exact hi6
  have hi8 : g8.indent = 0 := by
    rw [hg8]
    split
    · exact hi7
    · rw [writeLine_indent]; exact hi7
  rw [hIo, List.mem_append] at hmem
  rcases hmem with hmem | hmem
  swap
  · rcases hIs hl hmem with ⟨fn, hfnp, he⟩ | ⟨r, hr⟩ | he | he
    · rw [hi8] at he
      exact fnSigLine_ne_header fn (hWF fn hfnp) " \x7b" hl hhl he.symm
    · exact hspace r hr
    · rw [hi8] at he
      exact hclose he
    · rw [hi8] at he
      exact hempty he
  · rw [hg8] at hmem
    have hmem7 : hl ∈ g7.output := by
      by_cases hc : g7.functions.isEmpty
      · rwa [if_pos hc] at hmem
      · rw [if_neg hc, writeLine_output, hi7, List.mem_append,
          List.mem_singleton] at hmem
        rcases hmem with hmem | he
        · exact hmem
        · exact absurd he hempty
    rw [hg7, hDo, List.mem_append] at hmem7
    rcases hmem7 with hmem7 | hmem7
    swap
    · obtain ⟨fn, hfnp, he⟩ := hDs hl hmem7
      rw [hi6] at he
      exact fnSigLine_ne_header fn (hWF fn hfnp) ";" hl hhl he.symm
    · rw [hg6, hSo, List.mem_append] at hmem7
      rcases hmem7 with hmem6 | hmem6
      swap
      · rcases hSs hl hmem6 with ⟨n, he⟩ | ⟨r, hr⟩ | he | he
        · rw [hi5] at he
          exact hstruct n he
        · exact hspace r hr
        · rw [hi5] at he
          exact hclose2 he
        · rw [hi5] at he
          exact hempty he
      · rw [hg5] at hmem6
        have hmem4 : hl ∈ g4.output := by
          by_cases hc : g4.structs.isEmpty
          · rwa [if_pos hc] at hmem6
          · rw [if_neg hc, writeLine_output, hi4, List.mem_append,
              List.mem_singleton] at hmem6
            rcases hmem6 with hmem6 | he
            · exact hmem6
            · exact absurd he hempty
        rw [hg4, hTo, List.mem_append] at hmem4
        rcases hmem4 with hmem2 | hmem2
        swap
        · obtain ⟨n, he⟩ := hTs hl hmem2
          rw [hi2] at he
          exact htydef n he
        · rw [hg2] at hmem2
          dsimp only at hmem2
          rw [hg1, collectDecls_out] at hmem2
          rw [show (newGen.output : List String) = [] from rfl, List.nil_append,
            List.mem_append] at hmem2
          rw [List.mem_append] at hnotin
          push_neg at hnotin
          rcases hmem2 with h | h
          · exact hnotin.1 h
          · exact hnotin.2 h

end HG

namespace HG

mutual
theorem stmtBinds_uses (name : String) :
    ∀ s, stmtBindsMapLit name true s = true → stmtUsesMap s = true
  | .inferS n v, h => by
    cases v with
    | mapLit t pairs => simp [stmtUsesMap, exprUsesMap]
    | ident a => simp [stmtBindsMapLit] at h
    | intLit a => simp [stmtBindsMapLit] at h
    | floatLit a => simp [stmtBindsMapLit] at h
    | strLit a => simp [stmtBindsMapLit] at h
    | charLit a => simp [stmtBindsMapLit] at h
    | boolLit a => simp [stmtBindsMapLit] at h
    | nullLit => simp [stmtBindsMapLit] at h
    | prefixE a b => simp [stmtBindsMapLit] at h
    | infixE a b c => simp [stmtBindsMapLit] at h
    | postfixE a b => simp [stmtBindsMapLit] at h
    | assignE a b c => simp [stmtBindsMapLit] at h
    | call a b => simp [stmtBindsMapLit] at h
    | indexE a b => simp [stmtBindsMapLit] at h
    | member a b => simp [stmtBindsMapLit] at h
    | cast a b => simp [stmtBindsMapLit] at h
    | alloc a => simp [stmtBindsMapLit] at h
    | arrayLit a b => simp [stmtBindsMapLit] at h
    | makeE a b => simp [stmtBindsMapLit] at h
  | .ifS c thn alt, h => by
    simp only [stmtBindsMapLit, Bool.or_eq_true] at h
    rcases h with h | h
    · simp [stmtUsesMap, blockBinds_uses name thn h]
    · simp [stmtUsesMap, obBinds_uses name alt h]
  | .forS i c po body, h => by
    simp only [stmtBindsMapLit] at h
    simp [stmtUsesMap, blockBinds_uses name body h]
  | .whileS c body, h => by
    simp only [stmtBindsMapLit] at h
    simp [stmtUsesMap, blockBinds_uses name body h]
  | .forRangeS i vn it body, h => by
    simp only [stmtBindsMapLit] at h
    simp [stmtUsesMap, blockBinds_uses name body h]
  | .varS a b c, h => by simp [stmtBindsMapLit] at h
  | .constS a b, h => by simp [stmtBindsMapLit] at h
  | .returnS a, h => by simp [stmtBindsMapLit] at h
  | .freeS a, h => by simp [stmtBindsMapLit] at h
  | .deferS a, h => by simp [stmtBindsMapLit] at h
  | .exprS a, h => by simp [stmtBindsMapLit] at h
  | .breakS, h => by simp [stmtBindsMapLit] at h
  | .continueS, h => by simp [stmtBindsMapLit] at h
  | .deleteS a b, h => by simp [stmtBindsMapLit] at h

theorem blockBinds_uses (name : String) :
    ∀ b, blockBindsMapLit name true b = true → blockUsesMap b = true
  | .cons s rest, h => by
    simp only [blockBindsMapLit, Bool.or_eq_true] at h
    rcases h with h | h
    · simp [blockUsesMap, stmtBinds_uses name s h]
    · simp [blockUsesMap, blockBinds_uses name rest h]
  | .nil, h => by simp [blockBindsMapLit] at h

theorem obBinds_uses (name : String) :
    ∀ ob, obBindsMapLit name true ob = true → obUsesMap ob = true
  | .someB b, h => by
    simp only [obBindsMapLit] at h
    simp [obUsesMap, blockBinds_uses name b h]
  | .noneB, h => by simp [obBindsMapLit] at h
end

theorem progBinds_uses (name : String) : ∀ p : List TopStmt,
    progBindsMapLit name true p = true → programUsesMap p = true := by
  intro p
  induction p with
  | nil => intro h; simp [progBindsMapLit] at h
  | cons t rest ih =>
    intro h
    cases t with
    | funcT fn =>
      simp only [progBindsMapLit, Bool.or_eq_true] at h
      rcases h with h | h
      · simp [programUsesMap, fnUsesMap, blockBinds_uses name fn.body h]
      · simp [programUsesMap, ih h]
    | structT st =>
      simp only [progBindsMapLit] at h
      simp [programUsesMap, ih h]
    | otherT =>
      simp only [progBindsMapLit] at h
      simp [programUsesMap, ih h]

end HG

namespace HG

theorem mem_writeLine {g : Gen} {l : String} (s : String) (hm : l ∈ g.output) :
    l ∈ (writeLine g s).output := by
  rw [writeLine_output]
  exact List.mem_append_left _ hm

theorem mem_out_step {g : Gen} (f : Nat) (t : GTask) {l : String}
    (hm : l ∈ g.output) : l ∈ (genStep f g t).output := by
  rw [genStep_output_eq]
  exact List.mem_append_left _ hm

theorem mem_mapSetLines {g : Gen} {l : String} (name : String) (pairs : PairList)
    (hm : l ∈ g.output) : l ∈ (mapSetLines g name pairs).output :=
  mem_extends (extends_mapSetLines name pairs g) hm

theorem mapNew_suffix (ind name : String) :
    (mapNewLine name).data <:+ (ind ++ ("h_map* " ++ name ++ " = h_map_new();")).data :=
  List.suffix_append ind.data (mapNewLine name).data

theorem mapSetCall_infix (ind name a b c : String) :
    (mapSetCallStr name).data <:+:
      (ind ++ ("h_map_set(" ++ name ++ ", " ++ a ++ ", &(" ++ b ++ ")\x7b" ++ c ++
        "\x7d);")).data := by
  refine ⟨ind.data,
    (" " ++ a ++ ", &(" ++ b ++ ")\x7b" ++ c ++ "\x7d);").data, ?_⟩
  simp only [mapSetCallStr,
    show ∀ x y : String, (x ++ y).data = x.data ++ y.data from fun _ _ => rfl,
    show ("," : String).data = [','] from rfl,
    show (" " : String).data = [' '] from rfl,
    show (", " : String).data = [',', ' '] from rfl,
    List.append_assoc]
  rfl

end HG

namespace HG

theorem genStep_binds (name : String) : ∀ f : Nat,
    (∀ (g : Gen) (s : Stmt), stmtBindsMapLit name true s = true → sizeS s + 1 ≤ f →
      (∃ l ∈ (genStep f g (.stmt s)).output, (mapNewLine name).data <:+ l.data) ∧
      (∃ l ∈ (genStep f g (.stmt s)).output, (mapSetCallStr name).data <:+: l.data)) ∧
    (∀ (g : Gen) (b : StmtList), blockBindsMapLit name true b = true → sizeB b + 1 ≤ f →
      (∃ l ∈ (genStep f g (.block b)).output, (mapNewLine name).data <:+ l.data) ∧
      (∃ l ∈ (genStep f g (.block b)).output, (mapSetCallStr name).data <:+: l.data)) := by
  intro f
  induction f with
  | zero =>
    constructor
    · intro g s hb hf
      exact absurd hf (by omega)
    · intro g b hb hf
      exact absurd hf (by omega)
  | succ f ih =>
    constructor
    · intro g s hb hf
      cases s with
      | inferS n v =>
        cases v with
        | mapLit t pairs =>
          cases pairs with
          | nil => simp [stmtBindsMapLit] at hb
          | cons k v2 rest2 =>
            have hn : n = name := by simpa [stmtBindsMapLit] using hb
            subst hn
            simp only [genStep]
            set gA := writeLine { g with vars := insertA g.vars n "h_map*" }
              ("h_map* " ++ n ++ " = h_map_new();") with hgA
            constructor
            · refine ⟨indentStr g.indent ++ ("h_map* " ++ n ++ " = h_map_new();"),
                ?_, mapNew_suffix (indentStr g.indent) n⟩
              apply mem_mapSetLines
              rw [hgA, writeLine_output]
              exact List.mem_append_right _ (List.mem_singleton.mpr rfl)
            · refine ⟨indentStr g.indent ++
                ("h_map_set(" ++ n ++ ", " ++ generateExpression gA k ++ ", &(" ++
                  inferType gA v2 ++ ")\x7b" ++ generateExpression gA v2 ++ "\x7d);"),
                ?_, mapSetCall_infix (indentStr g.indent) n (generateExpression gA k)
                  (inferType gA v2) (generateExpression gA v2)⟩
              show _ ∈ (mapSetLines (writeLine gA
                ("h_map_set(" ++ n ++ ", " ++ generateExpression gA k ++ ", &(" ++
                  inferType gA v2 ++ ")\x7b" ++ generateExpression gA v2 ++ "\x7d);"))
                n rest2).output
              apply mem_mapSetLines
              rw [writeLine_output]
              exact List.mem_append_right _ (List.mem_singleton.mpr rfl)
        | ident a => simp [stmtBindsMapLit] at hb
        | intLit a => simp [stmtBindsMapLit] at hb
        | floatLit a => simp [stmtBindsMapLit] at hb
        | strLit a => simp [stmtBindsMapLit] at hb
        | charLit a => simp [stmtBindsMapLit] at hb
        | boolLit a => simp [stmtBindsMapLit] at hb
        | nullLit => simp [stmtBindsMapLit] at hb
        | prefixE a b => simp [stmtBindsMapLit] at hb
        | infixE a b c => simp [stmtBindsMapLit] at hb
        | postfixE a b => simp [stmtBindsMapLit] at hb
        | assignE a b c => simp [stmtBindsMapLit] at hb
        | call a b => simp [stmtBindsMapLit] at hb
        | indexE a b => simp [stmtBindsMapLit] at hb
        | member a b => simp [stmtBindsMapLit] at hb
        | cast a b => simp [stmtBindsMapLit] at hb
        | alloc a => simp [stmtBindsMapLit] at hb
        | arrayLit a b => simp [stmtBindsMapLit] at hb
        | makeE a b => simp [stmtBindsMapLit] at hb
      | ifS c thn alt =>
        simp only [stmtBindsMapLit, Bool.or_eq_true] at hb
        have hfu : sizeB thn + 1 ≤ f ∧ sizeOB alt + 1 ≤ f := by
          simp only [sizeS] at hf
          omega
        cases alt with
        | noneB =>
          rcases hb with hb | hb
          swap
          · simp [obBindsMapLit] at hb
          · obtain ⟨⟨l1, hm1, hp1⟩, ⟨l2, hm2, hp2⟩⟩ :=
              ih.2 { writeLine g ("if (" ++ generateExpression g c ++ ") \x7b") with
                indent := (writeLine g ("if (" ++ generateExpression g c ++ ") \x7b")).indent + 1 }
                thn hb hfu.1
            exact ⟨⟨l1, mem_writeLine _ hm1, hp1⟩, ⟨l2, mem_writeLine _ hm2, hp2⟩⟩
        | someB el =>
          rcases hb with hb | hb
          · obtain ⟨⟨l1, hm1, hp1⟩, ⟨l2, hm2, hp2⟩⟩ :=
              ih.2 { writeLine g ("if (" ++ generateExpression g c ++ ") \x7b") with
                indent := (writeLine g ("if (" ++ generateExpression g c ++ ") \x7b")).indent + 1 }
                thn hb hfu.1
            refine ⟨⟨l1, ?_, hp1⟩, ⟨l2, ?_, hp2⟩⟩
            · exact mem_writeLine _ (mem_out_step f _ (mem_writeLine _ hm1))
            · exact mem_writeLine _ (mem_out_step f _ (mem_writeLine _ hm2))
          · have hb2 : blockBindsMapLit name true el = true := by
              simpa [obBindsMapLit] using hb
            have hfu2 : sizeB el + 1 ≤ f := by
              simp only [sizeOB] at hfu
              exact hfu.2
            obtain ⟨⟨l1, hm1, hp1⟩, ⟨l2, hm2, hp2⟩⟩ := ih.2 _ el hb2 hfu2
            exact ⟨⟨l1, mem_writeLine _ hm1, hp1⟩, ⟨l2, mem_writeLine _ hm2, hp2⟩⟩
      | forS ini cond post body =>
        simp only [stmtBindsMapLit] at hb
        have hfu : sizeB body + 1 ≤ f := by
          simp only [sizeS] at hf
          omega
        obtain ⟨⟨l1, hm1, hp1⟩, ⟨l2, hm2, hp2⟩⟩ := ih.2 _ body hb hfu
        exact ⟨⟨l1, mem_writeLine _ hm1, hp1⟩, ⟨l2, mem_writeLine _ hm2, hp2⟩⟩
      | whileS c body =>
        simp only [stmtBindsMapLit] at hb
        have hfu : sizeB body + 1 ≤ f := by
          simp only [sizeS] at hf
          omega
        obtain ⟨⟨l1, hm1, hp1⟩, ⟨l2, hm2, hp2⟩⟩ := ih.2 _ body hb hfu
        exact ⟨⟨l1, mem_writeLine _ hm1, hp1⟩, ⟨l2, mem_writeLine _ hm2, hp2⟩⟩
      | forRangeS idx vn iter body =>
        simp only [stmtBindsMapLit] at hb
        have hfu : sizeB body + 1 ≤ f := by
          simp only [sizeS] at hf
          omega
        cases vn with
        | some v2 =>
          obtain ⟨⟨l1, hm1, hp1⟩, ⟨l2, hm2, hp2⟩⟩ := ih.2 _ body hb hfu
          exact ⟨⟨l1, mem_writeLine _ hm1, hp1⟩, ⟨l2, mem_writeLine _ hm2, hp2⟩⟩
        | none =>
          obtain ⟨⟨l1, hm1, hp1⟩, ⟨l2, hm2, hp2⟩⟩ := ih.2 _ body hb hfu
          exact ⟨⟨l1, mem_writeLine _ hm1, hp1⟩, ⟨l2, mem_writeLine _ hm2, hp2⟩⟩
      | varS a b c => simp [stmtBindsMapLit] at hb
      | constS a b => simp [stmtBindsMapLit] at hb
      | returnS a => simp [stmtBindsMapLit] at hb
      | freeS a => simp [stmtBindsMapLit] at hb
      | deferS a => simp [stmtBindsMapLit] at hb
      | exprS a => simp [stmtBindsMapLit] at hb
      | breakS => simp [stmtBindsMapLit] at hb
      | continueS => simp [stmtBindsMapLit] at hb
      | deleteS a b => simp [stmtBindsMapLit] at hb
    · intro g b hb hf
      cases b with
      | nil => simp [blockBindsMapLit] at hb
      | cons s rest =>
        simp only [blockBindsMapLit, Bool.or_eq_true] at hb
        have hfu : sizeS s + 1 ≤ f ∧ sizeB rest + 1 ≤ f := by
          simp only [sizeB] at hf
          omega
        rcases hb with hb | hb
        · obtain ⟨⟨l1, hm1, hp1⟩, ⟨l2, hm2, hp2⟩⟩ := ih.1 g s hb hfu.1
          exact ⟨⟨l1, mem_out_step f _ hm1, hp1⟩, ⟨l2, mem_out_step f _ hm2, hp2⟩⟩
        · exact ih.2 _ rest hb hfu.2

end HG

namespace HG

theorem infix_ext {R A B : List String} (h : R <:+: A) : R <:+: A ++ B := by
  obtain ⟨s, t, hst⟩ := h
  exact ⟨s, t ++ B, by rw [← hst]; simp [List.append_assoc]⟩

theorem mem_emitFnImpls {g : Gen} {l : String} (p : List TopStmt)
    (hm : l ∈ g.output) : l ∈ (emitFnImpls g p).output := by
  obtain ⟨L, ho, -, -⟩ := emitFnImpls_lines p g
  rw [ho]
  exact List.mem_append_left _ hm

theorem generateFunction_binds (name : String) (g : Gen) (fn : FunctionSt)
    (hb : blockBindsMapLit name true fn.body = true) :
    (∃ l ∈ (generateFunction g fn).output, (mapNewLine name).data <:+ l.data) ∧
    (∃ l ∈ (generateFunction g fn).output, (mapSetCallStr name).data <:+: l.data) := by
  obtain ⟨⟨l1, hm1, hp1⟩, ⟨l2, hm2, hp2⟩⟩ :=
    (genStep_binds name (fnFuel fn)).2 (functionEntryGen g fn) fn.body hb
      (by unfold fnFuel; omega)
  unfold generateFunction generateBlock emitDeferredStatements
  refine ⟨⟨l1, ?_, hp1⟩, ⟨l2, ?_, hp2⟩⟩
  · rw [show (writeLine (writeLine
      { genStep (fnFuel fn) (genStep (fnFuel fn) (functionEntryGen g fn) (.block fn.body))
          .deferredAll with
        indent := (genStep (fnFuel fn)
          (genStep (fnFuel fn) (functionEntryGen g fn) (.block fn.body))
            .deferredAll).indent - 1 } "\x7d") "").output =
      (genStep (fnFuel fn) (genStep (fnFuel fn) (functionEntryGen g fn) (.block fn.body))
          .deferredAll).output ++
        [indentStr ((genStep (fnFuel fn)
          (genStep (fnFuel fn) (functionEntryGen g fn) (.block fn.body))
            .deferredAll).indent - 1) ++ "\x7d"] ++
        [indentStr ((genStep (fnFuel fn)
          (genStep (fnFuel fn) (functionEntryGen g fn) (.block fn.body))
            .deferredAll).indent - 1) ++ ""] from rfl, genStep_output_eq (fnFuel fn) _ .deferredAll]
    exact List.mem_append_left _ (List.mem_append_left _ (List.mem_append_left _ hm1))
  · rw [show (writeLine (writeLine
      { genStep (fnFuel fn) (genStep (fnFuel fn) (functionEntryGen g fn) (.block fn.body))
          .deferredAll with
        indent := (genStep (fnFuel fn)
          (genStep (fnFuel fn) (functionEntryGen g fn) (.block fn.body))
            .deferredAll).indent - 1 } "\x7d") "").output =
      (genStep (fnFuel fn) (genStep (fnFuel fn) (functionEntryGen g fn) (.block fn.body))
          .deferredAll).output ++
        [indentStr ((genStep (fnFuel fn)
          (genStep (fnFuel fn) (functionEntryGen g fn) (.block fn.body))
            .deferredAll).indent - 1) ++ "\x7d"] ++
        [indentStr ((genStep (fnFuel fn)
          (genStep (fnFuel fn) (functionEntryGen g fn) (.block fn.body))
            .deferredAll).indent - 1) ++ ""] from rfl, genStep_output_eq (fnFuel fn) _ .deferredAll]
    exact List.mem_append_left _ (List.mem_append_left _ (List.mem_append_left _ hm2))

theorem emitFnImpls_binds (name : String) : ∀ (p : List TopStmt) (g : Gen),
    progBindsMapLit name true p = true →
    (∃ l ∈ (emitFnImpls g p).output, (mapNewLine name).data <:+ l.data) ∧
    (∃ l ∈ (emitFnImpls g p).output, (mapSetCallStr name).data <:+: l.data) := by
  intro p
  induction p with
  | nil => intro g hb; simp [progBindsMapLit] at hb
  | cons t rest ih =>
    intro g hb
    cases t with
    | funcT fn =>
      simp only [progBindsMapLit, Bool.or_eq_true] at hb
      rcases hb with hb | hb
      · obtain ⟨⟨l1, hm1, hp1⟩, ⟨l2, hm2, hp2⟩⟩ := generateFunction_binds name g fn hb
        exact ⟨⟨l1, mem_emitFnImpls rest hm1, hp1⟩, ⟨l2, mem_emitFnImpls rest hm2, hp2⟩⟩
      · exact ih _ hb
    | structT st =>
      simp only [progBindsMapLit] at hb
      exact ih _ hb
    | otherT =>
      simp only [progBindsMapLit] at hb
      exact ih _ hb

end HG

namespace HG

/-- C1 (amended by `needPair`): for every program in which an `Infer`
statement binds `name` to a map literal with at least one key/value pair, the
generated C output contains a line ending in `h_map* name = h_map_new();`, a
line containing a call `h_map_set(name,`, and the full map runtime (whose
lines include the definitions of the six `h_map_*` functions) as a
consecutive block; and for every program that uses no map feature and whose
function signatures keep clear of the reserved `h_map` namespace, none of the
six runtime function definition headers appears in the output. -/
theorem c1_map_runtime :
    (∀ (p : List TopStmt) (name : String), progBindsMapLit name true p = true →
      (∃ l ∈ Generate p, (mapNewLine name).data <:+ l.data) ∧
      (∃ l ∈ Generate p, (mapSetCallStr name).data <:+: l.data) ∧
      mapRuntimeLines <:+: Generate p) ∧
    (∀ p : List TopStmt, WFProg p → programUsesMap p = false →
      ∀ hl ∈ mapHeaderLines, hl ∉ Generate p) := by
  constructor
  swap
  · exact fun p hWF hnm => no_map_headers p hWF hnm
  · intro p name hb
    have hu : programUsesMap p = true := progBinds_uses name p hb
    unfold Generate generateProgram
    dsimp only
    rw [hu]
    simp only [eq_self_iff_true, if_true]
    set g1 := collectDecls newGen p with hg1
    set g2 := { g1 with output := g1.output ++ headerLines ++ concatHelperLines } with hg2
    set g3 := { g2 with output := g2.output ++ mapRuntimeLines } with hg3
    set g4 := structTypedefLines g3 g3.structs with hg4
    set g5 := (if g4.structs.isEmpty then g4 else writeLine g4 "") with hg5
    set g6 := emitStructBodies g5 p with hg6
    set g7 := emitFnDecls g6 p with hg7
    set g8 := (if g7.functions.isEmpty then g7 else writeLine g7 "") with hg8
    obtain ⟨⟨l1, hm1, hp1⟩, ⟨l2, hm2, hp2⟩⟩ := emitFnImpls_binds name p g8 hb
    refine ⟨⟨l1, hm1, hp1⟩, ⟨l2, hm2, hp2⟩, ?_⟩
    have h3 : mapRuntimeLines <:+: g3.output := by
      rw [hg3]
      exact ⟨g2.output, [], by simp⟩
    have h4 : mapRuntimeLines <:+: g4.output := by
      obtain ⟨LT, hTo, -, -⟩ := structTypedefLines_lines g3.structs g3
      rw [hg4, hTo]
      exact infix_ext h3
    have h5 : mapRuntimeLines <:+: g5.output := by
      rw [hg5]
      split
      · exact h4
      · rw [writeLine_output]
        exact infix_ext h4
    have h6 : mapRuntimeLines <:+: g6.output := by
      obtain ⟨LS, hSo, -, -⟩ := emitStructBodies_lines p g5
      rw [hg6, hSo]
      exact infix_ext h5
    have h7 : mapRuntimeLines <:+: g7.output := by
      obtain ⟨LD, hDo, -, -⟩ := emitFnDecls_lines p g6
      rw [hg7, hDo]
      exact infix_ext h6
    have h8 : mapRuntimeLines <:+: g8.output := by
      rw [hg8]
      split
      · exact h7
      · rw [writeLine_output]
        exact infix_ext h7
    obtain ⟨LI, hIo, -, -⟩ := emitFnImpls_lines p g8
    rw [hIo]
    exact infix_ext h8

end HG

namespace HG

/-- C1 (counterexample): the program `function main() \x7b ages := map[string]int\x7b\x7d \x7d`
binds a map literal with an `Infer` statement, and its output contains the
`h_map* ages = h_map_new();` declaration — but no `h_map_set(ages,` call at
all: an empty literal emits no `h_map_set`, refuting the unamended "at least
one call" claim. -/
theorem c1_counterexample :
    progBindsMapLit "ages" false c1EmptyMapProg = true ∧
    (∃ l ∈ Generate c1EmptyMapProg, (mapNewLine "ages").data <:+ l.data) ∧
    (∀ l ∈ Generate c1EmptyMapProg, ¬ (mapSetCallStr "ages").data <:+: l.data) := by
  set_option maxRecDepth 10000 in decide

end HG
